import Mathlib

/-! # AMR example: a shallow embedding of the task-dispatch core

The C++ sources embedded here are `basic_structs.hpp`, `basic_routines.cpp`,
`amr_task_executors.cpp`, `amr_unit.cpp` and the message callback of
`amr_interface.cpp`.

Conventions of the embedding

* `double` is read in two ways.  In the idealised reading coordinates and
  lengths live in a linearly ordered field `K` (no rounding, no overflow), and
  `sqrt` is a parameter of type `K → K`; instantiating `K := ℝ` and
  `sqrt := Real.sqrt` gives the Euclidean reading of the code.  In the binary64
  reading (type `Double`, functions with the suffix `64`) every operation is
  rounded as IEEE 754 prescribes.  Every definition is computable.
* `std::vector` is `List`; an out-of-range `operator[]` (undefined behaviour in
  C++) makes the embedded function return `none`.
* `std::map` is an association list kept in strictly ascending key order.
* text written to a `std::ostream` is the list of its lines.
-/

namespace AMR

/-! ## basic_structs.hpp -/

/-- Struct `Coordinates2D`: a point of the plane. -/
structure Coordinates2D (K : Type) where
  x : K
  y : K
deriving DecidableEq, Repr

/-- Struct `Position`: coordinates and yaw. -/
structure Position (K : Type) where
  coords_2d : Coordinates2D K
  yaw : K
deriving DecidableEq, Repr

/-- Struct `ProductPart`: the name of a part and where it is picked up. -/
structure ProductPart (K : Type) where
  name : String
  coords : Coordinates2D K
deriving DecidableEq, Repr

/-- The type `std::map<long long, V>`: key/value pairs in ascending key order. -/
abbrev IdMap (V : Type) := List (Int × V)

/-- Struct `Product`: the name and the map from part id to required quantity. -/
structure Product where
  name : String
  parts : IdMap Int
deriving DecidableEq, Repr

/-- The typedef `ProcessedProductParts`: part id ↦ sequence of (product id, quantity). -/
abbrev ProcessedProductParts := IdMap (List (Int × Int))

/-! ## basic_routines.cpp: path length -/

section PathLength

variable {K : Type} [LinearOrderedField K]

/-- The expression `sqrt(x_diff * x_diff + y_diff * y_diff)` with the differences
taken from `a` to `b`. -/
def segmentLength (sqrt : K → K) (a b : Coordinates2D K) : K :=
  sqrt ((b.x - a.x) * (b.x - a.x) + (b.y - a.y) * (b.y - a.y))

/-- The `for` loop of `determinePathLength` (lines 25-31): starting from the
accumulated `path_length`, add the segment between each two consecutive entries
of `pickup_order`. -/
def addInnerSegments (sqrt : K → K) (part_locations : List (Coordinates2D K)) :
    List Nat → K → Option K
  | a :: b :: rest, path_length =>
    match part_locations[a]?, part_locations[b]? with
    | some pa, some pb =>
      addInnerSegments sqrt part_locations (b :: rest) (path_length + segmentLength sqrt pa pb)
    | _, _ => none
  | _, path_length => some path_length

/-- Function `AMR::determinePathLength`: first segment from the starting point to
`part_locations[pickup_order[0]]`, the inner segments, and last the segment from
`part_locations.back()` to the delivery point.  The sums are exact here; the
binary64 reading is `determinePathLength64`. -/
def determinePathLength (sqrt : K → K) (starting_point : Coordinates2D K)
    (part_locations : List (Coordinates2D K)) (delivery_point : Coordinates2D K)
    (pickup_order : List Nat) : Option K :=
  match pickup_order[0]? with
  | none => none
  | some i0 =>
    match part_locations[i0]? with
    | none => none
    | some first =>
      match addInnerSegments sqrt part_locations pickup_order
          (segmentLength sqrt starting_point first) with
      | none => none
      | some path_length =>
        match part_locations.getLast? with
        | none => none
        | some back => some (path_length + segmentLength sqrt back delivery_point)

end PathLength

/-! ## std::next_permutation -/

/-- In an ascending list, replace the first entry greater than `x` by `x` and
return that entry together with the new list. -/
def replaceFirstGreater (x : Nat) : List Nat → Option (Nat × List Nat)
  | [] => none
  | y :: ys =>
    if x < y then some (y, x :: ys)
    else
      match replaceFirstGreater x ys with
      | some (z, ys') => some (z, y :: ys')
      | none => none

/-- Library function `std::next_permutation` on a sequence of indices: find the
last position whose entry is smaller than its successor, swap that entry with
the rightmost entry greater than it and reverse the suffix behind it.  The
result is `none` when the sequence has no such position (the library then
returns `false`). -/
def nextPermutation : List Nat → Option (List Nat)
  | [] => none
  | x :: rest =>
    match nextPermutation rest with
    | some rest' => some (x :: rest')
    | none =>
      match replaceFirstGreater x rest.reverse with
      | some (y, suffix) => some (y :: suffix)
      | none => none

/-! ## basic_routines.cpp: exhaustive search -/

section ShortestPath

variable {K : Type} [LinearOrderedField K]

/-- The comparison `currentPathLength < shortestPathLength`, where `none` stands
for the initial value `std::numeric_limits<double>::max()`: in the idealised
reading every length lies below it.  In binary64 a length can be infinite or NaN
and is then not below it; `searchLoop64` compares with `Double.max` itself. -/
def belowShortest (currentPathLength : K) : Option K → Bool
  | none => true
  | some shortestPathLength => decide (currentPathLength < shortestPathLength)

/-- The `do ... while (std::next_permutation(...))` loop of
`determineShortestPath` (lines 59-65); `fuel` bounds the number of iterations. -/
def searchLoop (pathLength : List Nat → Option K) :
    Nat → List Nat → List Nat → Option K → Option (List Nat)
  | 0, _, _, _ => none
  | fuel + 1, pickup_order, bestOrder, shortestPathLength =>
    match pathLength pickup_order with
    | none => none
    | some currentPathLength =>
      let better := belowShortest currentPathLength shortestPathLength
      let bestOrder' := if better then pickup_order else bestOrder
      let shortest' := if better then some currentPathLength else shortestPathLength
      match nextPermutation pickup_order with
      | some next => searchLoop pathLength fuel next bestOrder' shortest'
      | none => some bestOrder'

/-- Function `AMR::determineShortestPath`: `pickup_order` is resized and filled by
`std::iota`, then every permutation is measured with `determinePathLength` and
the first strictly shortest one is kept.  The loop gets `n!` iterations. -/
def determineShortestPath (sqrt : K → K) (starting_point : Coordinates2D K)
    (part_locations : List (Coordinates2D K)) (delivery_point : Coordinates2D K) :
    Option (List Nat) :=
  let pickup_order := List.range part_locations.length
  searchLoop (determinePathLength sqrt starting_point part_locations delivery_point)
    part_locations.length.factorial pickup_order pickup_order none

end ShortestPath

/-! ## IEEE 754 binary64: the arithmetic of `double`

The sections above read `double` as an ordered field.  This section gives the
operations their binary64 meaning (round to nearest, ties to even, overflow to
infinity, NaN), with each operation of the source rounded on its own, and
repeats the route planner over it. -/

section Binary64

/-- A value of type `double`.  A finite value is the integer multiple
`units * 2^(-1074)` of the least positive subnormal number (every finite
binary64 number is such a multiple); the two zeros are not told apart. -/
inductive Double where
  | finite (units : Int)
  | infinity (negative : Bool)
  | nan
deriving DecidableEq, Repr

/-- Search for the width of the exponent of the leading bit: the least `k'`
from `k` on with `n < 2 ^ 2 ^ k'`. -/
def log2Width (n : Nat) : Nat → Nat → Nat
  | 0, k => k
  | fuel + 1, k => if n < 2 ^ 2 ^ k then k else log2Width n fuel (k + 1)

/-- Binary search for the exponent of the leading bit: from
`2 ^ e ≤ n < 2 ^ (e + 2 ^ i)` to the `e'` with `2 ^ e' ≤ n < 2 ^ (e' + 1)`. -/
def log2Bits (n : Nat) : Nat → Nat → Nat
  | 0, e => e
  | i + 1, e => if 2 ^ (e + 2 ^ i) ≤ n then log2Bits n i (e + 2 ^ i) else log2Bits n i e

/-- The exponent of the leading bit of `n`: the `e` with `2 ^ e ≤ n < 2 ^ (e + 1)`,
and 0 for `n = 0`. -/
def ilog2 (n : Nat) : Nat :=
  log2Bits n (log2Width n n 0) 0

/-- The quotient `n / 2 ^ shift` rounded to the nearest integer, ties to even. -/
def roundHalfEven (n shift : Nat) : Nat :=
  let q := n / 2 ^ shift
  let r := n % 2 ^ shift
  if 2 ^ shift < 2 * r ∨ (2 ^ shift = 2 * r ∧ q % 2 = 1) then q + 1 else q

/-- The number of units nearest to `n / 2 ^ k` units among the numbers with at
most 53 significant bits (ties to even): below `2 ^ 53` units the grid is the
integers, above it the grid of the binade of `n / 2 ^ k`. -/
def roundMagnitude (n k : Nat) : Nat :=
  let shift := max k (ilog2 n - 52)
  roundHalfEven n shift * 2 ^ (shift - k)

/-- Rounding of the exact result `± n / 2 ^ k` units to a `double`: to nearest,
and to infinity when the rounded magnitude reaches `2 ^ 1024`, that is
`2 ^ 2098` units. -/
def Double.round (negative : Bool) (n k : Nat) : Double :=
  let m := roundMagnitude n k
  if 2 ^ 2098 ≤ m then Double.infinity negative
  else Double.finite (if negative then -(m : Int) else (m : Int))

/-- Unary minus. -/
def Double.neg : Double → Double
  | Double.finite a => Double.finite (-a)
  | Double.infinity negative => Double.infinity (!negative)
  | Double.nan => Double.nan

/-- The operator `+` on `double`. -/
def Double.add : Double → Double → Double
  | Double.finite a, Double.finite b => Double.round (decide (a + b < 0)) (a + b).natAbs 0
  | Double.finite _, Double.infinity negative => Double.infinity negative
  | Double.infinity negative, Double.finite _ => Double.infinity negative
  | Double.infinity negative, Double.infinity negative' =>
    if negative = negative' then Double.infinity negative else Double.nan
  | _, _ => Double.nan

/-- The operator `-` on `double`. -/
def Double.sub (a b : Double) : Double :=
  Double.add a (Double.neg b)

/-- The operator `*` on `double`: the exact product of `a` and `b` units is
`a * b / 2 ^ 1074` units. -/
def Double.mul : Double → Double → Double
  | Double.finite a, Double.finite b => Double.round (decide (a * b < 0)) (a * b).natAbs 1074
  | Double.finite a, Double.infinity negative =>
    if a = 0 then Double.nan else Double.infinity (decide (a < 0) != negative)
  | Double.infinity negative, Double.finite b =>
    if b = 0 then Double.nan else Double.infinity (negative != decide (b < 0))
  | Double.infinity negative, Double.infinity negative' =>
    Double.infinity (negative != negative')
  | _, _ => Double.nan

/-- Newton iteration for the integer square root, from a start above the root. -/
def isqrtLoop (n : Nat) : Nat → Nat → Nat
  | 0, x => x
  | fuel + 1, x =>
    let y := (x + n / x) / 2
    if y < x then isqrtLoop n fuel y else x

/-- The integer part of the square root of `n`. -/
def isqrt (n : Nat) : Nat :=
  if n = 0 then 0
  else isqrtLoop n (2 ^ (ilog2 n / 2 + 1)) (2 ^ (ilog2 n / 2 + 1))

/-- The correctly rounded square root of `n` units, in units: the exact root is
the square root of `n * 2 ^ 1074`; `m` is its leading 53 bits, rounded up when
the root lies above the midpoint `(m + 1/2) * 2 ^ t` (or on it, with `m` odd). -/
def sqrtMagnitude (n : Nat) : Nat :=
  let s := isqrt (n * 2 ^ 1074)
  let t := ilog2 s - 52
  let m := s / 2 ^ t
  let m' :=
    if (2 * m + 1) ^ 2 * 4 ^ t < 4 * (n * 2 ^ 1074)
        ∨ ((2 * m + 1) ^ 2 * 4 ^ t = 4 * (n * 2 ^ 1074) ∧ m % 2 = 1) then m + 1
    else m
  m' * 2 ^ t

/-- Library function `sqrt` of `math.h` (correctly rounded, as IEEE 754 requires). -/
def Double.sqrt : Double → Double
  | Double.finite a =>
    if a < 0 then Double.nan else Double.finite (sqrtMagnitude a.natAbs : Nat)
  | Double.infinity negative => if negative then Double.nan else Double.infinity false
  | Double.nan => Double.nan

/-- The operator `<` on `double`; every comparison with NaN is false. -/
def Double.lt : Double → Double → Bool
  | Double.finite a, Double.finite b => decide (a < b)
  | Double.finite _, Double.infinity negative => !negative
  | Double.infinity negative, Double.finite _ => negative
  | Double.infinity negative, Double.infinity negative' => negative && !negative'
  | _, _ => false

/-- The constant `std::numeric_limits<double>::max()`, that is
`(2 ^ 53 - 1) * 2 ^ 971`. -/
def Double.max : Double :=
  Double.finite ((2 ^ 53 - 1) * 2 ^ 2045)

/-- The `double` with the given 64-bit pattern: sign bit, 11 exponent bits, 52
fraction bits. -/
def Double.ofBits (bits : Nat) : Double :=
  let negative := decide (bits / 2 ^ 63 % 2 = 1)
  let e := bits / 2 ^ 52 % 2 ^ 11
  let f := bits % 2 ^ 52
  if e = 2047 then (if f = 0 then Double.infinity negative else Double.nan)
  else
    let m : Nat := if e = 0 then f else (2 ^ 52 + f) * 2 ^ (e - 1)
    Double.finite (if negative then -(m : Int) else (m : Int))

end Binary64

/-! ## The route length of the specification -/

section RouteLength

variable {K : Type} [LinearOrderedField K]

/-- The sum `Σ dist(w[p[i]], w[p[i+1]])` over consecutive entries of the order `p`. -/
def innerRouteLength (sqrt : K → K) (w : List (Coordinates2D K)) : List Nat → Option K
  | a :: b :: rest =>
    match w[a]?, w[b]?, innerRouteLength sqrt w (b :: rest) with
    | some pa, some pb, some r => some (segmentLength sqrt pa pb + r)
    | _, _, _ => none
  | _ => some 0

/-- Route length as the specification writes it:
`dist(start, w[p[0]]) + Σ dist(w[p[i]], w[p[i+1]]) + dist(w[p[last]], end)`. -/
def routeLength (sqrt : K → K) (start : Coordinates2D K) (w : List (Coordinates2D K))
    (delivery : Coordinates2D K) (p : List Nat) : Option K :=
  match p.head?, p.getLast? with
  | some i0, some il =>
    match w[i0]?, innerRouteLength sqrt w p, w[il]? with
    | some first, some inner, some last =>
      some (segmentLength sqrt start first + inner + segmentLength sqrt last delivery)
    | _, _, _ => none
  | _, _ => none

end RouteLength

/-! ## Lexicographic order on index sequences -/

/-- Strict lexicographic order on sequences of indices. -/
def lexLt : List Nat → List Nat → Bool
  | [], [] => false
  | [], _ :: _ => true
  | _ :: _, [] => false
  | a :: as, b :: bs => decide (a < b) || (decide (a = b) && lexLt as bs)

/-- Number of rearrangements of `l` that come after `l` lexicographically,
counted in `l.permutations`. -/
def laterCount (l : List Nat) : Nat :=
  l.permutations.countP (lexLt l)

/-- Invariant of the search loop at the head of an iteration, `len` being the
length function.  Before the first comparison (`shortest = none`) nothing comes
before `cur`; afterwards `best` is a rearrangement met before `cur`, `shortest`
is its length, no rearrangement met before `cur` is shorter, and none of the same
length comes before `best`. -/
def SearchInv {K : Type} [LinearOrderedField K] (len : List Nat → Option K)
    (cur best : List Nat) (shortest : Option K) : Prop :=
  match shortest with
  | none => ∀ q : List Nat, q.Perm cur → lexLt q cur = false
  | some s =>
    best.Perm cur ∧ lexLt best cur = true ∧ len best = some s ∧
      ∀ q : List Nat, q.Perm cur → lexLt q cur = true →
        ∃ u, len q = some u ∧ s ≤ u ∧ (u = s → lexLt q best = false)

/-! ## std::vector and std::map -/

section Containers

variable {V : Type}

/-- Access `v[i]` of a `std::vector` with an index of type `long long`; a negative
or too large index is out of range. -/
def vectorAt {α : Type} (v : List α) (i : Int) : Option α :=
  if i < 0 then none else v[i.toNat]?

/-- Member `std::map::find`: the value stored under `key`, if there is one. -/
def IdMap.find (m : IdMap V) (key : Int) : Option V :=
  match m with
  | [] => none
  | (k, v) :: rest => if k = key then some v else IdMap.find rest key

/-- Member `std::map::emplace`: insert the pair at its place in the key order;
a map that already holds the key is left as it is. -/
def IdMap.emplace (m : IdMap V) (key : Int) (value : V) : IdMap V :=
  match m with
  | [] => [(key, value)]
  | (k, v) :: rest =>
    if key < k then (key, value) :: (k, v) :: rest
    else if key = k then (k, v) :: rest
    else (k, v) :: IdMap.emplace rest key value

/-- Write through the iterator returned by `find`: replace the value stored
under `key` by `f` of it. -/
def IdMap.modify (m : IdMap V) (key : Int) (f : V → V) : IdMap V :=
  match m with
  | [] => []
  | (k, v) :: rest => if k = key then (k, f v) :: rest else (k, v) :: IdMap.modify rest key f

/-- The keys of a map in iteration order. -/
def IdMap.keys (m : IdMap V) : List Int :=
  m.map Prod.fst

/-- Class invariant of `std::map`: the keys are strictly ascending. -/
def IdMap.WF (m : IdMap V) : Prop :=
  (IdMap.keys m).Pairwise (fun a b => a < b)

end Containers

/-! ## amr_task_executors.cpp: aggregation of the ordered products -/

/-- Body of the inner loop of `processOrderedProducts` (lines 107-120): append
`(current_product_id, quantity)` to the entry of `part_id`, or create the entry. -/
def addPart (current_product_id : Int) (processed_product_parts : ProcessedProductParts)
    (part : Int × Int) : ProcessedProductParts :=
  match IdMap.find processed_product_parts part.1 with
  | some _ =>
    IdMap.modify processed_product_parts part.1 (fun info => info ++ [(current_product_id, part.2)])
  | none => IdMap.emplace processed_product_parts part.1 [(current_product_id, part.2)]

/-- The inner loop of `processOrderedProducts` (lines 105-121) over the parts map
of the current product. -/
def addProductParts (current_product_id : Int) :
    List (Int × Int) → ProcessedProductParts → ProcessedProductParts
  | [], processed_product_parts => processed_product_parts
  | part :: rest, processed_product_parts =>
    addProductParts current_product_id rest
      (addPart current_product_id processed_product_parts part)

/-- The outer loop of `processOrderedProducts` (lines 102-122). -/
def processLoop (all_products : List Product) :
    List Int → ProcessedProductParts → Option ProcessedProductParts
  | [], processed_product_parts => some processed_product_parts
  | current_product_id :: rest, processed_product_parts =>
    match vectorAt all_products current_product_id with
    | none => none
    | some current_product =>
      processLoop all_products rest
        (addProductParts current_product_id current_product.parts processed_product_parts)

/-- Function `OrderExecutor::processOrderedProducts`: clear the output map and
run the outer loop. -/
def processOrderedProducts (ordered_products : List Int) (all_products : List Product) :
    Option ProcessedProductParts :=
  processLoop all_products ordered_products []

/-- The sequence that the specification puts under part `q`: scanning the ordered
product ids in order, the pair (product id, quantity of `q` in that product) for
each ordered product whose parts map has the key `q`. -/
def requiredEntries (all_products : List Product) (ordered_products : List Int) (q : Int) :
    List (Int × Int) :=
  ordered_products.filterMap (fun product_id =>
    match vectorAt all_products product_id with
    | some product =>
      match IdMap.find product.parts q with
      | some quantity => some (product_id, quantity)
      | none => none
    | none => none)

/-- Number of units recorded in one entry sequence of the pick list: the sum of
the quantities, a quantity below 0 counting as no unit. -/
def unitsOf (entries : List (Int × Int)) : Nat :=
  (entries.map (fun entry => entry.2.toNat)).sum

/-- Number of units recorded in the whole pick list. -/
def totalUnits (processed_product_parts : ProcessedProductParts) : Nat :=
  (processed_product_parts.map (fun kv => unitsOf kv.2)).sum

/-! ## amr_task_executors.cpp: the delivery report -/

section Report

variable {K : Type}

/-- The line `"Starting from position x: " << x << ", y: " << y`. -/
def startingLine (fmt : K → String) (p : Coordinates2D K) : String :=
  "Starting from position x: " ++ fmt p.x ++ ", y: " ++ fmt p.y

/-- The line `"Fetching '" << name << "' for product '" << id << "' at x: " << x << ", y: " << y`. -/
def fetchingLine (fmt : K → String) (product_name : String) (product_id : Int)
    (product_coords : Coordinates2D K) : String :=
  "Fetching '" ++ product_name ++ "' for product '" ++ toString product_id
    ++ "' at x: " ++ fmt product_coords.x ++ ", y: " ++ fmt product_coords.y

/-- The line `"Delivering to destination x: " << x << ", y: " << y`. -/
def deliveringLine (fmt : K → String) (p : Coordinates2D K) : String :=
  "Delivering to destination x: " ++ fmt p.x ++ ", y: " ++ fmt p.y

/-- The innermost loop of `printDeliveryPath` (lines 85-90): `count` more
iterations, each writing the same line. -/
def printUnits (line : String) : Nat → List String → List String
  | 0, stream => stream
  | count + 1, stream => printUnits line count (stream ++ [line])

/-- The loop over `j` of `printDeliveryPath` (lines 82-91) for one part id. -/
def printPartEntries (fmt : K → String) (all_product_parts : List (ProductPart K))
    (part_id : Int) : List (Int × Int) → List String → Option (List String)
  | [], stream => some stream
  | entry :: rest, stream =>
    match vectorAt all_product_parts part_id with
    | none => none
    | some part =>
      printPartEntries fmt all_product_parts part_id rest
        (printUnits (fetchingLine fmt part.name entry.1 part.coords) entry.2.toNat stream)

/-- The loop over `i` of `printDeliveryPath` (lines 78-92); `at` throws when the
map has no entry for the part id. -/
def printWaypoints (fmt : K → String) (processed_product_parts : ProcessedProductParts)
    (processed_product_parts_position_to_key : List Int)
    (all_product_parts : List (ProductPart K)) : List Nat → List String → Option (List String)
  | [], stream => some stream
  | i :: rest, stream =>
    match processed_product_parts_position_to_key[i]? with
    | none => none
    | some part_id =>
      match IdMap.find processed_product_parts part_id with
      | none => none
      | some product_part_information =>
        match printPartEntries fmt all_product_parts part_id product_part_information stream with
        | none => none
        | some stream' =>
          printWaypoints fmt processed_product_parts processed_product_parts_position_to_key
            all_product_parts rest stream'

/-- Function `OrderExecutor::printDeliveryPath`; `fmt` is the formatting of a
`double` by `operator<<`, and the result is the stream with the new lines
appended. -/
def printDeliveryPath (fmt : K → String) (starting_point delivery_point : Coordinates2D K)
    (pickup_order : List Nat) (processed_product_parts : ProcessedProductParts)
    (processed_product_parts_position_to_key : List Int)
    (all_product_parts : List (ProductPart K)) (stream : List String) :
    Option (List String) :=
  match printWaypoints fmt processed_product_parts processed_product_parts_position_to_key
      all_product_parts pickup_order (stream ++ [startingLine fmt starting_point]) with
  | none => none
  | some stream' => some (stream' ++ [deliveringLine fmt delivery_point])

end Report

/-! ## basic_routines.cpp: order lookup -/

section OrderLookup

variable {K : Type}

/-- One entry of an order file: `{order, cx, cy, products}`. -/
structure OrderRecord (K : Type) where
  order : Nat
  cx : K
  cy : K
  products : List Int
deriving DecidableEq, Repr

/-- The variables shared by the workers of `parseAllFilesToFindOrder`: the two
output parameters and the flag that becomes the return value. -/
structure LookupResult (K : Type) where
  delivery_point : Coordinates2D K
  ordered_products : List Int
  order_found : Bool
deriving DecidableEq, Repr

/-- Function `AMR::parseSingleFile` on the parsed content of one file: at the first
record whose id matches, under the lock, overwrite the delivery point, push the
product ids of the record onto `ordered_products`, set the flag, and stop. -/
def parseSingleFile (orders : List (OrderRecord K)) (order_id : Nat)
    (shared : LookupResult K) : LookupResult K :=
  match orders with
  | [] => shared
  | order :: rest =>
    if order.order = order_id then
      { delivery_point := { x := order.cx, y := order.cy },
        ordered_products := shared.ordered_products ++ order.products,
        order_found := true }
    else parseSingleFile rest order_id shared

/-- Function `AMR::parseAllFilesToFindOrder`.  Each worker changes the shared
variables only inside its one locked region, so a run of the threads amounts to
the workers taking effect one after the other; `commit_order` lists the contents
of the searched files in that order.  The flag starts as false and is returned
with the two output parameters. -/
def parseAllFilesToFindOrder (commit_order : List (List (OrderRecord K))) (order_id : Nat)
    (delivery_point : Coordinates2D K) (ordered_products : List Int) : LookupResult K :=
  commit_order.foldl (fun shared orders => parseSingleFile orders order_id shared)
    { delivery_point := delivery_point, ordered_products := ordered_products,
      order_found := false }

end OrderLookup

/-! ## amr_unit.hpp, amr_task_executors.cpp: executing an order -/

section Execute

variable {K : Type} [LinearOrderedField K]

/-- The data members of class `AmrUnit` that tasks read and write. -/
structure AmrUnit (K : Type) where
  current_position : Position K
  all_products : List Product
  all_product_parts : List (ProductPart K)

/-- Member `AmrUnit::setCurrentPosition`. -/
def AmrUnit.setCurrentPosition (target_unit : AmrUnit K) (new_position : Position K) :
    AmrUnit K :=
  { target_unit with
    current_position := { coords_2d := new_position.coords_2d, yaw := new_position.yaw } }

/-- The loop of `OrderExecutor::execute` (lines 44-50) over the pick list in key
order: the part id and the coordinates of the part for each position. -/
def collectWaypoints (all_product_parts : List (ProductPart K)) :
    ProcessedProductParts → Option (List Int × List (Coordinates2D K))
  | [] => some ([], [])
  | (part_id, _) :: rest =>
    match vectorAt all_product_parts part_id with
    | none => none
    | some part =>
      match collectWaypoints all_product_parts rest with
      | none => none
      | some (position_to_key, parts_positions) =>
        some (part_id :: position_to_key, part.coords :: parts_positions)

/-- The line `"Working on order " << id << "(" << description << ")"`. -/
def workingLine (order_id : Nat) (order_description : String) : String :=
  "Working on order " ++ toString order_id ++ "(" ++ order_description ++ ")"

/-- The line `"Error: Order " << id << " not found "`. -/
def notFoundLine (order_id : Nat) : String :=
  "Error: Order " ++ toString order_id ++ " not found "

/-- Function `MoveExecutor::execute`: set the position of the unit and write the
line `"Moved to position x: " << x << ", y: " << y`. -/
def MoveExecutor.execute (fmt : K → String) (target_position : Position K)
    (target_unit : AmrUnit K) (stream : List String) : AmrUnit K × List String :=
  (target_unit.setCurrentPosition target_position,
    stream ++ ["Moved to position x: " ++ fmt target_position.coords_2d.x
      ++ ", y: " ++ fmt target_position.coords_2d.y])

/-- Function `OrderExecutor::execute`.  `order_files` is the content of the order
directory of the unit (in commit order of the lookup workers); the result is
the unit after the task and the stream with the new lines appended, or `none`
when the C++ code runs into undefined behaviour or an uncaught exception. -/
def OrderExecutor.execute (fmt : K → String) (sqrt : K → K) (order_id : Nat)
    (order_description : String) (order_files : List (List (OrderRecord K)))
    (target_unit : AmrUnit K) (stream : List String) : Option (AmrUnit K × List String) :=
  let stream1 := stream ++ [workingLine order_id order_description]
  let found := parseAllFilesToFindOrder order_files order_id { x := 0, y := 0 } []
  if found.order_found then
    match processOrderedProducts found.ordered_products target_unit.all_products with
    | none => none
    | some processed_product_parts =>
      match collectWaypoints target_unit.all_product_parts processed_product_parts with
      | none => none
      | some (position_to_key, parts_positions) =>
        let starting_point := target_unit.current_position.coords_2d
        match determineShortestPath sqrt starting_point parts_positions
            found.delivery_point with
        | none => none
        | some pickup_order =>
          let moved := target_unit.setCurrentPosition
            { coords_2d := found.delivery_point, yaw := 0 }
          match printDeliveryPath fmt starting_point found.delivery_point pickup_order
              processed_product_parts position_to_key moved.all_product_parts stream1 with
          | none => none
          | some stream2 => some (moved, stream2)
  else some (target_unit, stream1 ++ [notFoundLine order_id])

end Execute

/-! ## Sample data -/

section Samples

variable {K : Type} [LinearOrderedField K]

/-- The product list that `tests/unit_tests.hpp` expects from the test
configuration: index 0 is the placeholder. -/
def sampleProducts : List Product :=
  [{ name := "placeholder", parts := [] },
   { name := "Product 1", parts := [(0, 2), (1, 2)] },
   { name := "Product 2", parts := [(0, 3)] },
   { name := "Product 3", parts := [(0, 2), (2, 1)] }]

/-- Three parts on the x axis. -/
def sampleParts : List (ProductPart K) :=
  [{ name := "Part A", coords := { x := 1, y := 0 } },
   { name := "Part B", coords := { x := -2, y := 0 } },
   { name := "Part C", coords := { x := 4, y := 0 } }]

/-- Five order files; order 7 is in the second file only, order 9 in none. -/
def sampleOrderFiles : List (List (OrderRecord K)) :=
  [[{ order := 5, cx := 1, cy := 1, products := [2] }],
   [{ order := 6, cx := 2, cy := 2, products := [3] },
    { order := 7, cx := 3, cy := 0, products := [1, 3, 1] }],
   [], [], []]

/-- A unit at the origin with the sample catalog. -/
def sampleUnit : AmrUnit K :=
  { current_position := { coords_2d := { x := 0, y := 0 }, yaw := 1 },
    all_products := sampleProducts, all_product_parts := sampleParts }

end Samples

/-! ## basic_routines.cpp: the configuration file -/

section Configuration

variable {K : Type}

/-- One entry `{part, cx, cy}` of the parts list of a product record. -/
structure PartRecord (K : Type) where
  part : String
  cx : K
  cy : K
deriving DecidableEq, Repr

/-- One product record `{id, product, parts}` of the configuration file. -/
structure ProductRecord (K : Type) where
  id : Int
  product : String
  parts : List (PartRecord K)
deriving DecidableEq, Repr

/-- The call `std::find_if` over `all_product_parts` with the name comparison,
followed by `distance`: the position of the first part with the given name. -/
def findPartIndex (part_name : String) : List (ProductPart K) → Option Nat
  | [] => none
  | part :: rest =>
    if part.name = part_name then some 0
    else
      match findPartIndex part_name rest with
      | some i => some (i + 1)
      | none => none

/-- Lines 95-112 of `parseConfigurationFiles`: the id of the part named by the
entry, after appending the part to `all_product_parts` when its name is new. -/
def registerPart (entry : PartRecord K) (all_product_parts : List (ProductPart K)) :
    Int × List (ProductPart K) :=
  match findPartIndex entry.part all_product_parts with
  | none =>
    ((all_product_parts.length : Int),
      all_product_parts ++ [{ name := entry.part, coords := { x := entry.cx, y := entry.cy } }])
  | some i => ((i : Int), all_product_parts)

/-- Lines 115-120 of `parseConfigurationFiles`: enter the part id with quantity 1,
or increment the quantity already stored for it. -/
def countPart (parts_and_quantities : IdMap Int) (part_id : Int) : IdMap Int :=
  match IdMap.find parts_and_quantities part_id with
  | none => IdMap.emplace parts_and_quantities part_id 1
  | some _ => IdMap.modify parts_and_quantities part_id (fun quantity => quantity + 1)

/-- The inner loop of `parseConfigurationFiles` (lines 93-121) over the parts list
of one product record. -/
def parseParts : List (PartRecord K) → IdMap Int → List (ProductPart K) →
    IdMap Int × List (ProductPart K)
  | [], parts_and_quantities, all_product_parts => (parts_and_quantities, all_product_parts)
  | entry :: rest, parts_and_quantities, all_product_parts =>
    parseParts rest (countPart parts_and_quantities (registerPart entry all_product_parts).1)
      (registerPart entry all_product_parts).2

/-- The outer loop of `parseConfigurationFiles` (lines 83-124); the assignment to
`all_products[product_id]` is out of range unless `0 ≤ product_id < size`. -/
def parseProducts : List (ProductRecord K) → List Product → List (ProductPart K) →
    Option (List Product × List (ProductPart K))
  | [], all_products, all_product_parts => some (all_products, all_product_parts)
  | record :: rest, all_products, all_product_parts =>
    if 0 ≤ record.id ∧ record.id < (all_products.length : Int) then
      parseProducts rest
        (all_products.set record.id.toNat
          { name := record.product,
            parts := (parseParts record.parts [] all_product_parts).1 })
        (parseParts record.parts [] all_product_parts).2
    else none

/-- Member `std::vector::resize` for the product list: cut to `n` entries or fill
up with default-constructed products. -/
def resizeProducts (all_products : List Product) (n : Nat) : List Product :=
  all_products.take n ++ List.replicate (n - all_products.length) { name := "", parts := [] }

/-- The assignment `all_products[0]._name = "placeholder"` (line 82). -/
def namePlaceholder : List Product → List Product
  | [] => []
  | first :: rest => { first with name := "placeholder" } :: rest

/-- Function `AMR::parseConfigurationFiles` on the parsed content of
`products.yaml`; `none` as content stands for a file that cannot be opened, in
which case both lists are left as they are. -/
def parseConfigurationFiles (configuration_doc : Option (List (ProductRecord K)))
    (all_products : List Product) (all_product_parts : List (ProductPart K)) :
    Option (List Product × List (ProductPart K)) :=
  match configuration_doc with
  | none => some (all_products, all_product_parts)
  | some records =>
    parseProducts records
      (namePlaceholder (resizeProducts all_products (records.length + 1)))
      all_product_parts

/-- A configuration that yields the product list expected by
`tests/unit_tests.hpp`: three products over the parts A, B and C. -/
def sampleConfiguration [LinearOrderedField K] : List (ProductRecord K) :=
  [{ id := 1, product := "Product 1",
     parts := [{ part := "Part A", cx := 1, cy := 0 }, { part := "Part A", cx := 1, cy := 0 },
               { part := "Part B", cx := -2, cy := 0 }, { part := "Part B", cx := -2, cy := 0 }] },
   { id := 2, product := "Product 2",
     parts := [{ part := "Part A", cx := 1, cy := 0 }, { part := "Part A", cx := 1, cy := 0 },
               { part := "Part A", cx := 1, cy := 0 }] },
   { id := 3, product := "Product 3",
     parts := [{ part := "Part A", cx := 1, cy := 0 }, { part := "Part A", cx := 1, cy := 0 },
               { part := "Part C", cx := 4, cy := 0 }] }]

end Configuration

/-! ## amr_task_executors.hpp, amr_unit.cpp: the task queue and the drain loop -/

section Drain

variable {T U : Type}

/-- Struct `TaskQueue`: the queue and the shutdown flag.  The mutex is not a
field: every region between `_mutex.lock()` and `_mutex.unlock()` is one atomic
step of the model. -/
structure TaskQueue (T : Type) where
  queue : List T
  shutdown : Bool

/-- The locked region `task_queue->_queue.push(...)` of `mqttMessageCallback`
(amr_interface.cpp lines 105-107 and 157-159). -/
def TaskQueue.push (q : TaskQueue T) (t : T) : TaskQueue T :=
  { q with queue := q.queue ++ [t] }

/-- The locked region `task_queue->_shutdown = true` of `mqttMessageCallback`
(amr_interface.cpp lines 59-61). -/
def TaskQueue.requestShutdown (q : TaskQueue T) : TaskQueue T :=
  { q with shutdown := true }

/-- Control points of `AmrUnit::run`: before the first locked region (line 30),
at the `while` test (line 35), after the `unlock` of line 44, and behind the loop. -/
inductive RunPc where
  | beforeLoop
  | loopTest
  | afterUnlock
  | terminated
deriving DecidableEq, Repr

/-- The shared queue together with the locals of `AmrUnit::run` (`shutdown`,
`queue_size`, `nextTask`), the sequence of tasks whose `execute` has returned so
far, and `unit_state`: what a task reads and writes through `*this` and the
stream (type `U`). -/
structure RunState (T U : Type) where
  task_queue : TaskQueue T
  pc : RunPc
  shutdown : Bool
  queue_size : Nat
  nextTask : Option T
  executed : List T
  unit_state : U

/-- The state at line 30 of `AmrUnit::run`: the queue built by the constructor
(empty, shutdown flag false), `run` not yet at its first locked region, and the
unit as lines 26-28 leave it. -/
def RunState.initial (unit_state : U) : RunState T U :=
  { task_queue := { queue := [], shutdown := false }, pc := RunPc.beforeLoop,
    shutdown := false, queue_size := 0, nextTask := none, executed := [],
    unit_state := unit_state }

/-- One atomic step of `AmrUnit::run`.  The parameter `execute` is the virtual
call `nextTask->execute(*this)`: the state of the unit after the call, or `none`
when the call does not return (undefined behaviour, or an exception, for which
neither `run` nor `main` has a handler).
* `beforeLoop`: lines 30-34, the first snapshot of flag and queue size;
* `loopTest`: the test of line 35 on the locals and, when it holds, the locked
  region of lines 37-44 (new snapshot, and `front`/`pop` when the size is
  positive);
* `afterUnlock`: lines 46-53, `execute` on the popped task if there is one; when
  the call does not return, control never reaches line 48: the state stays as it
  is, with the task held and not executed;
* `terminated`: the loop has been left. -/
def runStep (execute : T → U → Option U) (s : RunState T U) : RunState T U :=
  match s.pc with
  | RunPc.beforeLoop =>
    { s with pc := RunPc.loopTest, shutdown := s.task_queue.shutdown,
             queue_size := s.task_queue.queue.length, nextTask := none }
  | RunPc.loopTest =>
    if !s.shutdown || decide (s.queue_size > 0) then
      match s.task_queue.queue with
      | [] =>
        { s with pc := RunPc.afterUnlock, shutdown := s.task_queue.shutdown, queue_size := 0 }
      | t :: rest =>
        { s with pc := RunPc.afterUnlock, shutdown := s.task_queue.shutdown,
                 queue_size := (t :: rest).length, nextTask := some t,
                 task_queue := { s.task_queue with queue := rest } }
    else { s with pc := RunPc.terminated }
  | RunPc.afterUnlock =>
    match s.nextTask with
    | some t =>
      match execute t s.unit_state with
      | some unit_state' =>
        { s with pc := RunPc.loopTest, executed := s.executed ++ [t], nextTask := none,
                 unit_state := unit_state' }
      | none => s
    | none => { s with pc := RunPc.loopTest }
  | RunPc.terminated => s

/-- The given number of consecutive steps of `AmrUnit::run` with no step of the
message callback in between. -/
def runSteps (execute : T → U → Option U) : Nat → RunState T U → RunState T U
  | 0, s => s
  | n + 1, s => runSteps execute n (runStep execute s)

/-- What can happen next: the callback pushes a task, the callback sets the
shutdown flag, or `AmrUnit::run` takes its next atomic step. -/
inductive Event (T : Type) where
  | push (t : T)
  | shutdownMsg
  | run

/-- Effect of one event on the state. -/
def applyEvent (execute : T → U → Option U) (s : RunState T U) : Event T → RunState T U
  | Event.push t => { s with task_queue := s.task_queue.push t }
  | Event.shutdownMsg => { s with task_queue := s.task_queue.requestShutdown }
  | Event.run => runStep execute s

/-- Effect of an interleaving, given as the sequence of its events. -/
def runEvents (execute : T → U → Option U) (s : RunState T U) (evs : List (Event T)) :
    RunState T U :=
  evs.foldl (applyEvent execute) s

/-- The tasks pushed by an interleaving, in push order. -/
def pushedTasks : List (Event T) → List T
  | [] => []
  | Event.push t :: evs => t :: pushedTasks evs
  | _ :: evs => pushedTasks evs

/-! ## amr_interface.cpp: the message callback -/

section Callback

variable {K : Type} [LinearOrderedField K]

/-- The two kinds of `TaskExecutor` objects the callback creates, with their
constructor arguments: `MoveExecutor(Position)` and `OrderExecutor(id, description)`. -/
inductive Task (K : Type) where
  | move (target_position : Position K)
  | order (order_id : Nat) (order_description : String)
deriving DecidableEq, Repr

/-- The virtual call `nextTask->execute(*this)` of `AmrUnit::run` (line 47) on the
two kinds of tasks, with `std::cout` as stream.  `order_files` is the content of
the order directory; the state is the unit together with the lines written to
`std::cout`; `none` stands for a call that does not return. -/
def Task.execute (fmt : K → String) (sqrt : K → K) (order_files : List (List (OrderRecord K))) :
    Task K → AmrUnit K × List String → Option (AmrUnit K × List String)
  | Task.move target_position, (target_unit, stream) =>
    some (MoveExecutor.execute fmt target_position target_unit stream)
  | Task.order order_id order_description, (target_unit, stream) =>
    OrderExecutor.execute fmt sqrt order_id order_description order_files target_unit stream

/-- A value of a YAML mapping as the callback uses it: what `as<uint32_t>()`,
`as<double>()` and `as<std::string>()` return on it; `none` stands for a
conversion that throws `YAML::BadConversion`. -/
structure YamlValue (K : Type) where
  asUInt32 : Option Nat
  asDouble : Option K
  asString : Option String

/-- What `YAML::Load` makes of the payload: it throws `YAML::ParserException`
(with the text of `what()`), or it returns a scalar node, on which
`operator[]` throws `YAML::BadSubscript`, or a mapping with string keys. -/
inductive YamlDocument (K : Type) where
  | unparsable (what : String)
  | scalar
  | mapping (entries : List (String × YamlValue K))

/-- The fields of `struct mosquitto_message` read by the callback. -/
structure MqttMessage (K : Type) where
  topic : String
  payloadlen : Nat
  payload : YamlDocument K

/-- Exceptions that leave `mqttMessageCallback`; its handlers catch
`YAML::ParserException` only. -/
inductive Uncaught where
  | badConversion
  | badSubscript
deriving DecidableEq, Repr

/-- The lookup `msg_yaml[key]` in a mapping: the value of the first entry with
that key, or an undefined node. -/
def yamlLookup (entries : List (String × YamlValue K)) (key : String) : Option (YamlValue K) :=
  match entries with
  | [] => none
  | (k, v) :: rest => if k = key then some v else yamlLookup rest key

/-- The loops that print a warning for every unexpected key (lines 92-99 and
146-153). -/
def warnUnexpectedKeys (expected : List String) :
    List (String × YamlValue K) → List String → List String
  | [], cout => cout
  | (key, _) :: rest, cout =>
    if key ∈ expected then warnUnexpectedKeys expected rest cout
    else warnUnexpectedKeys expected rest
      (cout ++ ["Warning: Received message in /AmrUnit/nextOrder with unexpected key: " ++ key])

/-- The branch of `mqttMessageCallback` for the topic `/AmrUnit/nextOrder`
(lines 68-116). -/
def handleNextOrder (task_queue : TaskQueue (Task K)) (payload : YamlDocument K)
    (cout : List String) : Except Uncaught (TaskQueue (Task K) × List String) :=
  match payload with
  | YamlDocument.unparsable what =>
    Except.ok (task_queue,
      cout ++ ["Error: Could not interpret message as Map. Please retry using exactly the following format:",
        "\"\x7border_id: <order_id>, description: <description>\x7d\"", what])
  | YamlDocument.scalar => Except.error Uncaught.badSubscript
  | YamlDocument.mapping entries =>
    -- lines 73-81
    match (match yamlLookup entries "order_id" with
        | some value =>
          match value.asUInt32 with
          | some order_id => Except.ok (order_id, true, cout)
          | none => Except.error Uncaught.badConversion
        | none =>
          Except.ok (0, false,
            cout ++ ["Error: Key 'order_id' in message for topic /AmrUnit/nextOrder is missing"])) with
    | Except.error e => Except.error e
    | Except.ok (order_id, create_new_task, cout1) =>
      -- lines 82-90
      match (match yamlLookup entries "description" with
          | some value =>
            match value.asString with
            | some description => Except.ok (description, create_new_task, cout1)
            | none => Except.error Uncaught.badConversion
          | none =>
            Except.ok ("", false,
              cout1 ++ ["Error: Key 'description' in message for topic /AmrUnit/nextOrder is missing"])) with
      | Except.error e => Except.error e
      | Except.ok (description, create_new_task2, cout2) =>
        let cout3 := warnUnexpectedKeys ["order_id", "description"] entries cout2
        -- lines 101-108
        if create_new_task2 then
          Except.ok (task_queue.push (Task.order order_id description), cout3)
        else Except.ok (task_queue, cout3)

/-- Lines 122-137 for one of the required keys `x` and `y` of a position update. -/
def readCoordinate (entries : List (String × YamlValue K)) (key : String)
    (create_new_task : Bool) (cout : List String) :
    Except Uncaught (K × Bool × List String) :=
  match yamlLookup entries key with
  | some value =>
    match value.asDouble with
    | some v => Except.ok (v, create_new_task, cout)
    | none => Except.error Uncaught.badConversion
  | none =>
    Except.ok (0, false,
      cout ++ ["Error: Key '" ++ key ++ "' in message for topic /AmrUnit/currentPosition is missing"])

/-- The branch of `mqttMessageCallback` for the topic `/AmrUnit/currentPosition`
(lines 117-167). -/
def handleCurrentPosition (task_queue : TaskQueue (Task K)) (payload : YamlDocument K)
    (cout : List String) : Except Uncaught (TaskQueue (Task K) × List String) :=
  match payload with
  | YamlDocument.unparsable what =>
    Except.ok (task_queue,
      cout ++ ["Error: Could not interpret message as Map. Please retry using exactly the following format:",
        "\"\x7bx: <x>, y: <y>, yaw: <yaw>\x7d\"", what])
  | YamlDocument.scalar => Except.error Uncaught.badSubscript
  | YamlDocument.mapping entries =>
    match readCoordinate entries "x" true cout with
    | Except.error e => Except.error e
    | Except.ok (x, create1, cout1) =>
      match readCoordinate entries "y" create1 cout1 with
      | Except.error e => Except.error e
      | Except.ok (y, create2, cout2) =>
        -- lines 138-144
        match (match yamlLookup entries "yaw" with
            | some value =>
              match value.asDouble with
              | some yaw => Except.ok (yaw, cout2)
              | none => Except.error Uncaught.badConversion
            | none =>
              Except.ok (0,
                cout2 ++ ["Warning: Key 'yaw' in message for topic /AmrUnit/currentPosition is missing"])) with
        | Except.error e => Except.error e
        | Except.ok (yaw, cout3) =>
          let cout4 := warnUnexpectedKeys ["x", "y", "yaw"] entries cout3
          -- lines 155-160
          if create2 then
            Except.ok (task_queue.push
              (Task.move { coords_2d := { x := x, y := y }, yaw := yaw }), cout4)
          else Except.ok (task_queue, cout4)

/-- Function `AMR::mqttMessageCallback`: the task queue passed as `userdata` and
the lines written to `std::cout`, before and after; an exception that no handler
of the callback catches is the error result.  The calls that disconnect the
MQTT client on the shutdown topic are not part of the model. -/
def mqttMessageCallback (task_queue : TaskQueue (Task K)) (message : MqttMessage K)
    (cout : List String) : Except Uncaught (TaskQueue (Task K) × List String) :=
  if message.topic = "/AmrUnit/shutdown" then
    Except.ok (task_queue.requestShutdown, cout)
  else if message.payloadlen ≠ 0 then
    if message.topic = "/AmrUnit/nextOrder" then
      handleNextOrder task_queue message.payload cout
    else if message.topic = "/AmrUnit/currentPosition" then
      handleCurrentPosition task_queue message.payload cout
    else Except.ok (task_queue, cout)
  else
    Except.ok (task_queue,
      cout ++ ["Error: Message in " ++ message.topic ++ " with empty payload"])

end Callback

/-- Invariant of the drain loop: executed tasks, then the task taken out of the
queue but not yet executed, then the queue, make up the pushed tasks; a task is
held outside the queue only between the unlock and its execution. -/
def FifoInv (s : RunState T U) (pushed : List T) : Prop :=
  s.executed ++ s.nextTask.toList ++ s.task_queue.queue = pushed ∧
    (s.pc ≠ RunPc.afterUnlock → s.nextTask = none)

/-- Invariant of the drain loop: once `run` has taken a snapshot, its local copy
of the flag is true only if the flag is true, and the loop is left only with a
true local copy. -/
def SeenInv (s : RunState T U) : Prop :=
  (s.pc = RunPc.beforeLoop ∨ (s.shutdown = true → s.task_queue.shutdown = true)) ∧
    (s.pc = RunPc.terminated → s.shutdown = true)

end Drain

end AMR

namespace AMR

/-! ## Facts about `lexLt` and `nextPermutation` -/

theorem lexLt_irrefl (l : List Nat) : lexLt l l = false := by
  induction l with
  | nil => rfl
  | cons a as ih => simp [lexLt, ih]

theorem lexLt_trans : ∀ (a b c : List Nat), lexLt a b = true → lexLt b c = true →
    lexLt a c = true
  | [], [], _, h, _ => by simp [lexLt] at h
  | [], _ :: _, [], _, h => by simp [lexLt] at h
  | [], _ :: _, _ :: _, _, _ => by simp [lexLt]
  | _ :: _, [], _, h, _ => by simp [lexLt] at h
  | _ :: _, _ :: _, [], _, h => by simp [lexLt] at h
  | x :: xs, y :: ys, z :: zs, h1, h2 => by
    simp only [lexLt, Bool.or_eq_true, Bool.and_eq_true, decide_eq_true_eq] at h1 h2 ⊢
    rcases h1 with h1 | ⟨e1, t1⟩
    · rcases h2 with h2 | ⟨e2, _⟩
      · exact Or.inl (lt_trans h1 h2)
      · exact Or.inl (e2 ▸ h1)
    · rcases h2 with h2 | ⟨e2, t2⟩
      · exact Or.inl (e1 ▸ h2)
      · exact Or.inr ⟨e1.trans e2, lexLt_trans xs ys zs t1 t2⟩

theorem replaceFirstGreater_perm (x : Nat) :
    ∀ (l : List Nat) (y : Nat) (s : List Nat), replaceFirstGreater x l = some (y, s) →
      (y :: s).Perm (x :: l) ∧ x < y := by
  intro l
  induction l with
  | nil => intro y s h; simp [replaceFirstGreater] at h
  | cons a as ih =>
    intro y s h
    unfold replaceFirstGreater at h
    by_cases hxa : x < a
    · simp only [hxa, if_true, Option.some.injEq, Prod.mk.injEq] at h
      obtain ⟨rfl, rfl⟩ := h
      exact ⟨List.Perm.swap _ _ _, hxa⟩
    · simp only [hxa, if_false] at h
      cases hr : replaceFirstGreater x as with
      | none => simp [hr] at h
      | some zs =>
        obtain ⟨z, ys'⟩ := zs
        simp only [hr, Option.some.injEq, Prod.mk.injEq] at h
        obtain ⟨rfl, rfl⟩ := h
        obtain ⟨hp, hlt⟩ := ih z ys' hr
        refine ⟨?_, hlt⟩
        calc (z :: a :: ys').Perm (a :: z :: ys') := List.Perm.swap _ _ _
          _ |>.Perm (a :: x :: as) := List.Perm.cons a hp
          _ |>.Perm (x :: a :: as) := List.Perm.swap _ _ _

theorem nextPermutation_spec :
    ∀ (l l' : List Nat), nextPermutation l = some l' → l'.Perm l ∧ lexLt l l' = true := by
  intro l
  induction l with
  | nil => intro l' h; simp [nextPermutation] at h
  | cons x rest ih =>
    intro l' h
    unfold nextPermutation at h
    cases hn : nextPermutation rest with
    | some rest' =>
      simp only [hn, Option.some.injEq] at h
      subst h
      obtain ⟨hp, hl⟩ := ih rest' hn
      exact ⟨List.Perm.cons x hp, by simp [lexLt, hl]⟩
    | none =>
      simp only [hn] at h
      cases hr : replaceFirstGreater x rest.reverse with
      | none => simp [hr] at h
      | some ys =>
        obtain ⟨y, s⟩ := ys
        simp only [hr, Option.some.injEq] at h
        subst h
        obtain ⟨hp, hlt⟩ := replaceFirstGreater_perm x rest.reverse y s hr
        refine ⟨hp.trans (List.Perm.cons x (List.reverse_perm rest)), ?_⟩
        simp [lexLt, hlt]

theorem countP_lt_of_witness {α : Type} (p q : α → Bool) :
    ∀ (l : List α), (∀ a ∈ l, p a = true → q a = true) →
      (∃ a ∈ l, q a = true ∧ p a = false) → l.countP p < l.countP q := by
  intro l
  induction l with
  | nil => intro _ h; simp at h
  | cons b bs ih =>
    intro himp hex
    have himp' : ∀ a ∈ bs, p a = true → q a = true :=
      fun a ha => himp a (List.mem_cons_of_mem _ ha)
    have hle : bs.countP p ≤ bs.countP q := List.countP_mono_left himp'
    obtain ⟨a, ha, hqa, hpa⟩ := hex
    rcases List.mem_cons.mp ha with rfl | hmem
    · rw [List.countP_cons_of_pos _ _ hqa, List.countP_cons_of_neg _ _ (by simp [hpa])]
      omega
    · have hlt := ih himp' ⟨a, hmem, hqa, hpa⟩
      by_cases hpb : p b = true
      · rw [List.countP_cons_of_pos _ _ hpb,
          List.countP_cons_of_pos _ _ (himp b (List.mem_cons_self _ _) hpb)]
        omega
      · rw [List.countP_cons_of_neg _ _ hpb]
        by_cases hqb : q b = true
        · rw [List.countP_cons_of_pos _ _ hqb]; omega
        · rw [List.countP_cons_of_neg _ _ hqb]; exact hlt

theorem laterCount_lt_factorial (l : List Nat) : laterCount l < l.length.factorial := by
  unfold laterCount
  have h := countP_lt_of_witness (lexLt l) (fun _ => true) l.permutations
    (fun _ _ _ => rfl)
    ⟨l, List.mem_permutations.mpr (List.Perm.refl l), rfl, lexLt_irrefl l⟩
  have hlen : l.permutations.countP (fun _ => true) = l.length.factorial := by
    rw [List.countP_true, List.length_permutations]
  omega

theorem laterCount_nextPermutation (l l' : List Nat) (h : nextPermutation l = some l') :
    laterCount l' < laterCount l := by
  obtain ⟨hp, hl⟩ := nextPermutation_spec l l' h
  unfold laterCount
  rw [List.Perm.countP_eq (lexLt l') (List.Perm.permutations hp)]
  exact countP_lt_of_witness (lexLt l') (lexLt l) l.permutations
    (fun a _ ha => lexLt_trans l l' a hl ha)
    ⟨l', List.mem_permutations.mpr hp, hl, lexLt_irrefl l'⟩

/-! ## The search loop returns, and returns a rearrangement -/

section Search

variable {K : Type} [LinearOrderedField K]

theorem addInnerSegments_some (sqrt : K → K) (w : List (Coordinates2D K)) :
    ∀ (p : List Nat) (acc : K), (∀ i ∈ p, i < w.length) →
      ∃ v, addInnerSegments sqrt w p acc = some v := by
  intro p
  induction p with
  | nil => intro acc _; exact ⟨acc, by simp [addInnerSegments]⟩
  | cons a t ih =>
    intro acc h
    cases t with
    | nil => exact ⟨acc, by simp [addInnerSegments]⟩
    | cons b rest =>
      have ha : a < w.length := h a (by simp)
      have hb : b < w.length := h b (by simp)
      have ht : ∀ i ∈ b :: rest, i < w.length := fun i hi => h i (List.mem_cons_of_mem _ hi)
      obtain ⟨v, hv⟩ := ih (acc + segmentLength sqrt w[a] w[b]) ht
      refine ⟨v, ?_⟩
      simp only [addInnerSegments, List.getElem?_eq_getElem ha, List.getElem?_eq_getElem hb]
      exact hv

theorem determinePathLength_some (sqrt : K → K) (start delivery : Coordinates2D K)
    (w : List (Coordinates2D K)) (p : List Nat) (hw : w ≠ [])
    (hp : p.Perm (List.range w.length)) :
    ∃ v, determinePathLength sqrt start w delivery p = some v := by
  have hbound : ∀ i ∈ p, i < w.length := fun i hi => List.mem_range.mp (hp.subset hi)
  have hlen : p.length = w.length := by simpa using hp.length_eq
  have hwpos : 0 < w.length := List.length_pos.mpr hw
  cases p with
  | nil => simp at hlen; omega
  | cons i0 t =>
    have hi0 : i0 < w.length := hbound i0 (by simp)
    obtain ⟨v, hv⟩ := addInnerSegments_some sqrt w (i0 :: t)
      (segmentLength sqrt start w[i0]) hbound
    obtain ⟨back, hback⟩ : ∃ back, w.getLast? = some back := by
      exact ⟨w.getLast hw, List.getLast?_eq_getLast w hw⟩
    refine ⟨v + segmentLength sqrt back delivery, ?_⟩
    simp [determinePathLength, List.getElem?_eq_getElem hi0, hv, hback]

theorem searchLoop_returns (pathLength : List Nat → Option K) :
    ∀ (fuel : Nat) (cur best : List Nat) (shortest : Option K),
      laterCount cur < fuel → (∀ q, q.Perm cur → ∃ v, pathLength q = some v) →
      ∃ p, searchLoop pathLength fuel cur best shortest = some p ∧ (p = best ∨ p.Perm cur) := by
  intro fuel
  induction fuel with
  | zero => intro cur best shortest h _; omega
  | succ n ih =>
    intro cur best shortest hfuel hlen
    obtain ⟨c, hc⟩ := hlen cur (List.Perm.refl cur)
    cases hn : nextPermutation cur with
    | none =>
      by_cases hb : belowShortest c shortest = true
      · exact ⟨cur, by simp [searchLoop, hc, hn, hb], Or.inr (List.Perm.refl cur)⟩
      · exact ⟨best, by simp [searchLoop, hc, hn, hb], Or.inl rfl⟩
    | some next =>
      obtain ⟨hperm, _⟩ := nextPermutation_spec cur next hn
      have hdec := laterCount_nextPermutation cur next hn
      have hlen' : ∀ q, q.Perm next → ∃ v, pathLength q = some v :=
        fun q hq => hlen q (hq.trans hperm)
      obtain ⟨p, hp, hcase⟩ := ih next
        (if belowShortest c shortest = true then cur else best)
        (if belowShortest c shortest = true then some c else shortest) (by omega) hlen'
      refine ⟨p, by simp [searchLoop, hc, hn, hp], ?_⟩
      rcases hcase with h | h
      · by_cases hb : belowShortest c shortest = true
        · right; rw [h, if_pos hb]
        · left; rw [h, if_neg hb]
      · exact Or.inr (h.trans hperm)

end Search

end AMR

namespace AMR

/-! ## Route planning: claims C1, C2, C3 -/

theorem segmentLength_on_axis (a b : ℝ) :
    segmentLength Real.sqrt (⟨a, 0⟩ : Coordinates2D ℝ) ⟨b, 0⟩ = |b - a| := by
  simp [segmentLength, Real.sqrt_mul_self_eq_abs]

/-- C2 (code evaluated at the failing input): with start (0,0), waypoints
[(1,0), (-2,0)], delivery point (3,0) and pickup order [1,0], the code's
`determinePathLength` is 10, because its last segment starts at
`part_locations.back()` = (-2,0); the route that visits (-2,0), then (1,0), then
the delivery point has length 2 + 3 + 2 = 7. -/
theorem determinePathLength_last_segment_from_back :
    determinePathLength Real.sqrt (⟨0, 0⟩ : Coordinates2D ℝ) [⟨1, 0⟩, ⟨-2, 0⟩] ⟨3, 0⟩ [1, 0]
        = some 10 ∧
      routeLength Real.sqrt (⟨0, 0⟩ : Coordinates2D ℝ) [⟨1, 0⟩, ⟨-2, 0⟩] ⟨3, 0⟩ [1, 0]
        = some 7 := by
  constructor
  · simp only [determinePathLength, addInnerSegments, List.getElem?_cons_zero,
      List.getElem?_cons_succ, List.getLast?, List.getLast, segmentLength_on_axis]
    norm_num [abs_of_nonneg, abs_of_neg]
  · simp only [routeLength, innerRouteLength, List.head?, List.getElem?_cons_zero,
      List.getElem?_cons_succ, List.getLast?, List.getLast, segmentLength_on_axis]
    norm_num [abs_of_nonneg, abs_of_neg]

/-- C1 (code evaluated at the failing input): with start (0,0), waypoints
[(1,0), (-2,0)] and delivery point (3,0) the code returns the order [0,1],
whose route length is 1 + 3 + 5 = 9, although the order [1,0] gives the
route length 2 + 3 + 2 = 7. -/
theorem determineShortestPath_not_shortest :
    determineShortestPath Real.sqrt (⟨0, 0⟩ : Coordinates2D ℝ) [⟨1, 0⟩, ⟨-2, 0⟩] ⟨3, 0⟩
        = some [0, 1] ∧
      routeLength Real.sqrt (⟨0, 0⟩ : Coordinates2D ℝ) [⟨1, 0⟩, ⟨-2, 0⟩] ⟨3, 0⟩ [0, 1]
        = some 9 ∧
      routeLength Real.sqrt (⟨0, 0⟩ : Coordinates2D ℝ) [⟨1, 0⟩, ⟨-2, 0⟩] ⟨3, 0⟩ [1, 0]
        = some 7 := by
  have h01 : determinePathLength Real.sqrt (⟨0, 0⟩ : Coordinates2D ℝ)
      [⟨1, 0⟩, ⟨-2, 0⟩] ⟨3, 0⟩ [0, 1] = some 9 := by
    simp only [determinePathLength, addInnerSegments, List.getElem?_cons_zero,
      List.getElem?_cons_succ, List.getLast?, List.getLast, segmentLength_on_axis]
    norm_num [abs_of_nonneg, abs_of_neg]
  have h10 : determinePathLength Real.sqrt (⟨0, 0⟩ : Coordinates2D ℝ)
      [⟨1, 0⟩, ⟨-2, 0⟩] ⟨3, 0⟩ [1, 0] = some 10 := by
    simp only [determinePathLength, addInnerSegments, List.getElem?_cons_zero,
      List.getElem?_cons_succ, List.getLast?, List.getLast, segmentLength_on_axis]
    norm_num [abs_of_nonneg, abs_of_neg]
  have hn01 : nextPermutation [0, 1] = some [1, 0] := by decide
  have hn10 : nextPermutation [1, 0] = none := by decide
  refine ⟨?_, ?_, ?_⟩
  · have hr : List.range 2 = [0, 1] := by decide
    have hf : Nat.factorial 2 = 2 := by decide
    simp only [determineShortestPath, List.length_cons, List.length_nil, hr]
    norm_num [Nat.factorial, searchLoop, h01, h10, hn01, hn10, belowShortest]
  · simp only [routeLength, innerRouteLength, List.head?, List.getElem?_cons_zero,
      List.getElem?_cons_succ, List.getLast?, List.getLast, segmentLength_on_axis]
    norm_num [abs_of_nonneg, abs_of_neg]
  · simp only [routeLength, innerRouteLength, List.head?, List.getElem?_cons_zero,
      List.getElem?_cons_succ, List.getLast?, List.getLast, segmentLength_on_axis]
    norm_num [abs_of_nonneg, abs_of_neg]

theorem determineShortestPath_returns_perm {K : Type} [LinearOrderedField K] (sqrt : K → K)
    (starting_point delivery_point : Coordinates2D K)
    (part_locations : List (Coordinates2D K)) (hne : part_locations ≠ []) :
    ∃ pickup_order,
      determineShortestPath sqrt starting_point part_locations delivery_point
        = some pickup_order ∧
      pickup_order.length = part_locations.length ∧
      pickup_order.Perm (List.range part_locations.length) ∧
      ∀ i, i < part_locations.length → pickup_order.count i = 1 := by
  obtain ⟨p, hp, hcase⟩ := searchLoop_returns
    (determinePathLength sqrt starting_point part_locations delivery_point)
    part_locations.length.factorial (List.range part_locations.length)
    (List.range part_locations.length) none
    (by simpa using laterCount_lt_factorial (List.range part_locations.length))
    (fun q hq => determinePathLength_some sqrt starting_point delivery_point
      part_locations q hne hq)
  have hperm : p.Perm (List.range part_locations.length) := by
    rcases hcase with h | h
    · rw [h]
    · exact h
  refine ⟨p, hp, by simpa using hperm.length_eq, hperm, ?_⟩
  intro i hi
  rw [hperm.count_eq]
  exact List.count_eq_one_of_mem (List.nodup_range _) (List.mem_range.mpr hi)

/-- C3: for a non-empty list of n waypoints `determineShortestPath` returns, and
the returned pickup order has length n and holds each index 0..n-1 exactly once. -/
theorem determineShortestPath_permutation {K : Type} [LinearOrderedField K] (sqrt : K → K)
    (starting_point delivery_point : Coordinates2D K)
    (part_locations : List (Coordinates2D K)) (hne : part_locations ≠ []) :
    ∃ pickup_order,
      determineShortestPath sqrt starting_point part_locations delivery_point
        = some pickup_order ∧
      pickup_order.length = part_locations.length ∧
      pickup_order.Perm (List.range part_locations.length) ∧
      ∀ i, i < part_locations.length → pickup_order.count i = 1 :=
  determineShortestPath_returns_perm sqrt starting_point delivery_point part_locations hne

theorem determineShortestPath_permutation_witness :
    ([⟨1, 0⟩, ⟨-2, 0⟩] : List (Coordinates2D ℝ)) ≠ [] ∧
    ∃ pickup_order,
      determineShortestPath Real.sqrt (⟨0, 0⟩ : Coordinates2D ℝ) [⟨1, 0⟩, ⟨-2, 0⟩] ⟨3, 0⟩
        = some pickup_order ∧
      pickup_order.length = ([⟨1, 0⟩, ⟨-2, 0⟩] : List (Coordinates2D ℝ)).length ∧
      pickup_order.Perm
        (List.range ([⟨1, 0⟩, ⟨-2, 0⟩] : List (Coordinates2D ℝ)).length) ∧
      ∀ i, i < ([⟨1, 0⟩, ⟨-2, 0⟩] : List (Coordinates2D ℝ)).length →
        pickup_order.count i = 1 :=
  ⟨by simp, determineShortestPath_permutation Real.sqrt ⟨0, 0⟩ ⟨3, 0⟩ [⟨1, 0⟩, ⟨-2, 0⟩]
    (by simp)⟩

end AMR

namespace AMR

/-! ## The drain loop: claims C4, C5 -/

section DrainFacts

variable {T U : Type}

theorem runStep_fifoInv (execute : T → U → Option U) (s : RunState T U) (pushed : List T)
    (h : FifoInv s pushed) : FifoInv (runStep execute s) pushed := by
  obtain ⟨⟨queue, flag⟩, pc, sh, qs, nt, ex, us⟩ := s
  obtain ⟨hseq, hnone⟩ := h
  simp only at hseq hnone
  cases pc with
  | beforeLoop =>
    have hn : nt = none := hnone (by simp)
    subst hn
    exact ⟨by simpa [runStep] using hseq, fun _ => rfl⟩
  | loopTest =>
    have hn : nt = none := hnone (by simp)
    subst hn
    by_cases hc : (!sh || decide (qs > 0)) = true
    · cases queue with
      | nil =>
        refine ⟨?_, fun hne => ?_⟩
        · simpa [runStep, hc] using hseq
        · simp [runStep, hc] at hne
      | cons t rest =>
        refine ⟨?_, fun hne => ?_⟩
        · simpa [runStep, hc] using hseq
        · simp [runStep, hc] at hne
    · refine ⟨?_, fun _ => ?_⟩
      · simpa [runStep, hc] using hseq
      · simp [runStep, hc]
  | afterUnlock =>
    cases nt with
    | none => exact ⟨by simpa [runStep] using hseq, fun _ => rfl⟩
    | some t =>
      cases hex : execute t us with
      | none =>
        refine ⟨?_, fun hne => ?_⟩
        · simpa [runStep, hex] using hseq
        · simp [runStep, hex] at hne
      | some us' => exact ⟨by simpa [runStep, hex] using hseq, fun _ => by simp [runStep, hex]⟩
  | terminated => exact ⟨hseq, hnone⟩

theorem applyEvent_fifoInv (execute : T → U → Option U) (s : RunState T U) (pushed : List T)
    (h : FifoInv s pushed) (e : Event T) :
    FifoInv (applyEvent execute s e) (pushed ++ pushedTasks [e]) := by
  cases e with
  | push t =>
    obtain ⟨hseq, hnone⟩ := h
    refine ⟨?_, hnone⟩
    simp [applyEvent, TaskQueue.push, pushedTasks, ← hseq]
  | shutdownMsg =>
    simpa [applyEvent, TaskQueue.requestShutdown, pushedTasks, FifoInv] using h
  | run =>
    simpa [applyEvent, pushedTasks] using runStep_fifoInv execute s pushed h

theorem pushedTasks_cons (e : Event T) (evs : List (Event T)) :
    pushedTasks (e :: evs) = pushedTasks [e] ++ pushedTasks evs := by
  cases e <;> simp [pushedTasks]

theorem runEvents_fifoInv (execute : T → U → Option U) (evs : List (Event T)) :
    ∀ (s : RunState T U) (pushed : List T), FifoInv s pushed →
      FifoInv (runEvents execute s evs) (pushed ++ pushedTasks evs) := by
  induction evs with
  | nil => intro s pushed h; simpa [runEvents, pushedTasks] using h
  | cons e rest ih =>
    intro s pushed h
    have h1 := applyEvent_fifoInv execute s pushed h e
    have h2 := ih (applyEvent execute s e) _ h1
    rw [pushedTasks_cons, ← List.append_assoc]
    simpa [runEvents] using h2

end DrainFacts

end AMR

namespace AMR

section ShutdownFacts

variable {T U : Type}

theorem runSteps_add (execute : T → U → Option U) (m n : Nat) (s : RunState T U) :
    runSteps execute (m + n) s = runSteps execute n (runSteps execute m s) := by
  induction m generalizing s with
  | zero => simp [runSteps]
  | succ k ih => rw [Nat.succ_add]; simp [runSteps, ih]

theorem runSteps_fixed (execute : T → U → Option U) (n : Nat) (s : RunState T U)
    (h : runStep execute s = s) : runSteps execute n s = s := by
  induction n with
  | zero => rfl
  | succ k ih => simp [runSteps, h, ih]

theorem runSteps_terminated (execute : T → U → Option U) (n : Nat) (s : RunState T U)
    (h : s.pc = RunPc.terminated) : runSteps execute n s = s :=
  runSteps_fixed execute n s (by simp [runStep, h])

/-- From the `while` test with the flag set, the loop condition true on the
locals and no task held outside the queue, `2 * k + 3` steps execute the `k`
queued tasks in order and leave the loop, provided the execution of each of
them returns in every state of the unit that satisfies `inv` and leaves a state
that satisfies `inv`. -/
theorem runSteps_drain_from_test (execute : T → U → Option U) (inv : U → Prop) :
    ∀ (queue : List T) (sh : Bool) (qs : Nat) (ex : List T) (us : U),
      (!sh || decide (qs > 0)) = true → inv us →
      (∀ t ∈ queue, ∀ u, inv u → ∃ u', execute t u = some u' ∧ inv u') →
      ∃ sh' qs' us', inv us' ∧ runSteps execute (2 * queue.length + 3)
          { task_queue := { queue := queue, shutdown := true }, pc := RunPc.loopTest,
            shutdown := sh, queue_size := qs, nextTask := none, executed := ex,
            unit_state := us }
        = { task_queue := { queue := [], shutdown := true }, pc := RunPc.terminated,
            shutdown := sh', queue_size := qs', nextTask := none, executed := ex ++ queue,
            unit_state := us' } := by
  intro queue
  induction queue with
  | nil =>
    intro sh qs ex us hc hinv _
    exact ⟨true, 0, us, hinv, by simp [runSteps, runStep, hc]⟩
  | cons t rest ih =>
    intro sh qs ex us hc hinv hret
    obtain ⟨us1, hus1, hinv1⟩ := hret t (List.mem_cons_self t rest) us hinv
    obtain ⟨sh', qs', us', hinv', h⟩ := ih true (rest.length + 1) (ex ++ [t]) us1 (by simp) hinv1
      (fun t' ht' => hret t' (List.mem_cons_of_mem t ht'))
    refine ⟨sh', qs', us', hinv', ?_⟩
    have e : 2 * (t :: rest).length + 3 = 2 + (2 * rest.length + 3) := by
      simp [List.length_cons]; omega
    rw [e, runSteps_add]
    have h2 : runSteps execute 2
        { task_queue := { queue := t :: rest, shutdown := true }, pc := RunPc.loopTest,
          shutdown := sh, queue_size := qs, nextTask := none, executed := ex,
          unit_state := us }
        = { task_queue := { queue := rest, shutdown := true }, pc := RunPc.loopTest,
            shutdown := true, queue_size := rest.length + 1, nextTask := none,
            executed := ex ++ [t], unit_state := us1 } := by
      simp [runSteps, runStep, hc, hus1]
    rw [h2, h]
    simp

/-- State version of the shutdown property: if the flag is set while `run` has
not yet seen it (it is before its first snapshot, or its local copy of the flag
is still false and the loop has not been left), and the execution of the held
task and of each queued task returns (in every state of the unit satisfying
`inv`, which it preserves), then without further events `run` leaves the loop
after finitely many steps, having executed the task it held and the queued
tasks in order, with an empty queue. -/
theorem runSteps_after_shutdown (execute : T → U → Option U) (inv : U → Prop)
    (s : RunState T U)
    (hflag : s.task_queue.shutdown = true)
    (hfresh : s.pc = RunPc.beforeLoop ∨ (s.pc ≠ RunPc.terminated ∧ s.shutdown = false))
    (hheld : s.pc ≠ RunPc.afterUnlock → s.nextTask = none)
    (hinv : inv s.unit_state)
    (hret : ∀ t ∈ s.nextTask.toList ++ s.task_queue.queue, ∀ u, inv u →
      ∃ u', execute t u = some u' ∧ inv u') :
    ∃ n, n ≤ 2 * s.task_queue.queue.length + 4 ∧
      (runSteps execute n s).pc = RunPc.terminated ∧
      (runSteps execute n s).task_queue.queue = [] ∧
      (runSteps execute n s).nextTask = none ∧
      (runSteps execute n s).executed = s.executed ++ s.nextTask.toList ++ s.task_queue.queue ∧
      inv (runSteps execute n s).unit_state ∧
      ∀ m, n ≤ m → runSteps execute m s = runSteps execute n s := by
  obtain ⟨⟨queue, flag⟩, pc, sh, qs, nt, ex, us⟩ := s
  simp only at hflag hfresh hheld hinv hret
  subst hflag
  have stable : ∀ (n : Nat) (s0 : RunState T U),
      (runSteps execute n s0).pc = RunPc.terminated →
      ∀ m, n ≤ m → runSteps execute m s0 = runSteps execute n s0 := by
    intro n s0 hterm m hm
    obtain ⟨d, rfl⟩ := Nat.exists_eq_add_of_le hm
    rw [runSteps_add, runSteps_terminated execute d _ hterm]
  cases pc with
  | beforeLoop =>
    have hn : nt = none := hheld (by simp)
    subst hn
    simp only [Option.toList_none, List.nil_append] at hret
    cases queue with
    | nil =>
      refine ⟨2, by simp, ?_, ?_, ?_, ?_, ?_, ?_⟩
      · simp [runSteps, runStep]
      · simp [runSteps, runStep]
      · simp [runSteps, runStep]
      · simp [runSteps, runStep]
      · simpa [runSteps, runStep] using hinv
      · exact stable 2 _ (by simp [runSteps, runStep])
    | cons t rest =>
      obtain ⟨sh', qs', us', hinv', h⟩ := runSteps_drain_from_test execute inv (t :: rest) true
        (t :: rest).length ex us (by simp) hinv hret
      have h1 : ∀ k, runSteps execute (1 + k)
          (RunState.mk (TaskQueue.mk (t :: rest) true) RunPc.beforeLoop sh qs none ex us)
          = runSteps execute k (RunState.mk (TaskQueue.mk (t :: rest) true) RunPc.loopTest true
              (t :: rest).length none ex us) := by
        intro k
        rw [runSteps_add]
        simp [runSteps, runStep]
      refine ⟨1 + (2 * (t :: rest).length + 3), by simp only; omega, ?_, ?_, ?_, ?_, ?_, ?_⟩
      · rw [h1, h]
      · rw [h1, h]
      · rw [h1, h]
      · rw [h1, h]; simp
      · rw [h1, h]; exact hinv'
      · exact stable _ _ (by rw [h1, h])
  | loopTest =>
    have hn : nt = none := hheld (by simp)
    subst hn
    simp only [Option.toList_none, List.nil_append] at hret
    have hsh : sh = false := by
      rcases hfresh with h | ⟨_, h⟩
      · simp at h
      · exact h
    subst hsh
    obtain ⟨sh', qs', us', hinv', h⟩ :=
      runSteps_drain_from_test execute inv queue false qs ex us (by simp) hinv hret
    refine ⟨2 * queue.length + 3, by simp, ?_, ?_, ?_, ?_, ?_, ?_⟩
    · rw [h]
    · rw [h]
    · rw [h]
    · rw [h]; simp
    · rw [h]; exact hinv'
    · exact stable _ _ (by rw [h])
  | afterUnlock =>
    have hsh : sh = false := by
      rcases hfresh with h | ⟨_, h⟩
      · simp at h
      · exact h
    subst hsh
    cases nt with
    | none =>
      simp only [Option.toList_none, List.nil_append] at hret
      obtain ⟨sh', qs', us', hinv', h⟩ :=
        runSteps_drain_from_test execute inv queue false qs ex us (by simp) hinv hret
      have h1 : ∀ k, runSteps execute (1 + k)
          (RunState.mk (TaskQueue.mk queue true) RunPc.afterUnlock false qs none ex us)
          = runSteps execute k (RunState.mk (TaskQueue.mk queue true) RunPc.loopTest false qs
              none ex us) := by
        intro k
        rw [runSteps_add]
        simp [runSteps, runStep]
      refine ⟨1 + (2 * queue.length + 3), by simp only; omega, ?_, ?_, ?_, ?_, ?_, ?_⟩
      · rw [h1, h]
      · rw [h1, h]
      · rw [h1, h]
      · rw [h1, h]; simp
      · rw [h1, h]; exact hinv'
      · exact stable _ _ (by rw [h1, h])
    | some t =>
      obtain ⟨us1, hus1, hinv1⟩ := hret t (by simp) us hinv
      obtain ⟨sh', qs', us', hinv', h⟩ :=
        runSteps_drain_from_test execute inv queue false qs (ex ++ [t]) us1 (by simp) hinv1
          (fun t' ht' => hret t' (by simp [ht']))
      have h1 : ∀ k, runSteps execute (1 + k)
          (RunState.mk (TaskQueue.mk queue true) RunPc.afterUnlock false qs (some t) ex us)
          = runSteps execute k (RunState.mk (TaskQueue.mk queue true) RunPc.loopTest false qs
              none (ex ++ [t]) us1) := by
        intro k
        rw [runSteps_add]
        simp [runSteps, runStep, hus1]
      refine ⟨1 + (2 * queue.length + 3), by simp only; omega, ?_, ?_, ?_, ?_, ?_, ?_⟩
      · rw [h1, h]
      · rw [h1, h]
      · rw [h1, h]
      · rw [h1, h]; simp
      · rw [h1, h]; exact hinv'
      · exact stable _ _ (by rw [h1, h])
  | terminated =>
    rcases hfresh with h | ⟨h, _⟩
    · simp at h
    · exact absurd rfl h

end ShutdownFacts

end AMR

namespace AMR

section ShutdownTrace

variable {T U : Type}

theorem applyEvent_seenInv (execute : T → U → Option U) (s : RunState T U) (h : SeenInv s)
    (e : Event T) : SeenInv (applyEvent execute s e) := by
  obtain ⟨⟨queue, flag⟩, pc, sh, qs, nt, ex, us⟩ := s
  obtain ⟨h1, h2⟩ := h
  simp only at h1 h2
  cases e with
  | push t => exact ⟨h1, h2⟩
  | shutdownMsg =>
    refine ⟨?_, h2⟩
    rcases h1 with h1 | h1
    · exact Or.inl h1
    · exact Or.inr (fun _ => rfl)
  | run =>
    cases pc with
    | beforeLoop =>
      exact ⟨Or.inr (by simp [applyEvent, runStep]), by simp [applyEvent, runStep]⟩
    | loopTest =>
      by_cases hc : (!sh || decide (qs > 0)) = true
      · cases queue with
        | nil => exact ⟨Or.inr (by simp [applyEvent, runStep, hc]),
            by simp [applyEvent, runStep, hc]⟩
        | cons t rest => exact ⟨Or.inr (by simp [applyEvent, runStep, hc]),
            by simp [applyEvent, runStep, hc]⟩
      · have hsh : sh = true ∧ qs = 0 := by
          cases sh
          · simp at hc
          · simpa using hc
        obtain ⟨rfl, rfl⟩ := hsh
        refine ⟨?_, by simp [applyEvent, runStep]⟩
        rcases h1 with h1 | h1
        · simp at h1
        · exact Or.inr (by simpa [applyEvent, runStep] using h1)
    | afterUnlock =>
      rcases h1 with h1 | h1
      · simp at h1
      · cases nt with
        | none => exact ⟨Or.inr (by simpa [applyEvent, runStep] using h1),
            by simp [applyEvent, runStep]⟩
        | some t =>
          cases hex : execute t us with
          | none => exact ⟨Or.inr (by simpa [applyEvent, runStep, hex] using h1),
              by simp [applyEvent, runStep, hex]⟩
          | some us' => exact ⟨Or.inr (by simpa [applyEvent, runStep, hex] using h1),
              by simp [applyEvent, runStep, hex]⟩
    | terminated => exact ⟨h1, h2⟩

theorem runEvents_seenInv (execute : T → U → Option U) (evs : List (Event T)) :
    ∀ (s : RunState T U), SeenInv s → SeenInv (runEvents execute s evs) := by
  induction evs with
  | nil => intro s h; exact h
  | cons e rest ih => intro s h; exact ih _ (applyEvent_seenInv execute s h e)

/-- C5 (amended): take any interleaving after which the shutdown flag is still
false, and let the shutdown message arrive next, with k tasks pending in the
queue.  Let the execution of the task that is popped but not yet executed (if
any) and of each pending task return: in every state of the unit that satisfies
`inv` it returns and leaves a state that satisfies `inv`, and `inv` holds now.
If no further event of the callback follows, `AmrUnit::run` leaves its loop
after finitely many steps and stays there; at that point the queue is empty and
the executed tasks are those executed before, then the held task, then the k
pending tasks in queue order, which is the sequence of all pushed tasks. -/
theorem run_shutdown_drains_queue (execute : T → U → Option U) (unit_state : U)
    (evs : List (Event T)) (k : Nat) (inv : U → Prop)
    (hflag : (runEvents execute (RunState.initial unit_state) evs).task_queue.shutdown = false)
    (hk : (runEvents execute (RunState.initial unit_state) evs).task_queue.queue.length = k)
    (hinv : inv (runEvents execute (RunState.initial unit_state) evs).unit_state)
    (hreturns : ∀ t ∈ (runEvents execute (RunState.initial unit_state) evs).nextTask.toList
        ++ (runEvents execute (RunState.initial unit_state) evs).task_queue.queue,
      ∀ u, inv u → ∃ u', execute t u = some u' ∧ inv u') :
    ∃ n,
      (runSteps execute n
          (applyEvent execute (runEvents execute (RunState.initial unit_state) evs)
            Event.shutdownMsg)).pc = RunPc.terminated ∧
      (runSteps execute n
          (applyEvent execute (runEvents execute (RunState.initial unit_state) evs)
            Event.shutdownMsg)).task_queue.queue = [] ∧
      (runSteps execute n
          (applyEvent execute (runEvents execute (RunState.initial unit_state) evs)
            Event.shutdownMsg)).executed
        = (runEvents execute (RunState.initial unit_state) evs).executed
            ++ (runEvents execute (RunState.initial unit_state) evs).nextTask.toList
            ++ (runEvents execute (RunState.initial unit_state) evs).task_queue.queue ∧
      (runSteps execute n
          (applyEvent execute (runEvents execute (RunState.initial unit_state) evs)
            Event.shutdownMsg)).executed = pushedTasks evs ∧
      n ≤ 2 * k + 4 ∧
      ∀ m, n ≤ m →
        runSteps execute m
            (applyEvent execute (runEvents execute (RunState.initial unit_state) evs)
              Event.shutdownMsg)
          = runSteps execute n
            (applyEvent execute (runEvents execute (RunState.initial unit_state) evs)
              Event.shutdownMsg) := by
  have hfifo := runEvents_fifoInv execute evs (RunState.initial unit_state : RunState T U) []
    ⟨by simp [RunState.initial], fun _ => rfl⟩
  have hseen := runEvents_seenInv execute evs (RunState.initial unit_state : RunState T U)
    ⟨Or.inl rfl, by simp [RunState.initial]⟩
  simp only [List.nil_append] at hfifo
  generalize runEvents execute (RunState.initial unit_state) evs = s
    at hflag hk hinv hreturns hfifo hseen ⊢
  obtain ⟨⟨queue, flag⟩, pc, sh, qs, nt, ex, us⟩ := s
  simp only at hflag hk hinv hreturns
  subst hflag
  obtain ⟨hseq, hheld⟩ := hfifo
  obtain ⟨hs1, hs2⟩ := hseen
  simp only at hseq hheld hs1 hs2
  have hfresh : pc = RunPc.beforeLoop ∨ (pc ≠ RunPc.terminated ∧ sh = false) := by
    rcases hs1 with h | h
    · exact Or.inl h
    · have hsh : sh = false := by
        cases sh
        · rfl
        · simp at h
      refine Or.inr ⟨fun hpc => ?_, hsh⟩
      have := hs2 hpc
      rw [hsh] at this
      simp at this
  obtain ⟨n, hn, h1, h2, _, h4, _, h5⟩ := runSteps_after_shutdown execute inv
    (RunState.mk (TaskQueue.mk queue true) pc sh qs nt ex us) rfl hfresh hheld hinv hreturns
  simp only at hn h4
  refine ⟨n, h1, h2, h4, ?_, by omega, h5⟩
  exact h4.trans hseq

end ShutdownTrace

theorem run_shutdown_drains_queue_witness :
    (runEvents (Task.execute (fun _ : ℝ => "?") Real.sqrt sampleOrderFiles)
        (RunState.initial (sampleUnit, []))
        [Event.push (Task.move { coords_2d := { x := 1, y := 2 }, yaw := 0 }),
          Event.push (Task.order 9 "none"), Event.run, Event.run]).task_queue.shutdown
      = false ∧
    (runEvents (Task.execute (fun _ : ℝ => "?") Real.sqrt sampleOrderFiles)
        (RunState.initial (sampleUnit, []))
        [Event.push (Task.move { coords_2d := { x := 1, y := 2 }, yaw := 0 }),
          Event.push (Task.order 9 "none"), Event.run, Event.run]).task_queue.queue.length
      = 1 ∧
    ∃ n,
      (runSteps (Task.execute (fun _ : ℝ => "?") Real.sqrt sampleOrderFiles) n
        (applyEvent (Task.execute (fun _ : ℝ => "?") Real.sqrt sampleOrderFiles)
          (runEvents (Task.execute (fun _ : ℝ => "?") Real.sqrt sampleOrderFiles)
            (RunState.initial (sampleUnit, []))
            [Event.push (Task.move { coords_2d := { x := 1, y := 2 }, yaw := 0 }),
              Event.push (Task.order 9 "none"), Event.run, Event.run])
          Event.shutdownMsg)).pc = RunPc.terminated ∧
      (runSteps (Task.execute (fun _ : ℝ => "?") Real.sqrt sampleOrderFiles) n
        (applyEvent (Task.execute (fun _ : ℝ => "?") Real.sqrt sampleOrderFiles)
          (runEvents (Task.execute (fun _ : ℝ => "?") Real.sqrt sampleOrderFiles)
            (RunState.initial (sampleUnit, []))
            [Event.push (Task.move { coords_2d := { x := 1, y := 2 }, yaw := 0 }),
              Event.push (Task.order 9 "none"), Event.run, Event.run])
          Event.shutdownMsg)).task_queue.queue = [] ∧
      (runSteps (Task.execute (fun _ : ℝ => "?") Real.sqrt sampleOrderFiles) n
        (applyEvent (Task.execute (fun _ : ℝ => "?") Real.sqrt sampleOrderFiles)
          (runEvents (Task.execute (fun _ : ℝ => "?") Real.sqrt sampleOrderFiles)
            (RunState.initial (sampleUnit, []))
            [Event.push (Task.move { coords_2d := { x := 1, y := 2 }, yaw := 0 }),
              Event.push (Task.order 9 "none"), Event.run, Event.run])
          Event.shutdownMsg)).executed
        = ([Task.move { coords_2d := { x := 1, y := 2 }, yaw := 0 }, Task.order 9 "none"]
            : List (Task ℝ)) := by
  obtain ⟨n, h1, h2, _, h4, _, _⟩ := run_shutdown_drains_queue
    (Task.execute (fun _ : ℝ => "?") Real.sqrt sampleOrderFiles) (sampleUnit, [])
    [Event.push (Task.move { coords_2d := { x := 1, y := 2 }, yaw := 0 }),
      Event.push (Task.order 9 "none"), Event.run, Event.run] 1 (fun _ => True) rfl rfl trivial
    (by
      intro t ht u _
      have ht' : t = (Task.move { coords_2d := { x := 1, y := 2 }, yaw := 0 } : Task ℝ)
          ∨ t = Task.order 9 "none" := by
        simpa [runEvents, applyEvent, runStep, RunState.initial, TaskQueue.push] using ht
      obtain ⟨target_unit, stream⟩ := u
      rcases ht' with rfl | rfl
      · exact ⟨_, rfl, trivial⟩
      · refine ⟨(target_unit, stream ++ [workingLine 9 "none", notFoundLine 9]), ?_, trivial⟩
        simp [Task.execute, OrderExecutor.execute, parseAllFilesToFindOrder, sampleOrderFiles,
          parseSingleFile])
  exact ⟨rfl, rfl, n, h1, h2, h4⟩

/-- C5 (counterexample): the unit has an empty catalog (no configuration file
was found), the order task for order 7 of the sample order files and a move
task are pending in the queue, in this order, when the shutdown message arrives,
and no further task is pushed.  The execution of the order task reads
`all_products[1]` of an empty vector and does not return: after no number of
steps has `AmrUnit::run` left its loop or executed a task, and from the second
step on the move task is still in the queue. -/
theorem run_shutdown_task_does_not_return :
    (applyEvent (Task.execute (fun _ : ℝ => "?") Real.sqrt sampleOrderFiles)
      (runEvents (Task.execute (fun _ : ℝ => "?") Real.sqrt sampleOrderFiles)
        (RunState.initial
          ({ current_position := { coords_2d := { x := 0, y := 0 }, yaw := 0 },
             all_products := [], all_product_parts := [] }, []))
        [Event.push (Task.order 7 "seven"),
          Event.push (Task.move { coords_2d := { x := 1, y := 2 }, yaw := 0 })])
      Event.shutdownMsg).task_queue
      = { queue := [Task.order 7 "seven",
            Task.move { coords_2d := { x := 1, y := 2 }, yaw := 0 }],
          shutdown := true } ∧
    ∀ n : Nat,
      (runSteps (Task.execute (fun _ : ℝ => "?") Real.sqrt sampleOrderFiles) n
        (applyEvent (Task.execute (fun _ : ℝ => "?") Real.sqrt sampleOrderFiles)
          (runEvents (Task.execute (fun _ : ℝ => "?") Real.sqrt sampleOrderFiles)
            (RunState.initial
              ({ current_position := { coords_2d := { x := 0, y := 0 }, yaw := 0 },
                 all_products := [], all_product_parts := [] }, []))
            [Event.push (Task.order 7 "seven"),
              Event.push (Task.move { coords_2d := { x := 1, y := 2 }, yaw := 0 })])
          Event.shutdownMsg)).pc ≠ RunPc.terminated ∧
      (runSteps (Task.execute (fun _ : ℝ => "?") Real.sqrt sampleOrderFiles) n
        (applyEvent (Task.execute (fun _ : ℝ => "?") Real.sqrt sampleOrderFiles)
          (runEvents (Task.execute (fun _ : ℝ => "?") Real.sqrt sampleOrderFiles)
            (RunState.initial
              ({ current_position := { coords_2d := { x := 0, y := 0 }, yaw := 0 },
                 all_products := [], all_product_parts := [] }, []))
            [Event.push (Task.order 7 "seven"),
              Event.push (Task.move { coords_2d := { x := 1, y := 2 }, yaw := 0 })])
          Event.shutdownMsg)).executed = [] ∧
      (runSteps (Task.execute (fun _ : ℝ => "?") Real.sqrt sampleOrderFiles) (n + 2)
        (applyEvent (Task.execute (fun _ : ℝ => "?") Real.sqrt sampleOrderFiles)
          (runEvents (Task.execute (fun _ : ℝ => "?") Real.sqrt sampleOrderFiles)
            (RunState.initial
              ({ current_position := { coords_2d := { x := 0, y := 0 }, yaw := 0 },
                 all_products := [], all_product_parts := [] }, []))
            [Event.push (Task.order 7 "seven"),
              Event.push (Task.move { coords_2d := { x := 1, y := 2 }, yaw := 0 })])
          Event.shutdownMsg)).task_queue.queue
        = ([Task.move { coords_2d := { x := 1, y := 2 }, yaw := 0 }] : List (Task ℝ)) := by
  have hfail : ∀ (target_unit_position : Position ℝ) (stream : List String),
      Task.execute (fun _ : ℝ => "?") Real.sqrt sampleOrderFiles (Task.order 7 "seven")
        ({ current_position := target_unit_position, all_products := [],
           all_product_parts := [] }, stream) = none := by
    intro p stream
    simp [Task.execute, OrderExecutor.execute, parseAllFilesToFindOrder, sampleOrderFiles,
      parseSingleFile, processOrderedProducts, processLoop, vectorAt]
  have h2 : runSteps (Task.execute (fun _ : ℝ => "?") Real.sqrt sampleOrderFiles) 2
      (applyEvent (Task.execute (fun _ : ℝ => "?") Real.sqrt sampleOrderFiles)
        (runEvents (Task.execute (fun _ : ℝ => "?") Real.sqrt sampleOrderFiles)
          (RunState.initial
            ({ current_position := { coords_2d := { x := 0, y := 0 }, yaw := 0 },
               all_products := [], all_product_parts := [] }, []))
          [Event.push (Task.order 7 "seven"),
            Event.push (Task.move { coords_2d := { x := 1, y := 2 }, yaw := 0 })])
        Event.shutdownMsg)
      = { task_queue :=
            { queue := [Task.move { coords_2d := { x := 1, y := 2 }, yaw := 0 }],
              shutdown := true },
          pc := RunPc.afterUnlock, shutdown := true, queue_size := 2,
          nextTask := some (Task.order 7 "seven"), executed := [],
          unit_state :=
            ({ current_position := { coords_2d := { x := 0, y := 0 }, yaw := 0 },
               all_products := [], all_product_parts := [] }, []) } := by
    simp [runSteps, runStep, runEvents, applyEvent, RunState.initial, TaskQueue.push,
      TaskQueue.requestShutdown]
  have hstuck : ∀ m, runSteps (Task.execute (fun _ : ℝ => "?") Real.sqrt sampleOrderFiles)
      (2 + m)
      (applyEvent (Task.execute (fun _ : ℝ => "?") Real.sqrt sampleOrderFiles)
        (runEvents (Task.execute (fun _ : ℝ => "?") Real.sqrt sampleOrderFiles)
          (RunState.initial
            ({ current_position := { coords_2d := { x := 0, y := 0 }, yaw := 0 },
               all_products := [], all_product_parts := [] }, []))
          [Event.push (Task.order 7 "seven"),
            Event.push (Task.move { coords_2d := { x := 1, y := 2 }, yaw := 0 })])
        Event.shutdownMsg)
      = { task_queue :=
            { queue := [Task.move { coords_2d := { x := 1, y := 2 }, yaw := 0 }],
              shutdown := true },
          pc := RunPc.afterUnlock, shutdown := true, queue_size := 2,
          nextTask := some (Task.order 7 "seven"), executed := [],
          unit_state :=
            ({ current_position := { coords_2d := { x := 0, y := 0 }, yaw := 0 },
               all_products := [], all_product_parts := [] }, []) } := by
    intro m
    rw [runSteps_add, h2, runSteps_fixed]
    simp [runStep, hfail]
  refine ⟨rfl, fun n => ⟨?_, ?_, ?_⟩⟩
  · rcases n with _ | _ | m
    · simp [runSteps, runEvents, applyEvent, RunState.initial]
    · simp [runSteps, runStep, runEvents, applyEvent, RunState.initial]
    · have e : m + 1 + 1 = 2 + m := by omega
      rw [e, hstuck]
      simp
  · rcases n with _ | _ | m
    · rfl
    · rfl
    · have e : m + 1 + 1 = 2 + m := by omega
      rw [e, hstuck]
  · have e : n + 2 = 2 + n := by omega
    rw [e, hstuck]

end AMR

namespace AMR

/-! ## Maps and the aggregation of parts: claim C6 -/

section MapFacts

variable {V : Type}

theorem IdMap.find_emplace (m : IdMap V) (k q : Int) (v : V) (h : IdMap.find m k = none) :
    IdMap.find (IdMap.emplace m k v) q = if q = k then some v else IdMap.find m q := by
  induction m with
  | nil =>
    by_cases hq : q = k
    · simp [IdMap.emplace, IdMap.find, hq]
    · have hq' : ¬ k = q := fun e => hq e.symm
      simp [IdMap.emplace, IdMap.find, hq, hq']
  | cons a rest ih =>
    obtain ⟨k0, v0⟩ := a
    have hk0 : ¬ k0 = k := by
      intro e
      simp [IdMap.find, e] at h
    have hrest : IdMap.find rest k = none := by
      simpa [IdMap.find, hk0] using h
    have hk0' : ¬ k = k0 := fun e => hk0 e.symm
    unfold IdMap.emplace
    by_cases hlt : k < k0
    · by_cases hq : q = k
      · simp [hlt, IdMap.find, hq]
      · have hq' : ¬ k = q := fun e => hq e.symm
        simp [hlt, IdMap.find, hq, hq']
    · simp only [hlt, if_false, hk0', IdMap.find]
      by_cases hq0 : k0 = q
      · have : ¬ q = k := fun e => hk0 (hq0.trans e)
        simp [hq0, this]
      · simp [hq0, ih hrest]

theorem IdMap.find_modify (m : IdMap V) (k q : Int) (f : V → V) :
    IdMap.find (IdMap.modify m k f) q
      = if q = k then (IdMap.find m k).map f else IdMap.find m q := by
  induction m with
  | nil => simp [IdMap.modify, IdMap.find]
  | cons a rest ih =>
    obtain ⟨k0, v0⟩ := a
    unfold IdMap.modify
    by_cases h0 : k0 = k
    · by_cases hq : q = k
      · simp [h0, hq, IdMap.find]
      · have hq' : ¬ k = q := fun e => hq e.symm
        simp [h0, hq, hq', IdMap.find]
    · by_cases hq0 : k0 = q
      · have : ¬ q = k := fun e => h0 (hq0.trans e)
        simp [h0, hq0, this, IdMap.find]
      · simp [h0, hq0, IdMap.find, ih]

theorem IdMap.keys_modify (m : IdMap V) (k : Int) (f : V → V) :
    IdMap.keys (IdMap.modify m k f) = IdMap.keys m := by
  induction m with
  | nil => rfl
  | cons a rest ih =>
    obtain ⟨k0, v0⟩ := a
    unfold IdMap.modify
    by_cases h0 : k0 = k
    · simp [h0, IdMap.keys]
    · simp only [h0, if_false]
      simp only [IdMap.keys, List.map_cons] at ih ⊢
      rw [ih]

theorem IdMap.mem_keys_emplace (m : IdMap V) (k x : Int) (v : V) :
    x ∈ IdMap.keys (IdMap.emplace m k v) → x = k ∨ x ∈ IdMap.keys m := by
  induction m with
  | nil => intro h; simpa [IdMap.emplace, IdMap.keys] using h
  | cons a rest ih =>
    obtain ⟨k0, v0⟩ := a
    unfold IdMap.emplace
    by_cases hlt : k < k0
    · intro h; simpa [hlt, IdMap.keys] using h
    · by_cases he : k = k0
      · intro h; right; simpa [hlt, he, IdMap.keys] using h
      · intro h
        simp only [hlt, he, if_false, IdMap.keys, List.map_cons, List.mem_cons] at h
        rcases h with h | h
        · right; simp [IdMap.keys, h]
        · rcases ih h with h' | h'
          · exact Or.inl h'
          · right
            simp only [IdMap.keys, List.map_cons, List.mem_cons]
            exact Or.inr h'

theorem IdMap.WF_emplace (m : IdMap V) (k : Int) (v : V) (h : IdMap.WF m) :
    IdMap.WF (IdMap.emplace m k v) := by
  induction m with
  | nil => simp [IdMap.emplace, IdMap.WF, IdMap.keys]
  | cons a rest ih =>
    obtain ⟨k0, v0⟩ := a
    have hcons : (k0 :: IdMap.keys rest).Pairwise (fun a b => a < b) := h
    obtain ⟨hhead, htail⟩ := List.pairwise_cons.mp hcons
    unfold IdMap.emplace
    by_cases hlt : k < k0
    · simp only [hlt, if_true]
      show (k :: k0 :: IdMap.keys rest).Pairwise (fun a b => a < b)
      refine List.pairwise_cons.mpr ⟨?_, hcons⟩
      intro x hx
      rcases List.mem_cons.mp hx with rfl | hx
      · exact hlt
      · exact lt_trans hlt (hhead x hx)
    · by_cases he : k = k0
      · subst he
        simp only [lt_irrefl, if_false, if_true]
        exact h
      · simp only [hlt, he, if_false]
        show (k0 :: IdMap.keys (IdMap.emplace rest k v)).Pairwise (fun a b => a < b)
        refine List.pairwise_cons.mpr ⟨?_, ih htail⟩
        intro x hx
        rcases IdMap.mem_keys_emplace rest k x v hx with rfl | hx
        · omega
        · exact hhead x hx

theorem IdMap.find_eq_none_of_not_mem (m : IdMap V) (k : Int) (h : k ∉ IdMap.keys m) :
    IdMap.find m k = none := by
  induction m with
  | nil => rfl
  | cons a rest ih =>
    obtain ⟨k0, v0⟩ := a
    simp only [IdMap.keys, List.map_cons, List.mem_cons, not_or] at h
    have h0 : ¬ k0 = k := fun e => h.1 e.symm
    simp only [IdMap.find, h0, if_false]
    exact ih h.2

theorem IdMap.mem_keys_iff_find (m : IdMap V) (k : Int) :
    k ∈ IdMap.keys m ↔ ∃ v, IdMap.find m k = some v := by
  induction m with
  | nil => simp [IdMap.keys, IdMap.find]
  | cons a rest ih =>
    obtain ⟨k0, v0⟩ := a
    by_cases h0 : k0 = k
    · simp [IdMap.keys, IdMap.find, h0]
    · have h0' : ¬ k = k0 := fun e => h0 e.symm
      simp only [IdMap.keys, List.map_cons, List.mem_cons, h0', false_or, IdMap.find, h0,
        if_false]
      exact ih

end MapFacts

end AMR

namespace AMR

section Aggregation

theorem vectorAt_of_valid {α : Type} (v : List α) (i : Int) (h0 : 0 ≤ i)
    (h1 : i < (v.length : Int)) : ∃ a, vectorAt v i = some a ∧ a ∈ v := by
  have hlt : i.toNat < v.length := by omega
  refine ⟨v[i.toNat], ?_, List.getElem_mem hlt⟩
  have hneg : ¬ i < 0 := by omega
  simp [vectorAt, hneg, List.getElem?_eq_getElem hlt]

theorem find_addPart (pid : Int) (m : ProcessedProductParts) (k qty q : Int) :
    IdMap.find (addPart pid m (k, qty)) q
      = if q = k then some ((IdMap.find m k).getD [] ++ [(pid, qty)]) else IdMap.find m q := by
  unfold addPart
  cases hf : IdMap.find m k with
  | none =>
    simp only [hf]
    rw [IdMap.find_emplace m k q _ hf]
    simp
  | some info =>
    simp only [hf]
    rw [IdMap.find_modify, hf]
    simp

theorem WF_addPart (pid : Int) (m : ProcessedProductParts) (part : Int × Int)
    (h : IdMap.WF m) : IdMap.WF (addPart pid m part) := by
  unfold addPart
  cases hf : IdMap.find m part.1 with
  | none => simpa [hf] using IdMap.WF_emplace m part.1 _ h
  | some info =>
    simp only [hf]
    unfold IdMap.WF
    rw [IdMap.keys_modify]
    exact h

theorem WF_addProductParts (pid : Int) (parts : List (Int × Int)) :
    ∀ (m : ProcessedProductParts), IdMap.WF m → IdMap.WF (addProductParts pid parts m) := by
  induction parts with
  | nil => intro m h; exact h
  | cons part rest ih => intro m h; exact ih _ (WF_addPart pid m part h)

theorem find_addProductParts (pid q : Int) (parts : IdMap Int)
    (hparts : (IdMap.keys parts).Nodup) :
    ∀ (m : ProcessedProductParts),
      IdMap.find (addProductParts pid parts m) q
        = match IdMap.find parts q with
          | some qty => some ((IdMap.find m q).getD [] ++ [(pid, qty)])
          | none => IdMap.find m q := by
  induction parts with
  | nil => intro m; simp [addProductParts, IdMap.find]
  | cons part rest ih =>
    intro m
    obtain ⟨k, qty⟩ := part
    have hnd : k ∉ IdMap.keys rest ∧ (IdMap.keys rest).Nodup := by
      simpa [IdMap.keys] using hparts
    simp only [addProductParts]
    rw [ih hnd.2]
    by_cases hq : k = q
    · subst hq
      rw [IdMap.find_eq_none_of_not_mem rest k hnd.1]
      simp [IdMap.find, find_addPart]
    · have hq' : ¬ q = k := fun e => hq e.symm
      simp only [IdMap.find, hq, if_false, find_addPart, hq']

theorem processLoop_spec (all_products : List Product)
    (hwf : ∀ product ∈ all_products, IdMap.WF product.parts) :
    ∀ (ordered_products : List Int) (m : ProcessedProductParts),
      (∀ id ∈ ordered_products, 0 ≤ id ∧ id < (all_products.length : Int)) →
      IdMap.WF m → (∀ q, IdMap.find m q ≠ some []) →
      ∃ m', processLoop all_products ordered_products m = some m' ∧ IdMap.WF m' ∧
        ∀ q, IdMap.find m' q ≠ some [] ∧
          (IdMap.find m' q).getD []
            = (IdMap.find m q).getD [] ++ requiredEntries all_products ordered_products q := by
  intro ordered_products
  induction ordered_products with
  | nil =>
    intro m _ hm hne
    exact ⟨m, rfl, hm, fun q => ⟨hne q, by simp [requiredEntries]⟩⟩
  | cons id rest ih =>
    intro m hvalid hm hne
    obtain ⟨h0, h1⟩ := hvalid id (by simp)
    obtain ⟨product, hprod, hmem⟩ := vectorAt_of_valid all_products id h0 h1
    have hnd : (IdMap.keys product.parts).Nodup :=
      (hwf product hmem).imp (fun h => ne_of_lt h)
    have hstep : ∀ q, IdMap.find (addProductParts id product.parts m) q
        = match IdMap.find product.parts q with
          | some qty => some ((IdMap.find m q).getD [] ++ [(id, qty)])
          | none => IdMap.find m q :=
      fun q => find_addProductParts id q product.parts hnd m
    obtain ⟨m', hm', hwf', hspec⟩ := ih (addProductParts id product.parts m)
      (fun i hi => hvalid i (List.mem_cons_of_mem _ hi))
      (WF_addProductParts id product.parts m hm)
      (by
        intro q
        rw [hstep q]
        cases IdMap.find product.parts q with
        | none => exact hne q
        | some qty => simp)
    refine ⟨m', by simp [processLoop, hprod, hm'], hwf', fun q => ⟨(hspec q).1, ?_⟩⟩
    rw [(hspec q).2, hstep q]
    cases hq : IdMap.find product.parts q with
    | none => simp [requiredEntries, hprod, hq]
    | some qty => simp [requiredEntries, hprod, hq]

theorem processOrderedProducts_find_keys (all_products : List Product)
    (ordered_products : List Int)
    (hwf : ∀ product ∈ all_products, IdMap.WF product.parts)
    (hvalid : ∀ id ∈ ordered_products, 0 ≤ id ∧ id < (all_products.length : Int)) :
    ∃ processed_product_parts,
      processOrderedProducts ordered_products all_products = some processed_product_parts ∧
      IdMap.WF processed_product_parts ∧
      (∀ q, IdMap.find processed_product_parts q
          = if requiredEntries all_products ordered_products q = [] then none
            else some (requiredEntries all_products ordered_products q)) ∧
      (∀ q, q ∈ IdMap.keys processed_product_parts ↔
          ∃ id ∈ ordered_products, ∃ product, vectorAt all_products id = some product ∧
            q ∈ IdMap.keys product.parts) := by
  obtain ⟨m, hm, hwf', hspec⟩ := processLoop_spec all_products hwf ordered_products []
    hvalid (by simp [IdMap.WF, IdMap.keys]) (by simp [IdMap.find])
  have hfind : ∀ q, IdMap.find m q
      = if requiredEntries all_products ordered_products q = [] then none
        else some (requiredEntries all_products ordered_products q) := by
    intro q
    obtain ⟨hne, hval⟩ := hspec q
    simp only [IdMap.find, Option.getD_none, List.nil_append] at hval
    cases hf : IdMap.find m q with
    | none =>
      rw [hf] at hval
      simp only [Option.getD_none] at hval
      simp [← hval]
    | some entries =>
      rw [hf] at hval hne
      simp only [Option.getD_some] at hval
      have : entries ≠ [] := fun e => hne (by rw [e])
      rw [← hval]
      simp [this]
  refine ⟨m, hm, hwf', hfind, ?_⟩
  intro q
  rw [IdMap.mem_keys_iff_find, hfind q]
  constructor
  · rintro ⟨v, hv⟩
    by_cases he : requiredEntries all_products ordered_products q = []
    · simp [he] at hv
    · obtain ⟨e, hmem⟩ := List.exists_mem_of_ne_nil _ he
      simp only [requiredEntries, List.mem_filterMap] at hmem
      obtain ⟨id, hid, hsome⟩ := hmem
      cases hp : vectorAt all_products id with
      | none => simp [hp] at hsome
      | some product =>
        refine ⟨id, hid, product, hp, ?_⟩
        cases hq : IdMap.find product.parts q with
        | none => simp [hp, hq] at hsome
        | some qty => exact (IdMap.mem_keys_iff_find _ _).mpr ⟨qty, hq⟩
  · rintro ⟨id, hid, product, hp, hq⟩
    obtain ⟨qty, hqty⟩ := (IdMap.mem_keys_iff_find _ _).mp hq
    have hmem : (id, qty) ∈ requiredEntries all_products ordered_products q := by
      simp only [requiredEntries, List.mem_filterMap]
      exact ⟨id, hid, by simp [hp, hqty]⟩
    have hne : requiredEntries all_products ordered_products q ≠ [] :=
      List.ne_nil_of_mem hmem
    exact ⟨requiredEntries all_products ordered_products q, by simp [hne]⟩

/-- C6: for a catalog whose products carry well-formed parts maps and a list of
ordered product ids that are valid catalog indices, `processOrderedProducts`
returns a well-formed map; its value under part `q` is the sequence, in scan
order of the ordered products (repeats included), of the pairs (product id,
quantity of `q` in that product) over the ordered products that require `q`,
one pair per ordered product and nothing summed; and `q` is a key exactly when
some ordered product requires it. -/
theorem processOrderedProducts_spec (all_products : List Product)
    (ordered_products : List Int)
    (hwf : ∀ product ∈ all_products, IdMap.WF product.parts)
    (hvalid : ∀ id ∈ ordered_products, 0 ≤ id ∧ id < (all_products.length : Int)) :
    ∃ processed_product_parts,
      processOrderedProducts ordered_products all_products = some processed_product_parts ∧
      IdMap.WF processed_product_parts ∧
      (∀ q, IdMap.find processed_product_parts q
          = if requiredEntries all_products ordered_products q = [] then none
            else some (requiredEntries all_products ordered_products q)) ∧
      (∀ q, q ∈ IdMap.keys processed_product_parts ↔
          ∃ id ∈ ordered_products, ∃ product, vectorAt all_products id = some product ∧
            q ∈ IdMap.keys product.parts) :=
  processOrderedProducts_find_keys all_products ordered_products hwf hvalid

end Aggregation

end AMR

namespace AMR

/-! ## The delivery report: claim C7 -/

section ReportFacts

variable {K : Type}

theorem printUnits_eq (line : String) :
    ∀ (count : Nat) (stream : List String),
      printUnits line count stream = stream ++ List.replicate count line := by
  intro count
  induction count with
  | zero => intro stream; simp [printUnits]
  | succ n ih =>
    intro stream
    simp [printUnits, ih, List.replicate_succ]

theorem printPartEntries_eq (fmt : K → String) (all_product_parts : List (ProductPart K))
    (part_id : Int) (part : ProductPart K) (hpart : vectorAt all_product_parts part_id = some part) :
    ∀ (entries : List (Int × Int)) (stream : List String),
      printPartEntries fmt all_product_parts part_id entries stream
        = some (stream ++ entries.flatMap (fun entry =>
            List.replicate entry.2.toNat (fetchingLine fmt part.name entry.1 part.coords))) := by
  intro entries
  induction entries with
  | nil => intro stream; simp [printPartEntries]
  | cons entry rest ih =>
    intro stream
    simp [printPartEntries, hpart, ih, printUnits_eq, List.append_assoc]

theorem printWaypoints_eq (fmt : K → String) (processed_product_parts : ProcessedProductParts)
    (position_to_key : List Int) (all_product_parts : List (ProductPart K))
    (pickup_order : List Nat) (stops : List (Int × ProductPart K × List (Int × Int)))
    (hstops : List.Forall₂ (fun i stop =>
      position_to_key[i]? = some stop.1 ∧
      vectorAt all_product_parts stop.1 = some stop.2.1 ∧
      IdMap.find processed_product_parts stop.1 = some stop.2.2) pickup_order stops) :
    ∀ (stream : List String),
      printWaypoints fmt processed_product_parts position_to_key all_product_parts
          pickup_order stream
        = some (stream ++ stops.flatMap (fun stop => stop.2.2.flatMap (fun entry =>
            List.replicate entry.2.toNat
              (fetchingLine fmt stop.2.1.name entry.1 stop.2.1.coords)))) := by
  induction hstops with
  | nil => intro stream; simp [printWaypoints]
  | cons h _ ih =>
    intro stream
    obtain ⟨h1, h2, h3⟩ := h
    simp [printWaypoints, h1, h3, printPartEntries_eq fmt all_product_parts _ _ h2, ih,
      List.append_assoc]

/-- C7: let every waypoint index of the pickup order resolve, through the
position-to-part-id index, the parts catalog and the pick list, to a stop (part
id, part, recorded entries).  Then `printDeliveryPath` appends to the stream the
line "Starting from position x: .., y: .." with the starting point, then for
each stop in pickup order and each recorded entry (product id, quantity) in
recorded order exactly `quantity` lines "Fetching '<part name>' for product
'<product id>' at x: .., y: .." with the coordinates of the part, then the one
line "Delivering to destination x: .., y: .." with the delivery point. -/
theorem printDeliveryPath_spec (fmt : K → String)
    (starting_point delivery_point : Coordinates2D K) (pickup_order : List Nat)
    (processed_product_parts : ProcessedProductParts) (position_to_key : List Int)
    (all_product_parts : List (ProductPart K)) (stream : List String)
    (stops : List (Int × ProductPart K × List (Int × Int)))
    (hstops : List.Forall₂ (fun i stop =>
      position_to_key[i]? = some stop.1 ∧
      vectorAt all_product_parts stop.1 = some stop.2.1 ∧
      IdMap.find processed_product_parts stop.1 = some stop.2.2) pickup_order stops) :
    printDeliveryPath fmt starting_point delivery_point pickup_order processed_product_parts
        position_to_key all_product_parts stream
      = some (stream
          ++ ["Starting from position x: " ++ fmt starting_point.x
                ++ ", y: " ++ fmt starting_point.y]
          ++ stops.flatMap (fun stop => stop.2.2.flatMap (fun entry =>
              List.replicate entry.2.toNat
                ("Fetching '" ++ stop.2.1.name ++ "' for product '" ++ toString entry.1
                  ++ "' at x: " ++ fmt stop.2.1.coords.x
                  ++ ", y: " ++ fmt stop.2.1.coords.y)))
          ++ ["Delivering to destination x: " ++ fmt delivery_point.x
                ++ ", y: " ++ fmt delivery_point.y]) := by
  unfold printDeliveryPath
  rw [printWaypoints_eq fmt processed_product_parts position_to_key all_product_parts
    pickup_order stops hstops]
  rfl

end ReportFacts

end AMR

namespace AMR

/-! ## Order lookup: claim C10 -/

section LookupFacts

variable {K : Type}

theorem parseSingleFile_no_match (order_id : Nat) (shared : LookupResult K) :
    ∀ (orders : List (OrderRecord K)),
      orders.filter (fun r => decide (r.order = order_id)) = [] →
      parseSingleFile orders order_id shared = shared := by
  intro orders
  induction orders with
  | nil => intro _; rfl
  | cons r rest ih =>
    intro h
    by_cases hr : r.order = order_id
    · simp [List.filter, hr] at h
    · have hrest : rest.filter (fun r => decide (r.order = order_id)) = [] := by
        simpa [List.filter, hr] using h
      simp [parseSingleFile, hr, ih hrest]

theorem parseSingleFile_first_match (order_id : Nat) (shared : LookupResult K)
    (record : OrderRecord K) (others : List (OrderRecord K)) :
    ∀ (orders : List (OrderRecord K)),
      orders.filter (fun r => decide (r.order = order_id)) = record :: others →
      parseSingleFile orders order_id shared
        = { delivery_point := { x := record.cx, y := record.cy },
            ordered_products := shared.ordered_products ++ record.products,
            order_found := true } := by
  intro orders
  induction orders with
  | nil => intro h; simp at h
  | cons r rest ih =>
    intro h
    by_cases hr : r.order = order_id
    · have : r = record := by
        simp only [List.filter, hr, decide_True, List.cons.injEq] at h
        exact h.1
      subst this
      simp [parseSingleFile, hr]
    · have hrest : rest.filter (fun r => decide (r.order = order_id)) = record :: others := by
        simpa [List.filter, hr] using h
      simp [parseSingleFile, hr, ih hrest]

theorem foldl_parseSingleFile_no_match (order_id : Nat) :
    ∀ (files : List (List (OrderRecord K))) (shared : LookupResult K),
      files.flatten.filter (fun r => decide (r.order = order_id)) = [] →
      files.foldl (fun shared orders => parseSingleFile orders order_id shared) shared
        = shared := by
  intro files
  induction files with
  | nil => intro shared _; rfl
  | cons f fs ih =>
    intro shared h
    rw [List.flatten_cons, List.filter_append, List.append_eq_nil] at h
    simp only [List.foldl_cons]
    rw [parseSingleFile_no_match order_id shared f h.1]
    exact ih shared h.2

theorem foldl_parseSingleFile_one_match (order_id : Nat) (record : OrderRecord K) :
    ∀ (files : List (List (OrderRecord K))) (shared : LookupResult K),
      files.flatten.filter (fun r => decide (r.order = order_id)) = [record] →
      files.foldl (fun shared orders => parseSingleFile orders order_id shared) shared
        = { delivery_point := { x := record.cx, y := record.cy },
            ordered_products := shared.ordered_products ++ record.products,
            order_found := true } := by
  intro files
  induction files with
  | nil => intro shared h; simp at h
  | cons f fs ih =>
    intro shared h
    rw [List.flatten_cons, List.filter_append] at h
    simp only [List.foldl_cons]
    rcases List.append_eq_cons_iff.mp h with ⟨hf, hfs⟩ | ⟨others, hf, hfs⟩
    · rw [parseSingleFile_no_match order_id shared f hf]
      exact ih shared hfs
    · rw [parseSingleFile_first_match order_id shared record others f hf]
      have hnil : fs.flatten.filter (fun r => decide (r.order = order_id)) = [] := by
        have := hfs.symm
        rw [List.append_eq_nil] at this
        exact this.2
      exact foldl_parseSingleFile_no_match order_id fs _ hnil

/-- C10: let exactly one record over all searched files carry the requested id.
Whatever the order in which the workers take effect, `parseAllFilesToFindOrder`
called with an empty `ordered_products` returns true, sets `delivery_point` to
that record's (cx, cy) and `ordered_products` to that record's product ids in
record order, duplicates kept. -/
theorem parseAllFilesToFindOrder_unique_record (files commit_order : List (List (OrderRecord K)))
    (order_id : Nat) (record : OrderRecord K) (delivery_point : Coordinates2D K)
    (horder : commit_order.Perm files)
    (hunique : files.flatten.filter (fun r => decide (r.order = order_id)) = [record]) :
    parseAllFilesToFindOrder commit_order order_id delivery_point []
      = { delivery_point := { x := record.cx, y := record.cy },
          ordered_products := record.products,
          order_found := true } := by
  have hperm : (commit_order.flatten.filter (fun r => decide (r.order = order_id))).Perm
      [record] := by
    rw [← hunique]
    exact (List.Perm.flatten horder).filter _
  have h := foldl_parseSingleFile_one_match order_id record commit_order
    { delivery_point := delivery_point, ordered_products := [], order_found := false }
    (List.perm_singleton.mp hperm)
  simpa [parseAllFilesToFindOrder] using h

end LookupFacts

end AMR

namespace AMR

/-! ## Executing an order: claims C8, C9 -/

section ExecuteHelpers

variable {K : Type}

theorem vectorAt_mem {α : Type} (v : List α) (i : Int) (a : α) (h : vectorAt v i = some a) :
    a ∈ v := by
  unfold vectorAt at h
  by_cases hneg : i < 0
  · simp [hneg] at h
  · simp only [hneg, if_false] at h
    obtain ⟨hlt, heq⟩ := List.getElem?_eq_some.mp h
    exact heq ▸ List.getElem_mem hlt

theorem collectWaypoints_some (all_product_parts : List (ProductPart K)) :
    ∀ (m : ProcessedProductParts),
      (∀ key ∈ IdMap.keys m, ∃ part, vectorAt all_product_parts key = some part) →
      ∃ positions, collectWaypoints all_product_parts m = some (IdMap.keys m, positions) ∧
        positions.length = m.length := by
  intro m
  induction m with
  | nil => intro _; exact ⟨[], rfl, rfl⟩
  | cons a rest ih =>
    intro h
    obtain ⟨key, info⟩ := a
    obtain ⟨part, hpart⟩ := h key (by simp [IdMap.keys])
    obtain ⟨positions, hpos, hlen⟩ := ih (fun k hk => h k (by
      simp only [IdMap.keys, List.map_cons, List.mem_cons]
      exact Or.inr hk))
    refine ⟨part.coords :: positions, ?_, by simp [hlen]⟩
    simp [collectWaypoints, hpart, hpos, IdMap.keys]

theorem printWaypoints_some (fmt : K → String) (processed_product_parts : ProcessedProductParts)
    (position_to_key : List Int) (all_product_parts : List (ProductPart K)) :
    ∀ (pickup_order : List Nat),
      (∀ i ∈ pickup_order, ∃ key part entries,
        position_to_key[i]? = some key ∧ vectorAt all_product_parts key = some part ∧
        IdMap.find processed_product_parts key = some entries) →
      ∀ stream, ∃ stream', printWaypoints fmt processed_product_parts position_to_key
        all_product_parts pickup_order stream = some stream' := by
  intro pickup_order
  induction pickup_order with
  | nil => intro _ stream; exact ⟨stream, rfl⟩
  | cons i rest ih =>
    intro h stream
    obtain ⟨key, part, entries, h1, h2, h3⟩ := h i (by simp)
    obtain ⟨s', hs'⟩ := ih (fun j hj => h j (List.mem_cons_of_mem _ hj))
      (stream ++ entries.flatMap (fun entry =>
        List.replicate entry.2.toNat (fetchingLine fmt part.name entry.1 part.coords)))
    exact ⟨s', by
      simp [printWaypoints, h1, h3, printPartEntries_eq fmt all_product_parts key part h2, hs']⟩

end ExecuteHelpers

section ExecuteFacts

variable {K : Type} [LinearOrderedField K]

/-- C8: when the order lookup reports not found, `OrderExecutor::execute` returns
normally, the stream gets the line announcing the order and then the line
"Error: Order <id> not found ", and the unit is returned as it was: position
coordinates, yaw, product list and parts list are unchanged. -/
theorem execute_order_not_found (fmt : K → String) (sqrt : K → K) (order_id : Nat)
    (order_description : String) (order_files : List (List (OrderRecord K)))
    (target_unit : AmrUnit K) (stream : List String)
    (hnot : (parseAllFilesToFindOrder order_files order_id { x := 0, y := 0 } []).order_found
      = false) :
    ∃ unit_after,
      OrderExecutor.execute fmt sqrt order_id order_description order_files target_unit stream
        = some (unit_after, stream ++ [workingLine order_id order_description,
            "Error: Order " ++ toString order_id ++ " not found "]) ∧
      unit_after.current_position.coords_2d = target_unit.current_position.coords_2d ∧
      unit_after.current_position.yaw = target_unit.current_position.yaw ∧
      unit_after.all_products = target_unit.all_products ∧
      unit_after.all_product_parts = target_unit.all_product_parts := by
  refine ⟨target_unit, ?_, rfl, rfl, rfl, rfl⟩
  simp [OrderExecutor.execute, hnot, notFoundLine]

/-- C9: when the order is found, its product ids are valid catalog indices and
at least one of its products requires a part (the catalog being well formed:
parts maps with ascending keys, every part id an index of the parts list),
`OrderExecutor::execute` returns normally and afterwards the position
coordinates of the unit are the delivery point of the order and the yaw is 0,
whatever they were before; product list and parts list are unchanged. -/
theorem execute_moves_to_delivery_point (fmt : K → String) (sqrt : K → K) (order_id : Nat)
    (order_description : String) (order_files : List (List (OrderRecord K)))
    (target_unit : AmrUnit K) (stream : List String) (found : LookupResult K)
    (hlookup : parseAllFilesToFindOrder order_files order_id { x := 0, y := 0 } [] = found)
    (hfound : found.order_found = true)
    (hvalid : ∀ id ∈ found.ordered_products,
      0 ≤ id ∧ id < (target_unit.all_products.length : Int))
    (hneed : ∃ id ∈ found.ordered_products, ∃ product,
      vectorAt target_unit.all_products id = some product ∧ product.parts ≠ [])
    (hwf : ∀ product ∈ target_unit.all_products, IdMap.WF product.parts)
    (hparts : ∀ product ∈ target_unit.all_products, ∀ q ∈ IdMap.keys product.parts,
      0 ≤ q ∧ q < (target_unit.all_product_parts.length : Int)) :
    ∃ unit_after stream_after,
      OrderExecutor.execute fmt sqrt order_id order_description order_files target_unit stream
        = some (unit_after, stream_after) ∧
      unit_after.current_position.coords_2d = found.delivery_point ∧
      unit_after.current_position.yaw = 0 ∧
      unit_after.all_products = target_unit.all_products ∧
      unit_after.all_product_parts = target_unit.all_product_parts := by
  obtain ⟨processed, hproc, _, hfind, hkeys⟩ :=
    processOrderedProducts_find_keys target_unit.all_products found.ordered_products hwf hvalid
  have hkeypart : ∀ key ∈ IdMap.keys processed,
      ∃ part, vectorAt target_unit.all_product_parts key = some part := by
    intro key hkey
    obtain ⟨id, _, product, hprod, hq⟩ := (hkeys key).mp hkey
    obtain ⟨h0, h1⟩ := hparts product (vectorAt_mem _ _ _ hprod) key hq
    obtain ⟨part, hpart, _⟩ := vectorAt_of_valid target_unit.all_product_parts key h0 h1
    exact ⟨part, hpart⟩
  obtain ⟨positions, hcollect, hlen⟩ :=
    collectWaypoints_some target_unit.all_product_parts processed hkeypart
  have hne : positions ≠ [] := by
    obtain ⟨id, hid, product, hprod, hnonempty⟩ := hneed
    obtain ⟨q, hq⟩ : ∃ q, q ∈ IdMap.keys product.parts := by
      cases hp : product.parts with
      | nil => exact absurd hp hnonempty
      | cons a rest => exact ⟨a.1, by simp [IdMap.keys]⟩
    have hmem : q ∈ IdMap.keys processed := (hkeys q).mpr ⟨id, hid, product, hprod, hq⟩
    intro hnil
    rw [hnil] at hlen
    have : processed = [] := List.length_eq_zero.mp hlen.symm
    rw [this] at hmem
    simp [IdMap.keys] at hmem
  obtain ⟨pickup_order, hpath, _, hperm, _⟩ := determineShortestPath_returns_perm sqrt
    target_unit.current_position.coords_2d found.delivery_point positions hne
  have hlookups : ∀ i ∈ pickup_order, ∃ key part entries,
      (IdMap.keys processed)[i]? = some key ∧
      vectorAt target_unit.all_product_parts key = some part ∧
      IdMap.find processed key = some entries := by
    intro i hi
    have hi' : i < positions.length := List.mem_range.mp (hperm.subset hi)
    have hik : i < (IdMap.keys processed).length := by
      simpa [IdMap.keys, hlen] using hi'
    have hmem : (IdMap.keys processed)[i] ∈ IdMap.keys processed := List.getElem_mem hik
    obtain ⟨part, hpart⟩ := hkeypart _ hmem
    obtain ⟨entries, hentries⟩ := (IdMap.mem_keys_iff_find processed _).mp hmem
    exact ⟨_, part, entries, List.getElem?_eq_getElem hik, hpart, hentries⟩
  obtain ⟨stream', hstream'⟩ := printWaypoints_some fmt processed (IdMap.keys processed)
    target_unit.all_product_parts pickup_order hlookups
    (stream ++ [workingLine order_id order_description]
      ++ [startingLine fmt target_unit.current_position.coords_2d])
  refine ⟨target_unit.setCurrentPosition { coords_2d := found.delivery_point, yaw := 0 },
    stream' ++ [deliveringLine fmt found.delivery_point], ?_, rfl, rfl, rfl, rfl⟩
  simp only [OrderExecutor.execute, hlookup, hfound, if_true, hproc, hcollect, hpath,
    printDeliveryPath, AmrUnit.setCurrentPosition, hstream']

end ExecuteFacts

end AMR

namespace AMR

/-! ## Instances at the sample data -/

theorem sampleProducts_WF : ∀ product ∈ sampleProducts, IdMap.WF product.parts := by
  intro product h
  simp only [sampleProducts, List.mem_cons, List.mem_singleton, List.not_mem_nil, or_false] at h
  rcases h with rfl | rfl | rfl | rfl <;> simp [IdMap.WF, IdMap.keys]

theorem sampleProducts_part_ids (K : Type) [LinearOrderedField K] :
    ∀ product ∈ sampleProducts, ∀ q ∈ IdMap.keys product.parts,
      0 ≤ q ∧ q < ((sampleParts : List (ProductPart K)).length : Int) := by
  intro product h q hq
  simp only [sampleProducts, List.mem_cons, List.mem_singleton, List.not_mem_nil, or_false] at h
  rcases h with rfl | rfl | rfl | rfl <;> simp [IdMap.keys] at hq <;>
    (simp [sampleParts]; omega)

theorem processOrderedProducts_spec_witness :
    (∀ product ∈ sampleProducts, IdMap.WF product.parts) ∧
    (∀ id ∈ ([1, 3, 1] : List Int), 0 ≤ id ∧ id < (sampleProducts.length : Int)) ∧
    ∃ processed_product_parts,
      processOrderedProducts [1, 3, 1] sampleProducts = some processed_product_parts ∧
      IdMap.WF processed_product_parts ∧
      (∀ q, IdMap.find processed_product_parts q
          = if requiredEntries sampleProducts [1, 3, 1] q = [] then none
            else some (requiredEntries sampleProducts [1, 3, 1] q)) ∧
      (∀ q, q ∈ IdMap.keys processed_product_parts ↔
          ∃ id ∈ ([1, 3, 1] : List Int), ∃ product,
            vectorAt sampleProducts id = some product ∧ q ∈ IdMap.keys product.parts) :=
  have hvalid : ∀ id ∈ ([1, 3, 1] : List Int), 0 ≤ id ∧ id < (sampleProducts.length : Int) := by
    intro id h
    simp only [List.mem_cons, List.mem_singleton, List.not_mem_nil, or_false] at h
    rcases h with rfl | rfl | rfl <;> simp [sampleProducts]
  ⟨sampleProducts_WF, hvalid,
    processOrderedProducts_spec sampleProducts [1, 3, 1] sampleProducts_WF hvalid⟩

theorem printDeliveryPath_spec_witness :
    printDeliveryPath (fun v : Int => toString v) { x := 0, y := 0 } { x := 3, y := 0 } [1, 0]
        [(0, [(1, 2), (3, 1)]), (1, [(1, 2)])] [0, 1]
        [{ name := "Part A", coords := { x := 1, y := 0 } },
         { name := "Part B", coords := { x := -2, y := 0 } },
         { name := "Part C", coords := { x := 4, y := 0 } }] ["Working on order 7(seven)"]
      = some ["Working on order 7(seven)",
          "Starting from position x: 0, y: 0",
          "Fetching 'Part B' for product '1' at x: -2, y: 0",
          "Fetching 'Part B' for product '1' at x: -2, y: 0",
          "Fetching 'Part A' for product '1' at x: 1, y: 0",
          "Fetching 'Part A' for product '1' at x: 1, y: 0",
          "Fetching 'Part A' for product '3' at x: 1, y: 0",
          "Delivering to destination x: 3, y: 0"] :=
  (printDeliveryPath_spec (fun v : Int => toString v) { x := 0, y := 0 } { x := 3, y := 0 } [1, 0]
    [(0, [(1, 2), (3, 1)]), (1, [(1, 2)])] [0, 1]
    [{ name := "Part A", coords := { x := 1, y := 0 } },
     { name := "Part B", coords := { x := -2, y := 0 } },
     { name := "Part C", coords := { x := 4, y := 0 } }] ["Working on order 7(seven)"]
    [(1, { name := "Part B", coords := { x := -2, y := 0 } }, [(1, 2)]),
     (0, { name := "Part A", coords := { x := 1, y := 0 } }, [(1, 2), (3, 1)])]
    (List.Forall₂.cons ⟨rfl, rfl, rfl⟩ (List.Forall₂.cons ⟨rfl, rfl, rfl⟩ List.Forall₂.nil))).trans
    (by decide)

theorem execute_order_not_found_witness :
    (parseAllFilesToFindOrder (sampleOrderFiles : List (List (OrderRecord ℝ))) 9
        { x := 0, y := 0 } []).order_found = false ∧
    ∃ unit_after,
      OrderExecutor.execute (fun _ : ℝ => "?") Real.sqrt 9 "none" sampleOrderFiles
          sampleUnit []
        = some (unit_after, [] ++ [workingLine 9 "none",
            "Error: Order " ++ toString 9 ++ " not found "]) ∧
      unit_after.current_position.coords_2d = (sampleUnit : AmrUnit ℝ).current_position.coords_2d ∧
      unit_after.current_position.yaw = (sampleUnit : AmrUnit ℝ).current_position.yaw ∧
      unit_after.all_products = (sampleUnit : AmrUnit ℝ).all_products ∧
      unit_after.all_product_parts = (sampleUnit : AmrUnit ℝ).all_product_parts :=
  have hnot : (parseAllFilesToFindOrder (sampleOrderFiles : List (List (OrderRecord ℝ))) 9
      { x := 0, y := 0 } []).order_found = false := by
    simp [parseAllFilesToFindOrder, sampleOrderFiles, parseSingleFile]
  ⟨hnot, execute_order_not_found (fun _ : ℝ => "?") Real.sqrt 9 "none" sampleOrderFiles
    sampleUnit [] hnot⟩

theorem parseAllFilesToFindOrder_unique_record_witness :
    (sampleOrderFiles : List (List (OrderRecord ℝ))).reverse.Perm sampleOrderFiles ∧
    (sampleOrderFiles : List (List (OrderRecord ℝ))).flatten.filter
        (fun r => decide (r.order = 7))
      = [{ order := 7, cx := 3, cy := 0, products := [1, 3, 1] }] ∧
    parseAllFilesToFindOrder (sampleOrderFiles : List (List (OrderRecord ℝ))).reverse 7
        { x := 5, y := 5 } []
      = { delivery_point := { x := 3, y := 0 }, ordered_products := [1, 3, 1],
          order_found := true } :=
  have hunique : (sampleOrderFiles : List (List (OrderRecord ℝ))).flatten.filter
      (fun r => decide (r.order = 7))
      = [{ order := 7, cx := 3, cy := 0, products := [1, 3, 1] }] := by
    simp [sampleOrderFiles, List.filter]
  ⟨List.reverse_perm _, hunique,
    parseAllFilesToFindOrder_unique_record (sampleOrderFiles : List (List (OrderRecord ℝ)))
      (sampleOrderFiles : List (List (OrderRecord ℝ))).reverse 7
      { order := 7, cx := 3, cy := 0, products := [1, 3, 1] } { x := 5, y := 5 }
      (List.reverse_perm _) hunique⟩

theorem sample_lookup_order_7 :
    parseAllFilesToFindOrder (sampleOrderFiles : List (List (OrderRecord ℝ))) 7
        { x := 0, y := 0 } []
      = { delivery_point := { x := 3, y := 0 }, ordered_products := [1, 3, 1],
          order_found := true } := by
  simp [parseAllFilesToFindOrder, sampleOrderFiles, parseSingleFile]

theorem execute_moves_to_delivery_point_witness :
    ∃ unit_after stream_after,
      OrderExecutor.execute (fun _ : ℝ => "?") Real.sqrt 7 "seven" sampleOrderFiles
          sampleUnit []
        = some (unit_after, stream_after) ∧
      unit_after.current_position.coords_2d = { x := 3, y := 0 } ∧
      unit_after.current_position.yaw = 0 ∧
      unit_after.all_products = (sampleUnit : AmrUnit ℝ).all_products ∧
      unit_after.all_product_parts = (sampleUnit : AmrUnit ℝ).all_product_parts :=
  execute_moves_to_delivery_point (fun _ : ℝ => "?") Real.sqrt 7 "seven" sampleOrderFiles
    sampleUnit []
    { delivery_point := { x := 3, y := 0 }, ordered_products := [1, 3, 1], order_found := true }
    sample_lookup_order_7 rfl
    (by
      intro id h
      simp only [List.mem_cons, List.mem_singleton, List.not_mem_nil, or_false] at h
      rcases h with rfl | rfl | rfl <;> simp [sampleUnit, sampleProducts])
    ⟨1, by simp, { name := "Product 1", parts := [(0, 2), (1, 2)] }, rfl, by simp⟩
    sampleProducts_WF
    (sampleProducts_part_ids ℝ)

end AMR

namespace AMR

/-! ## Order lookup: claims C11, C12 -/

section LookupOrderFacts

variable {K : Type}

theorem parseSingleFile_not_any (order_id : Nat) (shared : LookupResult K) :
    ∀ (orders : List (OrderRecord K)),
      orders.any (fun r => decide (r.order = order_id)) = false →
      parseSingleFile orders order_id shared = shared := by
  intro orders h
  apply parseSingleFile_no_match
  rw [List.filter_eq_nil_iff]
  intro r hr
  have := List.any_eq_false.mp h r hr
  simpa using this

theorem foldl_parseSingleFile_filter (order_id : Nat) :
    ∀ (files : List (List (OrderRecord K))) (shared : LookupResult K),
      files.foldl (fun shared orders => parseSingleFile orders order_id shared) shared
        = (files.filter (fun orders => orders.any (fun r => decide (r.order = order_id)))).foldl
            (fun shared orders => parseSingleFile orders order_id shared) shared := by
  intro files
  induction files with
  | nil => intro shared; rfl
  | cons f fs ih =>
    intro shared
    by_cases hf : f.any (fun r => decide (r.order = order_id)) = true
    · simp only [List.filter, hf, List.foldl_cons]
      exact ih _
    · have hf' : f.any (fun r => decide (r.order = order_id)) = false := by simpa using hf
      simp only [List.filter, hf', List.foldl_cons]
      rw [parseSingleFile_not_any order_id shared f hf']
      exact ih _

theorem perm_eq_of_length_le_one {α : Type} (l₁ l₂ : List α) (h : l₁.Perm l₂)
    (hlen : l₂.length ≤ 1) : l₁ = l₂ := by
  cases l₂ with
  | nil => exact List.Perm.eq_nil h
  | cons a t =>
    cases t with
    | nil => exact List.perm_singleton.mp h
    | cons b t' => simp at hlen

/-- C11: when no record of any searched file carries the requested id, then for
every order in which the workers run `parseAllFilesToFindOrder` returns false
and `delivery_point` and `ordered_products` hold what they held before the call. -/
theorem parseAllFilesToFindOrder_absent (files commit_order : List (List (OrderRecord K)))
    (order_id : Nat) (delivery_point : Coordinates2D K) (ordered_products : List Int)
    (horder : commit_order.Perm files)
    (habsent : ∀ orders ∈ files, ∀ r ∈ orders, r.order ≠ order_id) :
    parseAllFilesToFindOrder commit_order order_id delivery_point ordered_products
      = { delivery_point := delivery_point, ordered_products := ordered_products,
          order_found := false } := by
  unfold parseAllFilesToFindOrder
  apply foldl_parseSingleFile_no_match
  rw [List.filter_eq_nil_iff]
  intro r hr
  obtain ⟨orders, horders, hmem⟩ := List.mem_flatten.mp hr
  have := habsent orders (horder.subset horders) r hmem
  simpa using this

/-- C12: when at most one of the searched files holds a record with the requested
id, any two orders in which the workers commit give the same returned flag, the
same `delivery_point` and the same `ordered_products`. -/
theorem parseAllFilesToFindOrder_order_independent
    (files first_order second_order : List (List (OrderRecord K)))
    (order_id : Nat) (delivery_point : Coordinates2D K) (ordered_products : List Int)
    (hfirst : first_order.Perm files) (hsecond : second_order.Perm files)
    (hone : (files.filter
      (fun orders => orders.any (fun r => decide (r.order = order_id)))).length ≤ 1) :
    parseAllFilesToFindOrder first_order order_id delivery_point ordered_products
      = parseAllFilesToFindOrder second_order order_id delivery_point ordered_products := by
  unfold parseAllFilesToFindOrder
  rw [foldl_parseSingleFile_filter order_id first_order,
    foldl_parseSingleFile_filter order_id second_order]
  have h1 := perm_eq_of_length_le_one _ _ (hfirst.filter
    (fun orders => orders.any (fun r => decide (r.order = order_id)))) hone
  have h2 := perm_eq_of_length_le_one _ _ (hsecond.filter
    (fun orders => orders.any (fun r => decide (r.order = order_id)))) hone
  rw [h1, h2]

theorem parseAllFilesToFindOrder_absent_witness :
    (sampleOrderFiles : List (List (OrderRecord ℝ))).reverse.Perm sampleOrderFiles ∧
    (∀ orders ∈ (sampleOrderFiles : List (List (OrderRecord ℝ))), ∀ r ∈ orders, r.order ≠ 9) ∧
    parseAllFilesToFindOrder (sampleOrderFiles : List (List (OrderRecord ℝ))).reverse 9
        { x := 5, y := 5 } [4, 4]
      = { delivery_point := { x := 5, y := 5 }, ordered_products := [4, 4],
          order_found := false } :=
  have habsent : ∀ orders ∈ (sampleOrderFiles : List (List (OrderRecord ℝ))),
      ∀ r ∈ orders, r.order ≠ 9 := by
    intro orders ho r hr
    simp only [sampleOrderFiles, List.mem_cons, List.mem_singleton, List.not_mem_nil,
      or_false] at ho
    rcases ho with rfl | rfl | rfl | rfl | rfl <;> simp at hr
    · subst hr; simp
    · rcases hr with rfl | rfl <;> simp
  ⟨List.reverse_perm _, habsent,
    parseAllFilesToFindOrder_absent (sampleOrderFiles : List (List (OrderRecord ℝ)))
      (sampleOrderFiles : List (List (OrderRecord ℝ))).reverse 9 { x := 5, y := 5 } [4, 4]
      (List.reverse_perm _) habsent⟩

theorem parseAllFilesToFindOrder_order_independent_witness :
    ((sampleOrderFiles : List (List (OrderRecord ℝ))).filter
      (fun orders => orders.any (fun r => decide (r.order = 7)))).length ≤ 1 ∧
    parseAllFilesToFindOrder (sampleOrderFiles : List (List (OrderRecord ℝ))).reverse 7
        { x := 5, y := 5 } []
      = parseAllFilesToFindOrder (sampleOrderFiles : List (List (OrderRecord ℝ))) 7
        { x := 5, y := 5 } [] :=
  have hone : ((sampleOrderFiles : List (List (OrderRecord ℝ))).filter
      (fun orders => orders.any (fun r => decide (r.order = 7)))).length ≤ 1 := by
    simp [sampleOrderFiles, List.filter]
  ⟨hone, parseAllFilesToFindOrder_order_independent
    (sampleOrderFiles : List (List (OrderRecord ℝ)))
    (sampleOrderFiles : List (List (OrderRecord ℝ))).reverse
    (sampleOrderFiles : List (List (OrderRecord ℝ))) 7 { x := 5, y := 5 } []
    (List.reverse_perm _) (List.Perm.refl _) hone⟩

end LookupOrderFacts

end AMR

namespace AMR

/-! ## Route planning and execution at the edge cases: claims C13, C15, C16 -/

/-- C13 (code evaluated at the failing input): with start (0,0) and delivery
point (10,0), the waypoint list [(1,0), (-1,0)] is planned as [0,1], a route of
length 1 + 2 + 11 = 14, while the same two waypoints listed as [(-1,0), (1,0)]
are planned as [0,1], a route of length 1 + 2 + 9 = 12. -/
theorem determineShortestPath_reordering_changes_length :
    determineShortestPath Real.sqrt (⟨0, 0⟩ : Coordinates2D ℝ) [⟨1, 0⟩, ⟨-1, 0⟩] ⟨10, 0⟩
        = some [0, 1] ∧
      routeLength Real.sqrt (⟨0, 0⟩ : Coordinates2D ℝ) [⟨1, 0⟩, ⟨-1, 0⟩] ⟨10, 0⟩ [0, 1]
        = some 14 ∧
      determineShortestPath Real.sqrt (⟨0, 0⟩ : Coordinates2D ℝ) [⟨-1, 0⟩, ⟨1, 0⟩] ⟨10, 0⟩
        = some [0, 1] ∧
      routeLength Real.sqrt (⟨0, 0⟩ : Coordinates2D ℝ) [⟨-1, 0⟩, ⟨1, 0⟩] ⟨10, 0⟩ [0, 1]
        = some 12 := by
  have ha01 : determinePathLength Real.sqrt (⟨0, 0⟩ : Coordinates2D ℝ)
      [⟨1, 0⟩, ⟨-1, 0⟩] ⟨10, 0⟩ [0, 1] = some 14 := by
    simp only [determinePathLength, addInnerSegments, List.getElem?_cons_zero,
      List.getElem?_cons_succ, List.getLast?, List.getLast, segmentLength_on_axis]
    norm_num [abs_of_nonneg, abs_of_neg]
  have ha10 : determinePathLength Real.sqrt (⟨0, 0⟩ : Coordinates2D ℝ)
      [⟨1, 0⟩, ⟨-1, 0⟩] ⟨10, 0⟩ [1, 0] = some 14 := by
    simp only [determinePathLength, addInnerSegments, List.getElem?_cons_zero,
      List.getElem?_cons_succ, List.getLast?, List.getLast, segmentLength_on_axis]
    norm_num [abs_of_nonneg, abs_of_neg]
  have hb01 : determinePathLength Real.sqrt (⟨0, 0⟩ : Coordinates2D ℝ)
      [⟨-1, 0⟩, ⟨1, 0⟩] ⟨10, 0⟩ [0, 1] = some 12 := by
    simp only [determinePathLength, addInnerSegments, List.getElem?_cons_zero,
      List.getElem?_cons_succ, List.getLast?, List.getLast, segmentLength_on_axis]
    norm_num [abs_of_nonneg, abs_of_neg]
  have hb10 : determinePathLength Real.sqrt (⟨0, 0⟩ : Coordinates2D ℝ)
      [⟨-1, 0⟩, ⟨1, 0⟩] ⟨10, 0⟩ [1, 0] = some 12 := by
    simp only [determinePathLength, addInnerSegments, List.getElem?_cons_zero,
      List.getElem?_cons_succ, List.getLast?, List.getLast, segmentLength_on_axis]
    norm_num [abs_of_nonneg, abs_of_neg]
  have hn01 : nextPermutation [0, 1] = some [1, 0] := by decide
  have hn10 : nextPermutation [1, 0] = none := by decide
  have hr : List.range 2 = [0, 1] := by decide
  refine ⟨?_, ?_, ?_, ?_⟩
  · simp only [determineShortestPath, List.length_cons, List.length_nil, hr]
    norm_num [Nat.factorial, searchLoop, ha01, ha10, hn01, hn10, belowShortest]
  · simp only [routeLength, innerRouteLength, List.head?, List.getElem?_cons_zero,
      List.getElem?_cons_succ, List.getLast?, List.getLast, segmentLength_on_axis]
    norm_num [abs_of_nonneg, abs_of_neg]
  · simp only [determineShortestPath, List.length_cons, List.length_nil, hr]
    norm_num [Nat.factorial, searchLoop, hb01, hb10, hn01, hn10, belowShortest]
  · simp only [routeLength, innerRouteLength, List.head?, List.getElem?_cons_zero,
      List.getElem?_cons_succ, List.getLast?, List.getLast, segmentLength_on_axis]
    norm_num [abs_of_nonneg, abs_of_neg]

/-- C15 (code evaluated at the failing input): with an empty `part_locations` the
first loop iteration calls `determinePathLength`, which reads `pickup_order[0]`
of an empty vector; neither function returns a result, and `execute` on an order
whose product list is empty does not return either. -/
theorem determineShortestPath_empty_undefined {K : Type} [LinearOrderedField K]
    (fmt : K → String) (sqrt : K → K) (starting_point delivery_point : Coordinates2D K)
    (target_unit : AmrUnit K) (stream : List String) :
    determinePathLength sqrt starting_point [] delivery_point [] = none ∧
      determineShortestPath sqrt starting_point [] delivery_point = none ∧
      OrderExecutor.execute fmt sqrt 1 "empty"
        [[{ order := 1, cx := delivery_point.x, cy := delivery_point.y, products := [] }]]
        target_unit stream = none := by
  refine ⟨rfl, rfl, ?_⟩
  simp [OrderExecutor.execute, parseAllFilesToFindOrder, parseSingleFile,
    processOrderedProducts, processLoop, collectWaypoints, determineShortestPath,
    searchLoop, determinePathLength]

/-- C16 (code evaluated at the failing input): with an empty product list, as left
by a missing configuration file, executing order 7 of the sample order files
(products 1, 3, 1) reads `all_products[1]` of an empty vector and does not
return. -/
theorem execute_empty_catalog_undefined {K : Type} [LinearOrderedField K]
    (fmt : K → String) (sqrt : K → K) (current_position : Position K)
    (stream : List String) :
    parseConfigurationFiles (none : Option (List (ProductRecord K))) [] [] = some ([], []) ∧
      processOrderedProducts [1, 3, 1] [] = none ∧
      OrderExecutor.execute fmt sqrt 7 "seven" sampleOrderFiles
        { current_position := current_position, all_products := [],
          all_product_parts := [] } stream = none := by
  refine ⟨rfl, rfl, ?_⟩
  simp [OrderExecutor.execute, parseAllFilesToFindOrder, sampleOrderFiles, parseSingleFile,
    processOrderedProducts, processLoop, vectorAt]

end AMR

namespace AMR

/-! ## The configuration file: part ids and quantities -/

section ConfigurationFacts

variable {K : Type}

theorem mem_of_getElem?_some {α : Type} (l : List α) (i : Nat) (a : α) (h : l[i]? = some a) :
    a ∈ l := by
  obtain ⟨hlt, heq⟩ := List.getElem?_eq_some.mp h
  exact heq ▸ List.getElem_mem hlt

theorem findPartIndex_eq_none (name : String) (l : List (ProductPart K)) :
    findPartIndex name l = none ↔ name ∉ l.map (fun part => part.name) := by
  induction l with
  | nil => simp [findPartIndex]
  | cons p rest ih =>
    unfold findPartIndex
    by_cases h : p.name = name
    · simp [h]
    · have h' : ¬ name = p.name := fun e => h e.symm
      cases hr : findPartIndex name rest with
      | none => simpa [h, h', hr] using ih.mp hr
      | some i =>
        have : ¬ name ∉ rest.map (fun part => part.name) := fun hn => by
          rw [ih.mpr hn] at hr
          exact Option.noConfusion hr
        simp only [h, if_false, List.map_cons, List.mem_cons, h', false_or]
        simpa using this

theorem findPartIndex_some (name : String) (l : List (ProductPart K)) (i : Nat)
    (h : findPartIndex name l = some i) : ∃ part, l[i]? = some part ∧ part.name = name := by
  induction l generalizing i with
  | nil => simp [findPartIndex] at h
  | cons p rest ih =>
    unfold findPartIndex at h
    by_cases hp : p.name = name
    · simp only [hp, if_true, Option.some.injEq] at h
      subst h
      exact ⟨p, by simp, hp⟩
    · simp only [hp, if_false] at h
      cases hr : findPartIndex name rest with
      | none => simp [hr] at h
      | some j =>
        simp only [hr, Option.some.injEq] at h
        subst h
        obtain ⟨part, h1, h2⟩ := ih j hr
        exact ⟨part, by simpa using h1, h2⟩

theorem findPartIndex_append (name : String) (l ext : List (ProductPart K)) (i : Nat)
    (h : findPartIndex name l = some i) : findPartIndex name (l ++ ext) = some i := by
  induction l generalizing i with
  | nil => simp [findPartIndex] at h
  | cons p rest ih =>
    unfold findPartIndex at h
    rw [List.cons_append]
    unfold findPartIndex
    by_cases hp : p.name = name
    · simpa [hp] using h
    · simp only [hp, if_false] at h ⊢
      cases hr : findPartIndex name rest with
      | none => simp [hr] at h
      | some j =>
        rw [ih j hr]
        simpa [hr] using h

theorem findPartIndex_append_new (name : String) (coords : Coordinates2D K)
    (l : List (ProductPart K)) (h : findPartIndex name l = none) :
    findPartIndex name (l ++ [{ name := name, coords := coords }]) = some l.length := by
  induction l with
  | nil => simp [findPartIndex]
  | cons p rest ih =>
    unfold findPartIndex at h
    rw [List.cons_append]
    unfold findPartIndex
    by_cases hp : p.name = name
    · simp [hp] at h
    · simp only [hp, if_false] at h ⊢
      cases hr : findPartIndex name rest with
      | some j => simp [hr] at h
      | none => simp [ih hr]

theorem findPartIndex_of_nodup (l : List (ProductPart K))
    (hnodup : (l.map (fun part => part.name)).Nodup) (i : Nat) (part : ProductPart K)
    (h : l[i]? = some part) : findPartIndex part.name l = some i := by
  induction l generalizing i with
  | nil => simp at h
  | cons p rest ih =>
    have hnd : p.name ∉ rest.map (fun part => part.name) ∧
        (rest.map (fun part => part.name)).Nodup := by simpa using hnodup
    unfold findPartIndex
    cases i with
    | zero =>
      simp only [List.getElem?_cons_zero, Option.some.injEq] at h
      simp [h]
    | succ j =>
      simp only [List.getElem?_cons_succ] at h
      have hmem : part.name ∈ rest.map (fun part => part.name) :=
        List.mem_map.mpr ⟨part, mem_of_getElem?_some rest j part h, rfl⟩
      have hne : ¬ p.name = part.name := fun e => hnd.1 (e ▸ hmem)
      simp [hne, ih hnd.2 j h]

theorem registerPart_spec (entry : PartRecord K) (l : List (ProductPart K)) :
    ∃ (i : Nat) (ext : List (ProductPart K)),
      (registerPart entry l).1 = (i : Int) ∧ (registerPart entry l).2 = l ++ ext ∧
      findPartIndex entry.part (registerPart entry l).2 = some i := by
  unfold registerPart
  cases h : findPartIndex entry.part l with
  | none =>
    exact ⟨l.length, [{ name := entry.part, coords := { x := entry.cx, y := entry.cy } }],
      rfl, rfl, findPartIndex_append_new _ _ l h⟩
  | some i => exact ⟨i, [], rfl, by simp, h⟩

theorem registerPart_nodup (entry : PartRecord K) (l : List (ProductPart K))
    (hnodup : (l.map (fun part => part.name)).Nodup) :
    ((registerPart entry l).2.map (fun part => part.name)).Nodup := by
  unfold registerPart
  cases h : findPartIndex entry.part l with
  | none =>
    have hnot := (findPartIndex_eq_none _ _).mp h
    simp only [List.map_append, List.map_cons, List.map_nil]
    refine List.Nodup.append hnodup (List.nodup_singleton _) ?_
    intro a ha hb
    rw [List.mem_singleton] at hb
    exact hnot (hb ▸ ha)
  | some i => exact hnodup

theorem find_countPart (m : IdMap Int) (part_id q : Int) :
    IdMap.find (countPart m part_id) q
      = if q = part_id then some ((IdMap.find m part_id).getD 0 + 1) else IdMap.find m q := by
  unfold countPart
  cases hf : IdMap.find m part_id with
  | none =>
    simp only [hf]
    rw [IdMap.find_emplace m part_id q _ hf]
    simp
  | some quantity =>
    simp only [hf]
    rw [IdMap.find_modify, hf]
    simp

theorem parseParts_extends (entries : List (PartRecord K)) :
    ∀ (m : IdMap Int) (l : List (ProductPart K)),
      ∃ ext, (parseParts entries m l).2 = l ++ ext := by
  induction entries with
  | nil => intro m l; exact ⟨[], by simp [parseParts]⟩
  | cons e rest ih =>
    intro m l
    obtain ⟨_, ext1, _, h1, _⟩ := registerPart_spec e l
    obtain ⟨ext2, h2⟩ := ih (countPart m (registerPart e l).1) (registerPart e l).2
    exact ⟨ext1 ++ ext2, by simp only [parseParts]; rw [h2, h1, List.append_assoc]⟩

theorem parseParts_nodup (entries : List (PartRecord K)) :
    ∀ (m : IdMap Int) (l : List (ProductPart K)),
      (l.map (fun part => part.name)).Nodup →
      ((parseParts entries m l).2.map (fun part => part.name)).Nodup := by
  induction entries with
  | nil => intro m l h; exact h
  | cons e rest ih =>
    intro m l h
    exact ih _ _ (registerPart_nodup e l h)

theorem parseParts_snd_indep (entries : List (PartRecord K)) :
    ∀ (m m' : IdMap Int) (l : List (ProductPart K)),
      (parseParts entries m l).2 = (parseParts entries m' l).2 := by
  induction entries with
  | nil => intro m m' l; rfl
  | cons e rest ih => intro m m' l; exact ih _ _ _

theorem parseParts_snd_append (first second : List (PartRecord K)) :
    ∀ (m m' : IdMap Int) (l : List (ProductPart K)),
      (parseParts (first ++ second) m l).2
        = (parseParts second m' (parseParts first m l).2).2 := by
  induction first with
  | nil => intro m m' l; exact parseParts_snd_indep second m m' l
  | cons e rest ih => intro m m' l; exact ih _ _ _

theorem parseParts_find (final : List (ProductPart K)) (q : Int)
    (entries : List (PartRecord K)) :
    ∀ (m : IdMap Int) (l : List (ProductPart K)),
      (∃ ext, final = (parseParts entries m l).2 ++ ext) →
      IdMap.find (parseParts entries m l).1 q
        = if entries.countP (fun e => decide
              ((findPartIndex e.part final).map Int.ofNat = some q)) = 0
          then IdMap.find m q
          else some ((IdMap.find m q).getD 0
            + ((entries.countP (fun e => decide
              ((findPartIndex e.part final).map Int.ofNat = some q)) : Nat) : Int)) := by
  induction entries with
  | nil => intro m l _; simp [parseParts]
  | cons e rest ih =>
    intro m l hfinal
    obtain ⟨ext, hext⟩ := hfinal
    obtain ⟨i, ext1, hid, _, hidx⟩ := registerPart_spec e l
    obtain ⟨ext2, hext2⟩ := parseParts_extends rest
      (countPart m (registerPart e l).1) (registerPart e l).2
    have hfound : findPartIndex e.part final = some i := by
      rw [hext]
      simp only [parseParts]
      rw [hext2, List.append_assoc]
      exact findPartIndex_append _ _ _ _ hidx
    simp only [parseParts]
    rw [ih _ _ ⟨ext, by rw [hext]; simp only [parseParts]⟩, find_countPart, hid,
      List.countP_cons, hfound]
    generalize List.countP (fun e_1 => decide
      ((findPartIndex e_1.part final).map Int.ofNat = some q)) rest = c
    by_cases hq : q = (i : Int)
    · subst hq
      by_cases hc : c = 0
      · simp [hc]
      · simp only [hc, if_false, Option.map_some', Int.ofNat_eq_coe, decide_True, if_true,
          Option.getD_some, Nat.add_eq_zero, and_false, Nat.cast_add, Nat.cast_one,
          Option.some.injEq, one_ne_zero]
        ring
    · have hq' : ¬ (i : Int) = q := fun e => hq e.symm
      simp [hq, hq']

end ConfigurationFacts

end AMR

namespace AMR

section ConfigurationProducts

variable {K : Type}

theorem vectorAt_eq_some {α : Type} (l : List α) (q : Int) (a : α) :
    vectorAt l q = some a ↔ 0 ≤ q ∧ l[q.toNat]? = some a := by
  unfold vectorAt
  by_cases h : q < 0
  · simp [h]
  · simp only [h, if_false]
    constructor
    · intro h'; exact ⟨by omega, h'⟩
    · intro h'; exact h'.2

theorem vectorAt_set_self {α : Type} (l : List α) (i : Int) (a : α) (h0 : 0 ≤ i)
    (h1 : i < (l.length : Int)) : vectorAt (l.set i.toNat a) i = some a := by
  have hlt : i.toNat < l.length := by omega
  rw [vectorAt_eq_some]
  exact ⟨h0, by simp [hlt]⟩

theorem vectorAt_set_other {α : Type} (l : List α) (i j : Int) (a : α) (h0 : 0 ≤ j)
    (hne : j ≠ i) : vectorAt (l.set j.toNat a) i = vectorAt l i := by
  unfold vectorAt
  by_cases h : i < 0
  · simp [h]
  · simp only [h, if_false]
    have : j.toNat ≠ i.toNat := by omega
    exact List.getElem?_set_ne this

theorem countP_index_eq_countP_name (final : List (ProductPart K))
    (hnodup : (final.map (fun part => part.name)).Nodup) (q : Int) (part : ProductPart K)
    (hpart : vectorAt final q = some part) (entries : List (PartRecord K)) :
    entries.countP (fun e => decide ((findPartIndex e.part final).map Int.ofNat = some q))
      = entries.countP (fun e => decide (e.part = part.name)) := by
  obtain ⟨hq0, hq⟩ := (vectorAt_eq_some final q part).mp hpart
  apply List.countP_congr
  intro e _
  simp only [decide_eq_true_eq]
  constructor
  · intro h
    cases hidx : findPartIndex e.part final with
    | none => simp [hidx] at h
    | some i =>
      simp only [hidx, Option.map_some', Int.ofNat_eq_coe, Option.some.injEq] at h
      obtain ⟨p, hp, hname⟩ := findPartIndex_some _ _ _ hidx
      have hi : q.toNat = i := by omega
      rw [hi, hp] at hq
      simp only [Option.some.injEq] at hq
      rw [← hname, hq]
  · intro h
    rw [h, findPartIndex_of_nodup final hnodup q.toNat part hq]
    simp only [Option.map_some', Int.ofNat_eq_coe, Option.some.injEq]
    omega

theorem countP_index_eq_zero (final : List (ProductPart K)) (q : Int)
    (hpart : vectorAt final q = none) (entries : List (PartRecord K)) :
    entries.countP (fun e => decide ((findPartIndex e.part final).map Int.ofNat = some q))
      = 0 := by
  rw [List.countP_eq_zero]
  intro e _
  simp only [decide_eq_true_eq]
  intro h
  cases hidx : findPartIndex e.part final with
  | none => simp [hidx] at h
  | some i =>
    simp only [hidx, Option.map_some', Int.ofNat_eq_coe, Option.some.injEq] at h
    obtain ⟨p, hp, _⟩ := findPartIndex_some _ _ _ hidx
    have : vectorAt final q = some p := by
      rw [vectorAt_eq_some]
      refine ⟨by omega, ?_⟩
      have hi : q.toNat = i := by omega
      rw [hi]
      exact hp
    rw [hpart] at this
    exact Option.noConfusion this

theorem parseProducts_spec (records : List (ProductRecord K)) :
    ∀ (all_products : List Product) (all_product_parts : List (ProductPart K)),
      (∀ r ∈ records, 0 ≤ r.id ∧ r.id < (all_products.length : Int)) →
      ∃ products parts, parseProducts records all_products all_product_parts
          = some (products, parts) ∧
        products.length = all_products.length ∧
        parts = (parseParts (records.flatMap (fun r => r.parts)) [] all_product_parts).2 ∧
        (∀ i, (∀ r ∈ records, r.id ≠ i) → vectorAt products i = vectorAt all_products i) ∧
        (∀ before record after, records = before ++ record :: after →
          (∀ r ∈ after, r.id ≠ record.id) →
          vectorAt products record.id = some
            { name := record.product,
              parts := (parseParts record.parts []
                (parseParts (before.flatMap (fun r => r.parts)) [] all_product_parts).2).1 }) := by
  induction records with
  | nil =>
    intro all_products all_product_parts _
    refine ⟨all_products, all_product_parts, rfl, rfl, by simp [parseParts], fun _ _ => rfl, ?_⟩
    intro before record after h
    simp at h
  | cons r rest ih =>
    intro all_products all_product_parts hvalid
    obtain ⟨h0, h1⟩ := hvalid r (by simp)
    obtain ⟨products, parts, hrun, hlen, hparts, hkeep, hsplit⟩ := ih
      (all_products.set r.id.toNat
        { name := r.product, parts := (parseParts r.parts [] all_product_parts).1 })
      (parseParts r.parts [] all_product_parts).2
      (by
        intro r' hr'
        simpa using hvalid r' (List.mem_cons_of_mem _ hr'))
    refine ⟨products, parts, ?_, by simpa using hlen, ?_, ?_, ?_⟩
    · simp only [parseProducts, h0, h1, and_self, if_true]
      exact hrun
    · rw [hparts, List.flatMap_cons]
      exact (parseParts_snd_append r.parts _ [] [] all_product_parts).symm
    · intro i hi
      rw [hkeep i (fun r' hr' => hi r' (List.mem_cons_of_mem _ hr'))]
      exact vectorAt_set_other _ _ _ _ h0 (hi r (by simp))
    · intro before record after hsplit' hlast
      cases before with
      | nil =>
        simp only [List.nil_append, List.cons.injEq] at hsplit'
        obtain ⟨rfl, rfl⟩ := hsplit'
        rw [hkeep r.id hlast, vectorAt_set_self _ _ _ h0 h1]
        simp [parseParts]
      | cons b before' =>
        simp only [List.cons_append, List.cons.injEq] at hsplit'
        obtain ⟨rfl, hrest⟩ := hsplit'
        rw [hsplit before' record after hrest hlast, List.flatMap_cons]
        rw [parseParts_snd_append _ _ [] [] all_product_parts]

theorem resizeProducts_nil_length (n : Nat) : (resizeProducts [] n).length = n := by
  simp [resizeProducts]

theorem namePlaceholder_length (l : List Product) : (namePlaceholder l).length = l.length := by
  cases l <;> rfl

/-- What the parser stores for a record: started with empty lists on a
configuration whose ids index the resized product list, `parseConfigurationFiles`
returns, there are n + 1 products, entry 0 is the placeholder unless a record has
id 0, and a record not followed by a record of the same id has its name and its
counted parts at the index of its id. -/
theorem parseConfigurationFiles_stored (records : List (ProductRecord K))
    (hvalid : ∀ r ∈ records, 0 ≤ r.id ∧ r.id ≤ (records.length : Int)) :
    ∃ products parts, parseConfigurationFiles (some records) [] []
        = some (products, parts) ∧
      products.length = records.length + 1 ∧
      parts = (parseParts (records.flatMap (fun r => r.parts)) [] []).2 ∧
      (parts.map (fun part => part.name)).Nodup ∧
      ((∀ r ∈ records, r.id ≠ 0) →
        vectorAt products 0 = some { name := "placeholder", parts := [] }) ∧
      (∀ before record after, records = before ++ record :: after →
        (∀ r ∈ after, r.id ≠ record.id) →
        ∃ product, vectorAt products record.id = some product ∧
          product.name = record.product ∧
          (∀ q part, vectorAt parts q = some part →
            IdMap.find product.parts q
              = if record.parts.countP (fun e => decide (e.part = part.name)) = 0 then none
                else some ((record.parts.countP (fun e => decide (e.part = part.name)) : Nat)
                  : Int)) ∧
          (∀ q, vectorAt parts q = none → IdMap.find product.parts q = none)) := by
  obtain ⟨products, parts, hrun, hlen, hparts, hkeep, hsplit⟩ := parseProducts_spec records
    (namePlaceholder (resizeProducts [] (records.length + 1))) ([] : List (ProductPart K))
    (by
      intro r hr
      obtain ⟨h0, h1⟩ := hvalid r hr
      rw [namePlaceholder_length, resizeProducts_nil_length]
      exact ⟨h0, by push_cast; omega⟩)
  have hnodup : (parts.map (fun part => part.name)).Nodup := by
    rw [hparts]
    exact parseParts_nodup _ _ _ (by simp)
  refine ⟨products, parts, hrun, ?_, hparts, hnodup, ?_, ?_⟩
  · rw [hlen, namePlaceholder_length, resizeProducts_nil_length]
  · intro hzero
    rw [hkeep 0 hzero]
    simp [resizeProducts, namePlaceholder, vectorAt, List.replicate_succ]
  · intro before record after hrec hlast
    refine ⟨_, hsplit before record after hrec hlast, rfl, ?_, ?_⟩
    all_goals
      have hfinal : ∃ ext, parts = (parseParts record.parts []
          (parseParts (before.flatMap (fun r => r.parts)) [] []).2).2 ++ ext := by
        rw [hparts, hrec, List.flatMap_append, List.flatMap_cons]
        rw [parseParts_snd_append (before.flatMap (fun r => r.parts)) _ [] [] [],
          parseParts_snd_append record.parts _ [] [] _]
        obtain ⟨ext, hext⟩ := parseParts_extends (after.flatMap (fun r => r.parts)) []
          (parseParts record.parts []
            (parseParts (before.flatMap (fun r => r.parts)) [] []).2).2
        exact ⟨ext, hext⟩
    · intro q part hpart
      simp only
      rw [parseParts_find parts q record.parts [] _ hfinal,
        countP_index_eq_countP_name parts hnodup q part hpart]
      simp [IdMap.find]
    · intro q hpart
      simp only
      rw [parseParts_find parts q record.parts [] _ hfinal,
        countP_index_eq_zero parts q hpart]
      simp [IdMap.find]

end ConfigurationProducts

end AMR

namespace AMR

section ConfigurationParts

variable {K : Type}

theorem parseParts_added (entries : List (PartRecord K)) :
    ∀ (m : IdMap Int) (l : List (ProductPart K)),
      (l.map (fun part => part.name)).Nodup →
      ∃ added, (parseParts entries m l).2 = l ++ added ∧
        (∀ part ∈ added, part.name ∉ l.map (fun part => part.name) ∧
          ∃ e, entries.find? (fun e => decide (e.part = part.name)) = some e ∧
            part = { name := e.part, coords := { x := e.cx, y := e.cy } }) ∧
        (∀ e ∈ entries, e.part ∈ (l ++ added).map (fun part => part.name)) ∧
        (added.map (fun part =>
          entries.findIdx (fun e => decide (e.part = part.name)))).Pairwise
            (fun a b => a < b) := by
  induction entries with
  | nil =>
    intro m l _
    exact ⟨[], by simp [parseParts], by simp, by simp, by simp⟩
  | cons e rest ih =>
    intro m l hnodup
    cases hidx : findPartIndex e.part l with
    | some i =>
      have hreg : (registerPart e l).2 = l := by simp [registerPart, hidx]
      have hin : e.part ∈ l.map (fun part => part.name) := by
        by_contra hnot
        rw [(findPartIndex_eq_none _ _).mpr hnot] at hidx
        exact Option.noConfusion hidx
      obtain ⟨added, hres, hnew, hall, hsorted⟩ := ih (countPart m (registerPart e l).1) l hnodup
      have hne : ∀ part ∈ added, ¬ e.part = part.name := by
        intro part hp heq
        exact (hnew part hp).1 (heq ▸ hin)
      refine ⟨added, by simp only [parseParts]; rw [hreg]; exact hres, ?_, ?_, ?_⟩
      · intro part hp
        obtain ⟨hnotin, e', hfind, hpart⟩ := hnew part hp
        refine ⟨hnotin, e', ?_, hpart⟩
        rw [List.find?_cons_of_neg _ (by simpa using hne part hp)]
        exact hfind
      · intro e' he'
        rcases List.mem_cons.mp he' with rfl | he'
        · simp only [List.map_append, List.mem_append]
          exact Or.inl hin
        · exact hall e' he'
      · have hmap : added.map (fun part =>
            (e :: rest).findIdx (fun e => decide (e.part = part.name)))
            = (added.map (fun part =>
              rest.findIdx (fun e => decide (e.part = part.name)))).map (fun n => n + 1) := by
          rw [List.map_map]
          apply List.map_congr_left
          intro part hp
          simp [List.findIdx_cons, hne part hp]
        rw [hmap]
        exact (List.pairwise_map).mpr (hsorted.imp (fun h => by omega))
    | none =>
      have hnotin := (findPartIndex_eq_none _ _).mp hidx
      have hreg : (registerPart e l).2
          = l ++ [{ name := e.part, coords := { x := e.cx, y := e.cy } }] := by
        simp [registerPart, hidx]
      have hnodup1 := registerPart_nodup e l hnodup
      rw [hreg] at hnodup1
      obtain ⟨added, hres, hnew, hall, hsorted⟩ := ih (countPart m (registerPart e l).1)
        (l ++ [{ name := e.part, coords := { x := e.cx, y := e.cy } }]) hnodup1
      have hne : ∀ part ∈ added, ¬ e.part = part.name := by
        intro part hp heq
        apply (hnew part hp).1
        simp [heq]
      refine ⟨{ name := e.part, coords := { x := e.cx, y := e.cy } } :: added, ?_, ?_, ?_, ?_⟩
      · simp only [parseParts]
        rw [hreg, hres]
        simp
      · intro part hp
        rcases List.mem_cons.mp hp with rfl | hp
        · exact ⟨hnotin, e, by simp, rfl⟩
        · obtain ⟨hnot1, e', hfind, hpart⟩ := hnew part hp
          refine ⟨fun h => hnot1 (by simp [List.mem_map] at h ⊢; exact Or.inl h), e', ?_, hpart⟩
          rw [List.find?_cons_of_neg _ (by simpa using hne part hp)]
          exact hfind
      · intro e' he'
        rcases List.mem_cons.mp he' with rfl | he'
        · simp
        · have := hall e' he'
          simpa [List.append_assoc] using this
      · rw [List.map_cons, List.pairwise_cons]
        constructor
        · intro n hn
          obtain ⟨part, hp, rfl⟩ := List.mem_map.mp hn
          simp [List.findIdx_cons, hne part hp]
        · have hmap : added.map (fun part =>
              (e :: rest).findIdx (fun e => decide (e.part = part.name)))
              = (added.map (fun part =>
                rest.findIdx (fun e => decide (e.part = part.name)))).map (fun n => n + 1) := by
            rw [List.map_map]
            apply List.map_congr_left
            intro part hp
            simp [List.findIdx_cons, hne part hp]
          rw [hmap]
          exact (List.pairwise_map).mpr (hsorted.imp (fun h => by omega))

end ConfigurationParts

end AMR

namespace AMR

/-! ## The configuration file: claims C17, C18, C19 -/

section ConfigurationClaims

variable {K : Type}

/-- C17 (counterexample): of two product records with the id 1 the second
overwrites what the first stored.  The first record lists part "A" once and no
part "B", yet the parts map at index 1 has no key for the id of "A" and holds the
quantity 2 under the id of "B". -/
theorem parseConfigurationFiles_repeated_id_quantities :
    ∃ products parts product,
      parseConfigurationFiles
          (some ([{ id := 1, product := "First", parts := [{ part := "A", cx := 0, cy := 0 }] },
                  { id := 1, product := "Second",
                    parts := [{ part := "B", cx := 1, cy := 1 }, { part := "B", cx := 1, cy := 1 }] }]
            : List (ProductRecord ℚ))) [] []
        = some (products, parts) ∧
      vectorAt products 1 = some product ∧
      vectorAt parts 0 = some { name := "A", coords := { x := 0, y := 0 } } ∧
      ([{ part := "A", cx := 0, cy := 0 }] : List (PartRecord ℚ)).countP
          (fun e => decide (e.part = "A")) = 1 ∧
      IdMap.find product.parts 0 = none ∧
      vectorAt parts 1 = some { name := "B", coords := { x := 1, y := 1 } } ∧
      ([{ part := "A", cx := 0, cy := 0 }] : List (PartRecord ℚ)).countP
          (fun e => decide (e.part = "B")) = 0 ∧
      IdMap.find product.parts 1 = some 2 :=
  ⟨[{ name := "placeholder", parts := [] }, { name := "Second", parts := [(1, 2)] },
      { name := "", parts := [] }],
    [{ name := "A", coords := { x := 0, y := 0 } }, { name := "B", coords := { x := 1, y := 1 } }],
    { name := "Second", parts := [(1, 2)] }, by rfl, by rfl, by rfl, by decide, by rfl, by rfl,
    by decide, by rfl⟩

/-- C17 (amended): started with empty lists on a configuration whose ids index the
product list of n + 1 entries, `parseConfigurationFiles` returns, and for a
record whose id no later record repeats, the parts map stored at its id has
under each part id the number of entries of the record's parts list that carry
the name of that part, no key for a part the record does not name and no key
outside the parts list; every stored quantity is at least 1. -/
theorem parseConfigurationFiles_quantities (before after : List (ProductRecord K))
    (record : ProductRecord K)
    (hvalid : ∀ r ∈ before ++ record :: after,
      0 ≤ r.id ∧ r.id ≤ ((before ++ record :: after).length : Int))
    (hlast : ∀ r ∈ after, r.id ≠ record.id) :
    ∃ products parts product,
      parseConfigurationFiles (some (before ++ record :: after)) [] []
        = some (products, parts) ∧
      vectorAt products record.id = some product ∧
      (∀ q part, vectorAt parts q = some part →
        IdMap.find product.parts q
          = if record.parts.countP (fun e => decide (e.part = part.name)) = 0 then none
            else some ((record.parts.countP (fun e => decide (e.part = part.name)) : Nat)
              : Int)) ∧
      (∀ q, vectorAt parts q = none → IdMap.find product.parts q = none) ∧
      (∀ q quantity, IdMap.find product.parts q = some quantity → 1 ≤ quantity) := by
  obtain ⟨products, parts, hrun, _, _, _, _, hstored⟩ :=
    parseConfigurationFiles_stored (before ++ record :: after) hvalid
  obtain ⟨product, hprod, _, hcount, hnone⟩ := hstored before record after rfl hlast
  refine ⟨products, parts, product, hrun, hprod, hcount, hnone, ?_⟩
  intro q quantity hq
  cases hpart : vectorAt parts q with
  | none =>
    rw [hnone q hpart] at hq
    exact Option.noConfusion hq
  | some part =>
    rw [hcount q part hpart] at hq
    by_cases hc : record.parts.countP (fun e => decide (e.part = part.name)) = 0
    · simp [hc] at hq
    · simp only [hc, if_false, Option.some.injEq] at hq
      omega

theorem parseConfigurationFiles_quantities_witness :
    ∃ products parts product,
      parseConfigurationFiles (some (sampleConfiguration : List (ProductRecord ℚ))) [] []
        = some (products, parts) ∧
      vectorAt products 1 = some product ∧
      (∀ q part, vectorAt parts q = some part →
        IdMap.find product.parts q
          = if ([{ part := "Part A", cx := 1, cy := 0 }, { part := "Part A", cx := 1, cy := 0 },
                 { part := "Part B", cx := -2, cy := 0 }, { part := "Part B", cx := -2, cy := 0 }]
                : List (PartRecord ℚ)).countP (fun e => decide (e.part = part.name)) = 0
            then none
            else some ((([{ part := "Part A", cx := 1, cy := 0 },
                 { part := "Part A", cx := 1, cy := 0 },
                 { part := "Part B", cx := -2, cy := 0 }, { part := "Part B", cx := -2, cy := 0 }]
                : List (PartRecord ℚ)).countP (fun e => decide (e.part = part.name)) : Nat)
              : Int)) ∧
      (∀ q, vectorAt parts q = none → IdMap.find product.parts q = none) ∧
      (∀ q quantity, IdMap.find product.parts q = some quantity → 1 ≤ quantity) :=
  parseConfigurationFiles_quantities ([] : List (ProductRecord ℚ))
    [{ id := 2, product := "Product 2",
       parts := [{ part := "Part A", cx := 1, cy := 0 }, { part := "Part A", cx := 1, cy := 0 },
                 { part := "Part A", cx := 1, cy := 0 }] },
     { id := 3, product := "Product 3",
       parts := [{ part := "Part A", cx := 1, cy := 0 }, { part := "Part A", cx := 1, cy := 0 },
                 { part := "Part C", cx := 4, cy := 0 }] }]
    { id := 1, product := "Product 1",
      parts := [{ part := "Part A", cx := 1, cy := 0 }, { part := "Part A", cx := 1, cy := 0 },
                { part := "Part B", cx := -2, cy := 0 }, { part := "Part B", cx := -2, cy := 0 }] }
    (by
      intro r hr
      simp only [List.nil_append, List.mem_cons, List.mem_singleton, List.not_mem_nil,
        or_false] at hr
      rcases hr with rfl | rfl | rfl <;> simp)
    (by
      intro r hr
      simp only [List.mem_cons, List.mem_singleton, List.not_mem_nil, or_false] at hr
      rcases hr with rfl | rfl <;> simp)

/-- C18: started with empty lists on a configuration whose ids index the product
list, `parseConfigurationFiles` returns a parts list in which no name occurs
twice, whose names are exactly the part names of the configuration, where each
part has the coordinates of the first entry carrying its name in the scan of the
product records and their parts lists, and where the parts stand in the order of
those first entries; the id under which the parser finds a part is its index. -/
theorem parseConfigurationFiles_parts_list (records : List (ProductRecord K))
    (hvalid : ∀ r ∈ records, 0 ≤ r.id ∧ r.id ≤ (records.length : Int)) :
    ∃ products parts,
      parseConfigurationFiles (some records) [] [] = some (products, parts) ∧
      (parts.map (fun part => part.name)).Nodup ∧
      (∀ name, name ∈ parts.map (fun part => part.name) ↔
        ∃ e ∈ records.flatMap (fun r => r.parts), e.part = name) ∧
      (∀ part ∈ parts, ∃ e,
        (records.flatMap (fun r => r.parts)).find? (fun e => decide (e.part = part.name))
          = some e ∧
        part.coords = { x := e.cx, y := e.cy }) ∧
      (parts.map (fun part =>
        (records.flatMap (fun r => r.parts)).findIdx
          (fun e => decide (e.part = part.name)))).Pairwise (fun a b => a < b) ∧
      (∀ i part, parts[i]? = some part → findPartIndex part.name parts = some i) := by
  obtain ⟨products, parts, hrun, _, hparts, hnodup, _, _⟩ :=
    parseConfigurationFiles_stored records hvalid
  obtain ⟨added, hres, hnew, hall, hsorted⟩ :=
    parseParts_added (records.flatMap (fun r => r.parts)) [] ([] : List (ProductPart K))
      (by simp)
  rw [← hparts, List.nil_append] at hres
  subst hres
  refine ⟨products, parts, hrun, hnodup, ?_, ?_, hsorted, ?_⟩
  · intro name
    constructor
    · intro hname
      obtain ⟨part, hp, rfl⟩ := List.mem_map.mp hname
      obtain ⟨_, e, hfind, _⟩ := hnew part hp
      refine ⟨e, List.mem_of_find?_eq_some hfind, ?_⟩
      simpa using List.find?_some hfind
    · rintro ⟨e, he, rfl⟩
      simpa using hall e he
  · intro part hp
    obtain ⟨_, e, hfind, hpart⟩ := hnew part hp
    exact ⟨e, hfind, by rw [hpart]⟩
  · intro i part hi
    exact findPartIndex_of_nodup parts hnodup i part hi

theorem parseConfigurationFiles_parts_list_witness :
    (∀ r ∈ (sampleConfiguration : List (ProductRecord ℚ)),
      0 ≤ r.id ∧ r.id ≤ ((sampleConfiguration : List (ProductRecord ℚ)).length : Int)) ∧
    ∃ products parts,
      parseConfigurationFiles (some (sampleConfiguration : List (ProductRecord ℚ))) [] []
        = some (products, parts) ∧
      (parts.map (fun part => part.name)).Nodup ∧
      (∀ name, name ∈ parts.map (fun part => part.name) ↔
        ∃ e ∈ (sampleConfiguration : List (ProductRecord ℚ)).flatMap (fun r => r.parts),
          e.part = name) ∧
      (∀ part ∈ parts, ∃ e,
        ((sampleConfiguration : List (ProductRecord ℚ)).flatMap (fun r => r.parts)).find?
          (fun e => decide (e.part = part.name)) = some e ∧
        part.coords = { x := e.cx, y := e.cy }) ∧
      (parts.map (fun part =>
        ((sampleConfiguration : List (ProductRecord ℚ)).flatMap (fun r => r.parts)).findIdx
          (fun e => decide (e.part = part.name)))).Pairwise (fun a b => a < b) ∧
      (∀ i part, parts[i]? = some part → findPartIndex part.name parts = some i) :=
  have hvalid : ∀ r ∈ (sampleConfiguration : List (ProductRecord ℚ)),
      0 ≤ r.id ∧ r.id ≤ ((sampleConfiguration : List (ProductRecord ℚ)).length : Int) := by
    intro r hr
    simp only [sampleConfiguration, List.mem_cons, List.mem_singleton, List.not_mem_nil,
      or_false] at hr
    rcases hr with rfl | rfl | rfl <;> simp [sampleConfiguration]
  ⟨hvalid, parseConfigurationFiles_parts_list sampleConfiguration hvalid⟩

/-- C19 (counterexample): a single record with the positive id 2 makes the parser
write `all_products[2]` in a list of 2 entries, so no product list results; and
of two records with the positive id 1 the second overwrites the first, so index
1 holds the name "B" and not the first record's name "A". -/
theorem parseConfigurationFiles_positive_ids_not_enough :
    parseConfigurationFiles
        (some ([{ id := 2, product := "P", parts := [] }] : List (ProductRecord ℚ))) [] []
      = none ∧
    parseConfigurationFiles
        (some ([{ id := 1, product := "A", parts := [] },
                { id := 1, product := "B", parts := [] }] : List (ProductRecord ℚ))) [] []
      = some ([{ name := "placeholder", parts := [] }, { name := "B", parts := [] },
               { name := "", parts := [] }], []) := by
  constructor <;> rfl

/-- C19 (amended): for a configuration of n product records whose ids are pairwise
distinct and lie between 1 and n, `parseConfigurationFiles` started with empty
lists returns a product list of n + 1 entries, entry 0 is the placeholder (name
"placeholder", no parts), and each record's name and parts map (each part id
with the number of entries naming that part) are stored at the index equal to
the record's id. -/
theorem parseConfigurationFiles_products_by_id (records : List (ProductRecord K))
    (hrange : ∀ r ∈ records, 1 ≤ r.id ∧ r.id ≤ (records.length : Int))
    (hdistinct : (records.map (fun r => r.id)).Nodup) :
    ∃ products parts,
      parseConfigurationFiles (some records) [] [] = some (products, parts) ∧
      products.length = records.length + 1 ∧
      vectorAt products 0 = some { name := "placeholder", parts := [] } ∧
      ∀ record ∈ records, ∃ product,
        vectorAt products record.id = some product ∧
        product.name = record.product ∧
        (∀ q part, vectorAt parts q = some part →
          IdMap.find product.parts q
            = if record.parts.countP (fun e => decide (e.part = part.name)) = 0 then none
              else some ((record.parts.countP (fun e => decide (e.part = part.name)) : Nat)
                : Int)) ∧
        (∀ q, vectorAt parts q = none → IdMap.find product.parts q = none) := by
  obtain ⟨products, parts, hrun, hlen, _, _, hzero, hstored⟩ :=
    parseConfigurationFiles_stored records
      (fun r hr => ⟨by have := (hrange r hr).1; omega, (hrange r hr).2⟩)
  refine ⟨products, parts, hrun, hlen, ?_, ?_⟩
  · apply hzero
    intro r hr
    have := (hrange r hr).1
    omega
  · intro record hrec
    obtain ⟨before, after, hsplit⟩ := List.append_of_mem hrec
    apply hstored before record after hsplit
    intro r hr heq
    rw [hsplit, List.map_append, List.map_cons] at hdistinct
    have h2 := (List.nodup_append.mp hdistinct).2.1
    have h3 := (List.nodup_cons.mp h2).1
    exact h3 (heq ▸ List.mem_map.mpr ⟨r, hr, rfl⟩)

theorem parseConfigurationFiles_products_by_id_witness :
    (∀ r ∈ (sampleConfiguration : List (ProductRecord ℚ)),
      1 ≤ r.id ∧ r.id ≤ ((sampleConfiguration : List (ProductRecord ℚ)).length : Int)) ∧
    ((sampleConfiguration : List (ProductRecord ℚ)).map (fun r => r.id)).Nodup ∧
    ∃ products parts,
      parseConfigurationFiles (some (sampleConfiguration : List (ProductRecord ℚ))) [] []
        = some (products, parts) ∧
      products.length = (sampleConfiguration : List (ProductRecord ℚ)).length + 1 ∧
      vectorAt products 0 = some { name := "placeholder", parts := [] } ∧
      ∀ record ∈ (sampleConfiguration : List (ProductRecord ℚ)), ∃ product,
        vectorAt products record.id = some product ∧
        product.name = record.product ∧
        (∀ q part, vectorAt parts q = some part →
          IdMap.find product.parts q
            = if record.parts.countP (fun e => decide (e.part = part.name)) = 0 then none
              else some ((record.parts.countP (fun e => decide (e.part = part.name)) : Nat)
                : Int)) ∧
        (∀ q, vectorAt parts q = none → IdMap.find product.parts q = none) :=
  have hrange : ∀ r ∈ (sampleConfiguration : List (ProductRecord ℚ)),
      1 ≤ r.id ∧ r.id ≤ ((sampleConfiguration : List (ProductRecord ℚ)).length : Int) := by
    intro r hr
    simp only [sampleConfiguration, List.mem_cons, List.mem_singleton, List.not_mem_nil,
      or_false] at hr
    rcases hr with rfl | rfl | rfl <;> simp [sampleConfiguration]
  have hdistinct : ((sampleConfiguration : List (ProductRecord ℚ)).map (fun r => r.id)).Nodup := by
    simp [sampleConfiguration]
  ⟨hrange, hdistinct, parseConfigurationFiles_products_by_id sampleConfiguration hrange hdistinct⟩

end ConfigurationClaims

end AMR

namespace AMR

/-! ## `nextPermutation` steps to the next rearrangement in lexicographic order -/

theorem lexLt_trichotomy : ∀ (a b : List Nat), a.length = b.length →
    lexLt a b = true ∨ a = b ∨ lexLt b a = true
  | [], [], _ => Or.inr (Or.inl rfl)
  | [], _ :: _, h => by simp at h
  | _ :: _, [], h => by simp at h
  | x :: xs, y :: ys, h => by
    have hlen : xs.length = ys.length := by simpa using h
    simp only [lexLt, Bool.or_eq_true, Bool.and_eq_true, decide_eq_true_eq, List.cons.injEq]
    rcases Nat.lt_trichotomy x y with hxy | hxy | hxy
    · exact Or.inl (Or.inl hxy)
    · rcases lexLt_trichotomy xs ys hlen with h1 | h1 | h1
      · exact Or.inl (Or.inr ⟨hxy, h1⟩)
      · exact Or.inr (Or.inl ⟨hxy, h1⟩)
      · exact Or.inr (Or.inr (Or.inr ⟨hxy.symm, h1⟩))
    · exact Or.inr (Or.inr (Or.inl hxy))

theorem lexLt_asymm (a b : List Nat) (h : lexLt a b = true) : lexLt b a = false := by
  cases hba : lexLt b a with
  | false => rfl
  | true =>
    have := lexLt_trans a b a h hba
    rw [lexLt_irrefl] at this
    exact Bool.noConfusion this

theorem lexLt_ascending_least : ∀ (l q : List Nat), l.Pairwise (fun a b => a ≤ b) →
    q.Perm l → lexLt q l = false
  | [], q, _, hq => by
    rw [List.Perm.eq_nil hq]
    rfl
  | a :: t, [], _, hq => by
    have := hq.length_eq
    simp at this
  | a :: t, b :: q', hl, hq => by
    obtain ⟨hhead, htail⟩ := List.pairwise_cons.mp hl
    have hb : b ∈ a :: t := hq.subset (List.mem_cons_self _ _)
    have hab : a ≤ b := by
      rcases List.mem_cons.mp hb with rfl | hb
      · exact le_refl _
      · exact hhead b hb
    simp only [lexLt, Bool.or_eq_false_iff, Bool.and_eq_false_iff, decide_eq_false_iff_not]
    refine ⟨by omega, ?_⟩
    by_cases heq : b = a
    · subst heq
      exact Or.inr (lexLt_ascending_least t q' htail (List.Perm.cons_inv hq))
    · exact Or.inl heq

theorem lexLt_descending_greatest : ∀ (l q : List Nat), l.Pairwise (fun a b => b ≤ a) →
    q.Perm l → lexLt l q = false
  | [], q, _, hq => by
    rw [List.Perm.eq_nil hq]
    rfl
  | a :: t, [], _, hq => by
    have := hq.length_eq
    simp at this
  | a :: t, b :: q', hl, hq => by
    obtain ⟨hhead, htail⟩ := List.pairwise_cons.mp hl
    have hb : b ∈ a :: t := hq.subset (List.mem_cons_self _ _)
    have hab : b ≤ a := by
      rcases List.mem_cons.mp hb with rfl | hb
      · exact le_refl _
      · exact hhead b hb
    simp only [lexLt, Bool.or_eq_false_iff, Bool.and_eq_false_iff, decide_eq_false_iff_not]
    refine ⟨by omega, ?_⟩
    by_cases heq : a = b
    · subst heq
      exact Or.inr (lexLt_descending_greatest t q' htail (List.Perm.cons_inv hq))
    · exact Or.inl heq

theorem replaceFirstGreater_none (x : Nat) :
    ∀ (l : List Nat), replaceFirstGreater x l = none → ∀ y ∈ l, y ≤ x := by
  intro l
  induction l with
  | nil => intro _ y hy; simp at hy
  | cons a t ih =>
    intro h y hy
    unfold replaceFirstGreater at h
    by_cases hxa : x < a
    · simp [hxa] at h
    · simp only [hxa, if_false] at h
      cases hr : replaceFirstGreater x t with
      | some zs => simp [hr] at h
      | none =>
        rcases List.mem_cons.mp hy with rfl | hy
        · omega
        · exact ih hr y hy

theorem replaceFirstGreater_sorted (x : Nat) :
    ∀ (l : List Nat) (y : Nat) (s : List Nat), l.Pairwise (fun a b => a ≤ b) →
      replaceFirstGreater x l = some (y, s) →
      s.Pairwise (fun a b => a ≤ b) ∧ ∀ z ∈ l, x < z → y ≤ z := by
  intro l
  induction l with
  | nil => intro y s _ h; simp [replaceFirstGreater] at h
  | cons a t ih =>
    intro y s hl h
    obtain ⟨hhead, htail⟩ := List.pairwise_cons.mp hl
    unfold replaceFirstGreater at h
    by_cases hxa : x < a
    · simp only [hxa, if_true, Option.some.injEq, Prod.mk.injEq] at h
      obtain ⟨rfl, rfl⟩ := h
      refine ⟨List.pairwise_cons.mpr ⟨?_, htail⟩, ?_⟩
      · intro z hz
        have := hhead z hz
        omega
      · intro z hz _
        rcases List.mem_cons.mp hz with rfl | hz
        · exact le_refl _
        · exact hhead z hz
    · simp only [hxa, if_false] at h
      cases hr : replaceFirstGreater x t with
      | none => simp [hr] at h
      | some zs =>
        obtain ⟨z0, s'⟩ := zs
        simp only [hr, Option.some.injEq, Prod.mk.injEq] at h
        obtain ⟨rfl, rfl⟩ := h
        obtain ⟨hs', hleast⟩ := ih z0 s' htail hr
        obtain ⟨hperm, _⟩ := replaceFirstGreater_perm x t z0 s' hr
        refine ⟨List.pairwise_cons.mpr ⟨?_, hs'⟩, ?_⟩
        · intro z hz
          have hz' : z ∈ x :: t := hperm.subset (List.mem_cons_of_mem _ hz)
          rcases List.mem_cons.mp hz' with rfl | hz'
          · omega
          · exact hhead z hz'
        · intro z hz hxz
          rcases List.mem_cons.mp hz with rfl | hz
          · omega
          · exact hleast z hz hxz

theorem nextPermutation_none : ∀ (l : List Nat), nextPermutation l = none →
    l.Pairwise (fun a b => b ≤ a) := by
  intro l
  induction l with
  | nil => intro _; exact List.Pairwise.nil
  | cons x rest ih =>
    intro h
    unfold nextPermutation at h
    cases hn : nextPermutation rest with
    | some r => simp [hn] at h
    | none =>
      simp only [hn] at h
      cases hr : replaceFirstGreater x rest.reverse with
      | some zs => simp [hr] at h
      | none =>
        refine List.pairwise_cons.mpr ⟨?_, ih hn⟩
        intro y hy
        exact replaceFirstGreater_none x rest.reverse hr y (List.mem_reverse.mpr hy)

theorem nextPermutation_least : ∀ (l l' q : List Nat), nextPermutation l = some l' →
    q.Perm l → lexLt l q = true → lexLt q l' = false := by
  intro l
  induction l with
  | nil => intro l' q h; simp [nextPermutation] at h
  | cons x rest ih =>
    intro l' q h hq hlt
    cases q with
    | nil =>
      have := hq.length_eq
      simp at this
    | cons b q' =>
      simp only [lexLt, Bool.or_eq_true, Bool.and_eq_true, decide_eq_true_eq] at hlt
      unfold nextPermutation at h
      cases hn : nextPermutation rest with
      | some r =>
        simp only [hn, Option.some.injEq] at h
        subst h
        simp only [lexLt, Bool.or_eq_false_iff, Bool.and_eq_false_iff, decide_eq_false_iff_not]
        rcases hlt with hxb | ⟨hxb, hrest⟩
        · exact ⟨by omega, Or.inl (by omega)⟩
        · subst hxb
          exact ⟨by omega, Or.inr (ih r q' hn (List.Perm.cons_inv hq) hrest)⟩
      | none =>
        simp only [hn] at h
        have hdesc := nextPermutation_none rest hn
        cases hr : replaceFirstGreater x rest.reverse with
        | none => simp [hr] at h
        | some zs =>
          obtain ⟨y, s⟩ := zs
          simp only [hr, Option.some.injEq] at h
          subst h
          have hasc : rest.reverse.Pairwise (fun a b => a ≤ b) :=
            List.pairwise_reverse.mpr hdesc
          obtain ⟨hs, hleast⟩ := replaceFirstGreater_sorted x rest.reverse y s hasc hr
          obtain ⟨hperm, _⟩ := replaceFirstGreater_perm x rest.reverse y s hr
          have hxb : x < b := by
            rcases hlt with hxb | ⟨hxb, hrest⟩
            · exact hxb
            · subst hxb
              have := lexLt_descending_greatest rest q' hdesc (List.Perm.cons_inv hq)
              rw [this] at hrest
              exact Bool.noConfusion hrest
          have hb : b ∈ rest.reverse := by
            have hmem : b ∈ x :: rest := hq.subset (List.mem_cons_self _ _)
            rcases List.mem_cons.mp hmem with rfl | hmem
            · omega
            · exact List.mem_reverse.mpr hmem
          have hyb : y ≤ b := hleast b hb hxb
          simp only [lexLt, Bool.or_eq_false_iff, Bool.and_eq_false_iff,
            decide_eq_false_iff_not]
          refine ⟨by omega, ?_⟩
          by_cases heq : b = y
          · subst heq
            have hq's : q'.Perm s := by
              have h1 : (b :: q').Perm (b :: s) :=
                hq.trans ((List.Perm.cons x (List.reverse_perm rest).symm).trans hperm.symm)
              exact List.Perm.cons_inv h1
            exact Or.inr (lexLt_ascending_least s q' hs hq's)
          · exact Or.inl heq

end AMR

namespace AMR

/-! ## The search keeps the first shortest rearrangement: claim C14 -/

section SearchLeast

variable {K : Type} [LinearOrderedField K]

theorem searchLoop_least (len : List Nat → Option K) :
    ∀ (fuel : Nat) (cur best : List Nat) (shortest : Option K) (p : List Nat),
      searchLoop len fuel cur best shortest = some p →
      SearchInv len cur best shortest →
      p.Perm cur ∧ ∃ v, len p = some v ∧
        ∀ q : List Nat, q.Perm cur → ∃ u, len q = some u ∧ v ≤ u ∧
          (u = v → lexLt q p = false) := by
  intro fuel
  induction fuel with
  | zero => intro cur best shortest p h _; simp [searchLoop] at h
  | succ n ih =>
    intro cur best shortest p h hinv
    cases hc : len cur with
    | none => simp [searchLoop, hc] at h
    | some c =>
      -- the state after the comparison of this iteration
      have hpost : ∃ best' s',
          (if belowShortest c shortest = true then cur else best) = best' ∧
          (if belowShortest c shortest = true then some c else shortest) = some s' ∧
          best'.Perm cur ∧ len best' = some s' ∧ (best' = cur ∨ lexLt best' cur = true) ∧
          ∀ q : List Nat, q.Perm cur → (lexLt q cur = true ∨ q = cur) →
            ∃ u, len q = some u ∧ s' ≤ u ∧ (u = s' → lexLt q best' = false) := by
        cases shortest with
        | none =>
          refine ⟨cur, c, by simp [belowShortest], by simp [belowShortest],
            List.Perm.refl _, hc, Or.inl rfl, ?_⟩
          intro q hq hcase
          rcases hcase with hlt | rfl
          · have := hinv q hq
            rw [this] at hlt
            exact Bool.noConfusion hlt
          · exact ⟨c, hc, le_refl _, fun _ => lexLt_irrefl _⟩
        | some s =>
          obtain ⟨hbperm, hblt, hblen, hbmin⟩ := hinv
          by_cases hlt : c < s
          · refine ⟨cur, c, by simp [belowShortest, hlt], by simp [belowShortest, hlt],
              List.Perm.refl _, hc, Or.inl rfl, ?_⟩
            intro q hq hcase
            rcases hcase with hq' | rfl
            · obtain ⟨u, hu, hsu, _⟩ := hbmin q hq hq'
              exact ⟨u, hu, le_of_lt (lt_of_lt_of_le hlt hsu),
                fun e => absurd (e ▸ hsu) (not_le_of_lt hlt)⟩
            · exact ⟨c, hc, le_refl _, fun _ => lexLt_irrefl _⟩
          · refine ⟨best, s, by simp [belowShortest, hlt], by simp [belowShortest, hlt],
              hbperm, hblen, Or.inr hblt, ?_⟩
            intro q hq hcase
            rcases hcase with hq' | rfl
            · exact hbmin q hq hq'
            · exact ⟨c, hc, not_lt.mp hlt, fun _ => lexLt_asymm _ _ hblt⟩
      obtain ⟨best', s', hb', hs', hperm', hlen', hbefore', hmin'⟩ := hpost
      cases hn : nextPermutation cur with
      | none =>
        have hp : p = best' := by
          have : some best' = some p := by
            rw [← h, ← hb']
            simp [searchLoop, hc, hn]
          exact (Option.some.inj this).symm
        subst hp
        refine ⟨hperm', s', hlen', ?_⟩
        intro q hq
        apply hmin' q hq
        have hmax := lexLt_descending_greatest cur q (nextPermutation_none cur hn) hq
        rcases lexLt_trichotomy q cur hq.length_eq with h1 | h1 | h1
        · exact Or.inl h1
        · exact Or.inr h1
        · rw [hmax] at h1
          exact Bool.noConfusion h1
      | some next =>
        obtain ⟨hnperm, hnlt⟩ := nextPermutation_spec cur next hn
        have hrec : searchLoop len n next best' (some s') = some p := by
          rw [← h, ← hb', ← hs']
          simp [searchLoop, hc, hn]
        have hinv' : SearchInv len next best' (some s') := by
          refine ⟨hperm'.trans hnperm.symm, ?_, hlen', ?_⟩
          · rcases hbefore' with rfl | hlt
            · exact hnlt
            · exact lexLt_trans _ _ _ hlt hnlt
          · intro q hq hqlt
            have hqcur : q.Perm cur := hq.trans hnperm
            apply hmin' q hqcur
            rcases lexLt_trichotomy q cur hqcur.length_eq with h1 | h1 | h1
            · exact Or.inl h1
            · exact Or.inr h1
            · have := nextPermutation_least cur next q hn hqcur h1
              rw [this] at hqlt
              exact Bool.noConfusion hqlt
        obtain ⟨hpp, v, hv, hall⟩ := ih next best' (some s') p hrec hinv'
        exact ⟨hpp.trans hnperm, v, hv, fun q hq => hall q (hq.trans hnperm.symm)⟩

theorem range_least (n : Nat) (q : List Nat) (hq : q.Perm (List.range n)) :
    lexLt q (List.range n) = false :=
  lexLt_ascending_least (List.range n) q
    ((List.pairwise_lt_range n).imp (fun h => le_of_lt h)) hq

theorem determineShortestPath_first_shortest (sqrt : K → K)
    (starting_point delivery_point : Coordinates2D K)
    (part_locations : List (Coordinates2D K)) (hne : part_locations ≠ []) :
    ∃ pickup_order shortest,
      determineShortestPath sqrt starting_point part_locations delivery_point
        = some pickup_order ∧
      pickup_order.Perm (List.range part_locations.length) ∧
      determinePathLength sqrt starting_point part_locations delivery_point pickup_order
        = some shortest ∧
      ∀ q : List Nat, q.Perm (List.range part_locations.length) →
        ∃ u, determinePathLength sqrt starting_point part_locations delivery_point q = some u ∧
          shortest ≤ u ∧ (u = shortest → lexLt q pickup_order = false) := by
  obtain ⟨p, hp, _⟩ := determineShortestPath_returns_perm sqrt starting_point delivery_point
    part_locations hne
  obtain ⟨hperm, v, hv, hall⟩ := searchLoop_least
    (determinePathLength sqrt starting_point part_locations delivery_point)
    part_locations.length.factorial (List.range part_locations.length)
    (List.range part_locations.length) none p hp
    (fun q hq => range_least _ q hq)
  exact ⟨p, v, hp, hperm, hv, hall⟩

/-- C14: for at least one waypoint `determineShortestPath` starts at the identity,
which is the first rearrangement in lexicographic order; `std::next_permutation`
steps from each rearrangement to the next one in that order, with none in
between, and stops at the last one; the candidate is replaced only on a strictly
smaller length.  So the returned order has the least length computed by
`determinePathLength` among all rearrangements of the indices, and no
rearrangement of the same length comes before it lexicographically. -/
theorem determineShortestPath_lexicographically_first (sqrt : K → K)
    (starting_point delivery_point : Coordinates2D K)
    (part_locations : List (Coordinates2D K)) (hne : part_locations ≠ []) :
    (∀ q : List Nat, q.Perm (List.range part_locations.length) →
      lexLt q (List.range part_locations.length) = false) ∧
    (∀ cur next : List Nat, nextPermutation cur = some next →
      next.Perm cur ∧ lexLt cur next = true ∧
      ∀ q : List Nat, q.Perm cur → lexLt cur q = true → lexLt q next = false) ∧
    (∀ cur : List Nat, nextPermutation cur = none →
      ∀ q : List Nat, q.Perm cur → lexLt cur q = false) ∧
    ∃ pickup_order shortest,
      determineShortestPath sqrt starting_point part_locations delivery_point
        = some pickup_order ∧
      pickup_order.Perm (List.range part_locations.length) ∧
      determinePathLength sqrt starting_point part_locations delivery_point pickup_order
        = some shortest ∧
      ∀ q : List Nat, q.Perm (List.range part_locations.length) →
        ∃ u, determinePathLength sqrt starting_point part_locations delivery_point q = some u ∧
          shortest ≤ u ∧ (u = shortest → lexLt q pickup_order = false) :=
  ⟨fun q hq => range_least _ q hq,
    fun cur next h => ⟨(nextPermutation_spec cur next h).1, (nextPermutation_spec cur next h).2,
      fun q hq hlt => nextPermutation_least cur next q h hq hlt⟩,
    fun cur h q hq => lexLt_descending_greatest cur q (nextPermutation_none cur h) hq,
    determineShortestPath_first_shortest sqrt starting_point delivery_point part_locations hne⟩

theorem determineShortestPath_lexicographically_first_witness :
    ([⟨1, 0⟩, ⟨-1, 0⟩] : List (Coordinates2D ℝ)) ≠ [] ∧
    ∃ pickup_order shortest,
      determineShortestPath Real.sqrt (⟨0, 0⟩ : Coordinates2D ℝ) [⟨1, 0⟩, ⟨-1, 0⟩] ⟨10, 0⟩
        = some pickup_order ∧
      pickup_order.Perm (List.range ([⟨1, 0⟩, ⟨-1, 0⟩] : List (Coordinates2D ℝ)).length) ∧
      determinePathLength Real.sqrt (⟨0, 0⟩ : Coordinates2D ℝ) [⟨1, 0⟩, ⟨-1, 0⟩] ⟨10, 0⟩
        pickup_order = some shortest ∧
      ∀ q : List Nat, q.Perm (List.range ([⟨1, 0⟩, ⟨-1, 0⟩] : List (Coordinates2D ℝ)).length) →
        ∃ u, determinePathLength Real.sqrt (⟨0, 0⟩ : Coordinates2D ℝ) [⟨1, 0⟩, ⟨-1, 0⟩]
            ⟨10, 0⟩ q = some u ∧
          shortest ≤ u ∧ (u = shortest → lexLt q pickup_order = false) :=
  ⟨by simp, (determineShortestPath_lexicographically_first Real.sqrt ⟨0, 0⟩ ⟨10, 0⟩
    [⟨1, 0⟩, ⟨-1, 0⟩] (by simp)).2.2.2⟩

end SearchLeast

end AMR

namespace AMR

/-! ## Binary64: the helper functions compute what they are meant to -/

theorem log2Width_spec (n : Nat) :
    ∀ (fuel k : Nat), n < 2 ^ 2 ^ (k + fuel) → n < 2 ^ 2 ^ log2Width n fuel k := by
  intro fuel
  induction fuel with
  | zero => intro k h; simpa [log2Width] using h
  | succ f ih =>
    intro k h
    unfold log2Width
    by_cases hk : n < 2 ^ 2 ^ k
    · simp [hk]
    · simp only [hk, if_false]
      apply ih
      have e : k + 1 + f = k + (f + 1) := by omega
      rw [e]
      exact h

theorem log2Bits_spec (n : Nat) :
    ∀ (i e : Nat), 2 ^ e ≤ n → n < 2 ^ (e + 2 ^ i) →
      2 ^ log2Bits n i e ≤ n ∧ n < 2 ^ (log2Bits n i e + 1) := by
  intro i
  induction i with
  | zero => intro e h1 h2; simpa [log2Bits] using ⟨h1, h2⟩
  | succ j ih =>
    intro e h1 h2
    unfold log2Bits
    by_cases hk : 2 ^ (e + 2 ^ j) ≤ n
    · simp only [hk, if_true]
      apply ih _ hk
      have e2 : e + 2 ^ j + 2 ^ j = e + 2 ^ (j + 1) := by rw [pow_succ]; omega
      rw [e2]
      exact h2
    · simp only [hk, if_false]
      exact ih e h1 (by omega)

theorem ilog2_spec (n : Nat) (hn : n ≠ 0) : 2 ^ ilog2 n ≤ n ∧ n < 2 ^ (ilog2 n + 1) := by
  unfold ilog2
  apply log2Bits_spec
  · simp; omega
  · rw [Nat.zero_add]
    apply log2Width_spec
    rw [Nat.zero_add]
    calc n < 2 ^ n := Nat.lt_two_pow n
      _ ≤ 2 ^ 2 ^ n := Nat.pow_le_pow_right (by decide) (Nat.lt_two_pow n).le

/-- Function `ilog2` is the binary logarithm of the library. -/
theorem ilog2_eq_log2 (n : Nat) : ilog2 n = Nat.log2 n := by
  rw [Nat.log2_eq_log_two]
  by_cases hn : n = 0
  · subst hn
    simp [ilog2, log2Width, log2Bits]
  · obtain ⟨h1, h2⟩ := ilog2_spec n hn
    exact (Nat.log_eq_of_pow_le_of_lt_pow h1 h2).symm

theorem isqrtLoop_spec (n : Nat) (hn : n ≠ 0) :
    ∀ (fuel x : Nat), x ≠ 0 → x ≤ fuel → n < (x + 1) * (x + 1) →
      isqrtLoop n fuel x * isqrtLoop n fuel x ≤ n ∧
        n < (isqrtLoop n fuel x + 1) * (isqrtLoop n fuel x + 1) := by
  intro fuel
  induction fuel with
  | zero => intro x hx hf; omega
  | succ f ih =>
    intro x hx hf hlt
    unfold isqrtLoop
    simp only
    have hxpos : 0 < x := Nat.pos_of_ne_zero hx
    have hq : n < x * (n / x + 1) := by
      have := Nat.lt_div_mul_add hxpos (a := n)
      calc n < n / x * x + x := this
        _ = x * (n / x + 1) := by ring
    by_cases hy : (x + n / x) / 2 < x
    · simp only [hy, if_true]
      have h2y : x + n / x < 2 * ((x + n / x) / 2) + 2 := by omega
      have hnew : n < ((x + n / x) / 2 + 1) * ((x + n / x) / 2 + 1) := by
        have hsq : 4 * (x * (n / x + 1)) ≤ (x + n / x + 1) * (x + n / x + 1) := by
          nlinarith [sq_nonneg ((x : Int) - (n / x : Nat) - 1)]
        have hle : (x + n / x + 1) * (x + n / x + 1)
            ≤ (2 * ((x + n / x) / 2 + 1)) * (2 * ((x + n / x) / 2 + 1)) :=
          Nat.mul_le_mul (by omega) (by omega)
        nlinarith
      have hy0 : (x + n / x) / 2 ≠ 0 := by
        intro h0
        rw [h0] at hnew
        omega
      exact ih _ hy0 (by omega) hnew
    · simp only [hy, if_false]
      refine ⟨?_, hlt⟩
      have hge : x ≤ n / x := by omega
      calc x * x ≤ n / x * x := Nat.mul_le_mul_right x hge
        _ ≤ n := Nat.div_mul_le_self n x

/-- Function `isqrt` is the integer square root of the library. -/
theorem isqrt_eq_sqrt (n : Nat) : isqrt n = Nat.sqrt n := by
  by_cases hn : n = 0
  · subst hn
    simp [isqrt]
  · obtain ⟨h1, h2⟩ := ilog2_spec n hn
    rw [Nat.eq_sqrt]
    unfold isqrt
    simp only [hn, if_false]
    apply isqrtLoop_spec n hn
    · exact (Nat.pos_pow_of_pos _ (by decide)).ne'
    · exact le_refl _
    · have hle : ilog2 n + 1 ≤ 2 * (ilog2 n / 2 + 1) := by omega
      have h3 : 2 ^ (ilog2 n + 1) ≤ 2 ^ (2 * (ilog2 n / 2 + 1)) :=
        Nat.pow_le_pow_right (by decide) hle
      have h4 : 2 ^ (2 * (ilog2 n / 2 + 1))
          = 2 ^ (ilog2 n / 2 + 1) * 2 ^ (ilog2 n / 2 + 1) := by
        rw [two_mul, pow_add]
      calc n < 2 ^ (ilog2 n / 2 + 1) * 2 ^ (ilog2 n / 2 + 1) := by omega
        _ ≤ (2 ^ (ilog2 n / 2 + 1) + 1) * (2 ^ (ilog2 n / 2 + 1) + 1) :=
          Nat.mul_le_mul (Nat.le_succ _) (Nat.le_succ _)

/-- The result of `roundHalfEven` is a nearest integer to `n / 2 ^ shift`: it is
at most half a step away, and even when exactly half a step away. -/
theorem roundHalfEven_nearest (n shift : Nat) :
    2 * ((roundHalfEven n shift : Int) * 2 ^ shift - n) ≤ 2 ^ shift ∧
    2 * ((n : Int) - roundHalfEven n shift * 2 ^ shift) ≤ 2 ^ shift ∧
    ((2 * ((roundHalfEven n shift : Int) * 2 ^ shift - n) = 2 ^ shift ∨
        2 * ((n : Int) - roundHalfEven n shift * 2 ^ shift) = 2 ^ shift) →
      roundHalfEven n shift % 2 = 0) := by
  have hpos : 0 < 2 ^ shift := Nat.pos_pow_of_pos _ (by decide)
  have hpz : ((2 : Int) ^ shift) = ((2 ^ shift : Nat) : Int) := by push_cast; rfl
  unfold roundHalfEven
  simp only
  rw [hpz]
  generalize 2 ^ shift = p at hpos ⊢
  have hdiv : p * (n / p) + n % p = n := Nat.div_add_mod n p
  have hmod : n % p < p := Nat.mod_lt _ hpos
  generalize n / p = q at hdiv ⊢
  generalize n % p = r at hdiv hmod ⊢
  have hnz : (n : Int) = q * p + r := by rw [← hdiv]; push_cast; ring
  rw [hnz]
  have hmodz : (r : Int) < p := by exact_mod_cast hmod
  have hrz : (0 : Int) ≤ r := Int.ofNat_nonneg r
  by_cases hc : p < 2 * r ∨ (p = 2 * r ∧ q % 2 = 1)
  · rw [if_pos hc]
    have h1 : (p : Int) ≤ 2 * r := by
      rcases hc with h | ⟨h, _⟩ <;> omega
    have e : ((q + 1 : Nat) : Int) * p = q * p + p := by push_cast; ring
    rw [e]
    refine ⟨by linarith, by linarith, ?_⟩
    intro heq
    rcases hc with hc | ⟨_, hc2⟩
    · have hc' : (p : Int) < 2 * r := by exact_mod_cast hc
      rcases heq with heq | heq <;> · exfalso; linarith
    · omega
  · rw [if_neg hc]
    have hc' : 2 * r ≤ p ∧ (p = 2 * r → q % 2 = 0) := by
      constructor
      · by_contra h; exact hc (Or.inl (by omega))
      · intro h; by_contra h2; exact hc (Or.inr ⟨h, by omega⟩)
    have h1 : 2 * (r : Int) ≤ p := by exact_mod_cast hc'.1
    refine ⟨by linarith, by linarith, ?_⟩
    intro heq
    apply hc'.2
    rcases heq with heq | heq
    · exfalso; linarith
    · have : (p : Int) = 2 * r := by linarith
      exact_mod_cast this

end AMR

namespace AMR

/-! ## The delivery point in binary64 -/

/-- Known results of binary64 arithmetic, computed by the model: 0.1 + 0.2 is
0.30000000000000004; the square root of 2; `1 + 2^(-53)` is a tie and rounds to
the even neighbour 1; the largest finite number, its double and its square;
infinity is not below the largest finite number; the product of the two least
subnormal numbers rounds to zero. -/
theorem binary64_known_values :
    Double.add (Double.ofBits 0x3FB999999999999A) (Double.ofBits 0x3FC999999999999A)
      = Double.ofBits 0x3FD3333333333334 ∧
    Double.sqrt (Double.ofBits 0x4000000000000000) = Double.ofBits 0x3FF6A09E667F3BCD ∧
    Double.add (Double.ofBits 0x3FF0000000000000) (Double.ofBits 0x3CA0000000000000)
      = Double.ofBits 0x3FF0000000000000 ∧
    Double.max = Double.ofBits 0x7FEFFFFFFFFFFFFF ∧
    Double.add Double.max Double.max = Double.infinity false ∧
    Double.mul Double.max Double.max = Double.infinity false ∧
    Double.lt (Double.infinity false) Double.max = false ∧
    Double.mul (Double.ofBits 1) (Double.ofBits 1) = Double.ofBits 0 := by
  decide!

/-- Further results of the model, each equal to what binary64 hardware computes
(operands and results as bit patterns): sums with cancellation, with absorption
and next to the subnormal range, products that round, underflow or overflow,
square roots of normal and subnormal numbers. -/
theorem binary64_sample_operations :
    Double.add (Double.ofBits 0x3FB999999999999A) (Double.ofBits 0x3FE6666666666666)
      = Double.ofBits 0x3FE9999999999999 ∧
    Double.add (Double.ofBits 0x4341C37937E08000) (Double.ofBits 0x3FF0000000000000)
      = Double.ofBits 0x4341C37937E08000 ∧
    Double.add (Double.ofBits 0x4341C37937E08000) (Double.ofBits 0x4008000000000000)
      = Double.ofBits 0x4341C37937E08002 ∧
    Double.add (Double.ofBits 0xBFF8000000000000) (Double.ofBits 0x3FF8000000000001)
      = Double.ofBits 0x3CB0000000000000 ∧
    Double.add (Double.ofBits 0x000FFFFFFFFFFFFF) (Double.ofBits 0x0000000000000001)
      = Double.ofBits 0x0010000000000000 ∧
    Double.add (Double.ofBits 0x7FEFFFFFFFFFFFFF) (Double.ofBits 0x7C90000000000000)
      = Double.ofBits 0x7FF0000000000000 ∧
    Double.add (Double.ofBits 0x400921FB54442D18) (Double.ofBits 0xC005BF0A8B145769)
      = Double.ofBits 0x3FDB1786497EAD78 ∧
    Double.add (Double.ofBits 0x0010000000000000) (Double.ofBits 0x800FFFFFFFFFFFFF)
      = Double.ofBits 0x0000000000000001 ∧
    Double.sub (Double.ofBits 0x3FF0000000000000) (Double.ofBits 0x3C90000000000000)
      = Double.ofBits 0x3FF0000000000000 ∧
    Double.sub (Double.ofBits 0x3FF0000000000000) (Double.ofBits 0x3CA0000000000000)
      = Double.ofBits 0x3FEFFFFFFFFFFFFF ∧
    Double.sub (Double.ofBits 0x3FD3333333333333) (Double.ofBits 0x3FB999999999999A)
      = Double.ofBits 0x3FC9999999999999 ∧
    Double.mul (Double.ofBits 0x3FB999999999999A) (Double.ofBits 0x3FB999999999999A)
      = Double.ofBits 0x3F847AE147AE147C ∧
    Double.mul (Double.ofBits 0x3FF0000000000001) (Double.ofBits 0x3FF0000000000001)
      = Double.ofBits 0x3FF0000000000002 ∧
    Double.mul (Double.ofBits 0x4008000000000000) (Double.ofBits 0x0000000000000003)
      = Double.ofBits 0x0000000000000009 ∧
    Double.mul (Double.ofBits 0x0008000000000000) (Double.ofBits 0x3FE0000000000000)
      = Double.ofBits 0x0004000000000000 ∧
    Double.mul (Double.ofBits 0x6974E718D7D7625A) (Double.ofBits 0x6974E718D7D7625A)
      = Double.ofBits 0x7FF0000000000000 ∧
    Double.mul (Double.ofBits 0x96687E92154EF7AC) (Double.ofBits 0x16687E92154EF7AC)
      = Double.ofBits 0x8000000000000000 ∧
    Double.mul (Double.ofBits 0x7FEFFFFFFFFFFFFF) (Double.ofBits 0x3FEFFFFFFFFFFFFF)
      = Double.ofBits 0x7FEFFFFFFFFFFFFE ∧
    Double.mul (Double.ofBits 0x419D6F34547DF3B6) (Double.ofBits 0xC1CD6F3458FE5604)
      = Double.ofBits 0xC37B131150A804C5 ∧
    Double.sqrt (Double.ofBits 0x4008000000000000)
      = Double.ofBits 0x3FFBB67AE8584CAA ∧
    Double.sqrt (Double.ofBits 0x3FE0000000000000)
      = Double.ofBits 0x3FE6A09E667F3BCD ∧
    Double.sqrt (Double.ofBits 0x00000000000007E8)
      = Double.ofBits 0x1EB67E93DDBC0E73 ∧
    Double.sqrt (Double.ofBits 0x4000000000000001)
      = Double.ofBits 0x3FF6A09E667F3BCD ∧
    Double.sqrt (Double.ofBits 0x7FEFFFFFFFFFFFFF)
      = Double.ofBits 0x5FEFFFFFFFFFFFFF ∧
    Double.sqrt (Double.ofBits 0x0000000000000001)
      = Double.ofBits 0x1E60000000000000 ∧
    Double.sqrt (Double.ofBits 0x4132D68700000000)
      = Double.ofBits 0x40915C715CCC111D ∧
    Double.sqrt (Double.ofBits 0x3FB999999999999A)
      = Double.ofBits 0x3FD43D136248490F := by
  decide!

end AMR

namespace AMR

/-! ## The delivery point and the planned order in exact arithmetic -/

section DeliveryIndependence

variable {K : Type} [LinearOrderedField K]

theorem determinePathLength_split (sqrt : K → K)
    (starting_point delivery_point other_delivery : Coordinates2D K)
    (part_locations : List (Coordinates2D K)) (back : Coordinates2D K)
    (hback : part_locations.getLast? = some back) (pickup_order : List Nat) :
    determinePathLength sqrt starting_point part_locations delivery_point pickup_order
      = (determinePathLength sqrt starting_point part_locations other_delivery
          pickup_order).map
          (fun length => length - segmentLength sqrt back other_delivery
            + segmentLength sqrt back delivery_point) := by
  cases h0 : pickup_order[0]? with
  | none => simp [determinePathLength, h0]
  | some i0 =>
    cases h1 : part_locations[i0]? with
    | none => simp [determinePathLength, h0, h1]
    | some first =>
      cases h2 : addInnerSegments sqrt part_locations pickup_order
          (segmentLength sqrt starting_point first) with
      | none => simp [determinePathLength, h0, h1, h2]
      | some path_length => simp [determinePathLength, h0, h1, h2, hback]

theorem searchLoop_shift (base : List Nat → Option K) (c₁ c₂ : K) :
    ∀ (fuel : Nat) (cur best : List Nat) (shortest : Option K),
      searchLoop (fun q => (base q).map (fun l => l + c₁)) fuel cur best
          (shortest.map (fun l => l + c₁))
        = searchLoop (fun q => (base q).map (fun l => l + c₂)) fuel cur best
          (shortest.map (fun l => l + c₂)) := by
  intro fuel
  induction fuel with
  | zero => intro cur best shortest; rfl
  | succ n ih =>
    intro cur best shortest
    cases hb : base cur with
    | none => simp [searchLoop, hb]
    | some l =>
      have hcmp : belowShortest (l + c₁) (shortest.map (fun l => l + c₁))
          = belowShortest (l + c₂) (shortest.map (fun l => l + c₂)) := by
        cases shortest with
        | none => rfl
        | some s => simp [belowShortest]
      simp only [searchLoop, hb, Option.map_some']
      rw [hcmp]
      cases hn : nextPermutation cur with
      | none => rfl
      | some next =>
        by_cases hbetter : belowShortest (l + c₂) (shortest.map (fun l => l + c₂)) = true
        · simp only [hbetter, if_true]
          exact ih next cur (some l)
        · simp only [hbetter, if_false]
          exact ih next best shortest

/-- In exact arithmetic the lengths for two delivery points differ, for every
order alike, by the difference of the two last segments, and the planned order
is the same for any two delivery points. -/
theorem determineShortestPath_delivery_irrelevant (sqrt : K → K)
    (starting_point first_delivery second_delivery : Coordinates2D K)
    (part_locations : List (Coordinates2D K)) :
    determineShortestPath sqrt starting_point part_locations first_delivery
      = determineShortestPath sqrt starting_point part_locations second_delivery := by
  cases hlast : part_locations.getLast? with
  | none =>
    have hnil : part_locations = [] := by
      cases part_locations with
      | nil => rfl
      | cons a t => simp [List.getLast?] at hlast
    subst hnil
    rfl
  | some back =>
    have h1 := determinePathLength_split sqrt starting_point first_delivery back
      part_locations back hlast
    have h2 := determinePathLength_split sqrt starting_point second_delivery back
      part_locations back hlast
    have hshift := searchLoop_shift
      (fun q => (determinePathLength sqrt starting_point part_locations back q).map
        (fun l => l - segmentLength sqrt back back))
      (segmentLength sqrt back first_delivery) (segmentLength sqrt back second_delivery)
      part_locations.length.factorial (List.range part_locations.length)
      (List.range part_locations.length) none
    simp only [Option.map_map, Option.map_none'] at hshift
    unfold determineShortestPath
    have e1 : determinePathLength sqrt starting_point part_locations first_delivery
        = fun q => (determinePathLength sqrt starting_point part_locations back q).map
          ((fun l => l + segmentLength sqrt back first_delivery) ∘
            (fun l => l - segmentLength sqrt back back)) := by
      funext q
      rw [h1 q]
      rfl
    have e2 : determinePathLength sqrt starting_point part_locations second_delivery
        = fun q => (determinePathLength sqrt starting_point part_locations back q).map
          ((fun l => l + segmentLength sqrt back second_delivery) ∘
            (fun l => l - segmentLength sqrt back back)) := by
      funext q
      rw [h2 q]
      rfl
    rw [e1, e2]
    exact hshift

end DeliveryIndependence

end AMR

namespace AMR

/-! ## The delivery point in binary64, equal orders: claim C22 -/

end AMR

namespace AMR

end AMR

namespace AMR

/-! ## One order file: claim C25 -/

section SingleFile

variable {K : Type}

end SingleFile

end AMR

namespace AMR

end AMR

namespace AMR

/-! ## The message callback: claims C20, C21 -/

section CallbackFacts

variable {K : Type} [LinearOrderedField K]

theorem mqttMessageCallback_wellformed_order (task_queue : TaskQueue (Task K))
    (order_id : Nat) (description : String) (cout : List String) :
    mqttMessageCallback task_queue
        { topic := "/AmrUnit/nextOrder", payloadlen := 1,
          payload := YamlDocument.mapping
            [("order_id", { asUInt32 := some order_id, asDouble := none, asString := none }),
             ("description", { asUInt32 := none, asDouble := none,
                               asString := some description })] } cout
      = Except.ok ({ queue := task_queue.queue ++ [Task.order order_id description],
                     shutdown := task_queue.shutdown }, cout) := by
  simp [mqttMessageCallback, handleNextOrder, yamlLookup, warnUnexpectedKeys, TaskQueue.push]

theorem mqttMessageCallback_missing_field (task_queue : TaskQueue (Task K))
    (description : String) (cout : List String) :
    mqttMessageCallback task_queue
        { topic := "/AmrUnit/nextOrder", payloadlen := 1,
          payload := YamlDocument.mapping
            [("description", { asUInt32 := none, asDouble := none,
                               asString := some description })] } cout
      = Except.ok (task_queue,
          cout ++ ["Error: Key 'order_id' in message for topic /AmrUnit/nextOrder is missing"])
      := by
  simp [mqttMessageCallback, handleNextOrder, yamlLookup, warnUnexpectedKeys]

/-- C20 (code evaluated at failing inputs): a next-order record whose `order_id`
is present but not a number makes `as<uint32_t>()` throw `YAML::BadConversion`;
a position update whose `x` is not a number does the same in `as<double>()`; a
payload that is a plain scalar makes `msg_yaml["order_id"]` throw
`YAML::BadSubscript`.  The handlers catch `YAML::ParserException` only, so each
of these exceptions leaves the callback and no task is appended. -/
theorem mqttMessageCallback_uncaught_exception (task_queue : TaskQueue (Task K))
    (cout : List String) :
    mqttMessageCallback task_queue
        { topic := "/AmrUnit/nextOrder", payloadlen := 36,
          payload := YamlDocument.mapping
            [("order_id", { asUInt32 := none, asDouble := none, asString := some "abc" }),
             ("description", { asUInt32 := none, asDouble := none, asString := some "x" })] }
        cout
      = Except.error Uncaught.badConversion ∧
    mqttMessageCallback task_queue
        { topic := "/AmrUnit/currentPosition", payloadlen := 16,
          payload := YamlDocument.mapping
            [("x", { asUInt32 := none, asDouble := none, asString := some "abc" }),
             ("y", { asUInt32 := some 1, asDouble := some 1, asString := some "1" })] }
        cout
      = Except.error Uncaught.badConversion ∧
    mqttMessageCallback task_queue
        { topic := "/AmrUnit/nextOrder", payloadlen := 5, payload := YamlDocument.scalar }
        cout
      = Except.error Uncaught.badSubscript := by
  refine ⟨?_, ?_, ?_⟩
  · simp [mqttMessageCallback, handleNextOrder, yamlLookup]
  · simp [mqttMessageCallback, handleCurrentPosition, readCoordinate, yamlLookup]
  · simp [mqttMessageCallback, handleNextOrder]

/-- C21: for every queue state and every payload, empty or not, a message on the
shutdown topic returns normally with the shutdown flag true and the task
sequence unchanged, no task being created and nothing printed; a second such
message leaves that state as it is. -/
theorem mqttMessageCallback_shutdown (task_queue : TaskQueue (Task K)) (payloadlen : Nat)
    (payload : YamlDocument K) (cout : List String) :
    mqttMessageCallback task_queue
        { topic := "/AmrUnit/shutdown", payloadlen := payloadlen, payload := payload } cout
      = Except.ok ({ queue := task_queue.queue, shutdown := true }, cout) ∧
    ∀ (second_payloadlen : Nat) (second_payload : YamlDocument K),
      mqttMessageCallback { queue := task_queue.queue, shutdown := true }
          { topic := "/AmrUnit/shutdown", payloadlen := second_payloadlen,
            payload := second_payload } cout
        = Except.ok ({ queue := task_queue.queue, shutdown := true }, cout) := by
  constructor
  · simp [mqttMessageCallback, TaskQueue.requestShutdown]
  · intro second_payloadlen second_payload
    simp [mqttMessageCallback, TaskQueue.requestShutdown]

end CallbackFacts

end AMR

namespace AMR

/-! ## Units in the pick list and fetch lines in the report -/

section Units

theorem totalUnits_emplace (m : ProcessedProductParts) (k : Int) (v : List (Int × Int))
    (h : IdMap.find m k = none) :
    totalUnits (IdMap.emplace m k v) = totalUnits m + unitsOf v := by
  induction m with
  | nil => simp [IdMap.emplace, totalUnits]
  | cons a rest ih =>
    obtain ⟨k0, v0⟩ := a
    have hk0 : ¬ k0 = k := by
      intro e
      simp [IdMap.find, e] at h
    have hrest : IdMap.find rest k = none := by
      simpa [IdMap.find, hk0] using h
    have hk0' : ¬ k = k0 := fun e => hk0 e.symm
    unfold IdMap.emplace
    by_cases hlt : k < k0
    · simp only [hlt, if_true, totalUnits, List.map_cons, List.sum_cons]
      omega
    · simp only [hlt, hk0', if_false]
      have := ih hrest
      simp only [totalUnits, List.map_cons, List.sum_cons] at this ⊢
      omega

theorem totalUnits_modify (m : ProcessedProductParts) (k : Int) (entry : Int × Int)
    (old : List (Int × Int)) (h : IdMap.find m k = some old) :
    totalUnits (IdMap.modify m k (fun info => info ++ [entry]))
      = totalUnits m + entry.2.toNat := by
  induction m with
  | nil => simp [IdMap.find] at h
  | cons a rest ih =>
    obtain ⟨k0, v0⟩ := a
    unfold IdMap.modify
    by_cases h0 : k0 = k
    · simp only [h0, if_true, totalUnits, List.map_cons, List.sum_cons, unitsOf,
        List.map_append, List.sum_append, List.map_nil, List.sum_nil]
      omega
    · have hrest : IdMap.find rest k = some old := by
        simpa [IdMap.find, h0] using h
      have := ih hrest
      simp only [h0, if_false, totalUnits, List.map_cons, List.sum_cons] at this ⊢
      omega

theorem totalUnits_addPart (pid : Int) (m : ProcessedProductParts) (part : Int × Int) :
    totalUnits (addPart pid m part) = totalUnits m + part.2.toNat := by
  unfold addPart
  cases hf : IdMap.find m part.1 with
  | none =>
    simp only [hf]
    rw [totalUnits_emplace m part.1 _ hf]
    simp [unitsOf]
  | some old =>
    simp only [hf]
    exact totalUnits_modify m part.1 (pid, part.2) old hf

theorem totalUnits_addProductParts (pid : Int) (parts : List (Int × Int)) :
    ∀ (m : ProcessedProductParts),
      totalUnits (addProductParts pid parts m)
        = totalUnits m + (parts.map (fun kv => kv.2.toNat)).sum := by
  induction parts with
  | nil => intro m; simp [addProductParts]
  | cons part rest ih =>
    intro m
    simp only [addProductParts, List.map_cons, List.sum_cons]
    rw [ih, totalUnits_addPart]
    omega

theorem totalUnits_processLoop (all_products : List Product) :
    ∀ (ordered_products : List Int) (m m' : ProcessedProductParts),
      processLoop all_products ordered_products m = some m' →
      totalUnits m' = totalUnits m + (ordered_products.map (fun id =>
        match vectorAt all_products id with
        | some product => (product.parts.map (fun kv => kv.2.toNat)).sum
        | none => 0)).sum := by
  intro ordered_products
  induction ordered_products with
  | nil =>
    intro m m' h
    simp only [processLoop, Option.some.injEq] at h
    simp [h]
  | cons id rest ih =>
    intro m m' h
    cases hp : vectorAt all_products id with
    | none => simp [processLoop, hp] at h
    | some product =>
      simp only [processLoop, hp] at h
      rw [ih _ _ h, totalUnits_addProductParts]
      simp only [List.map_cons, List.sum_cons, hp]
      omega

theorem IdMap.find_getElem_of_nodup {V : Type} :
    ∀ (m : IdMap V), (IdMap.keys m).Nodup → ∀ (i : Nat) (kv : Int × V),
      m[i]? = some kv → IdMap.find m kv.1 = some kv.2 := by
  intro m
  induction m with
  | nil => intro _ i kv h; simp at h
  | cons a rest ih =>
    intro hnd i kv h
    obtain ⟨k0, v0⟩ := a
    have hnd' : k0 ∉ IdMap.keys rest ∧ (IdMap.keys rest).Nodup := by
      simpa [IdMap.keys] using hnd
    cases i with
    | zero =>
      simp only [List.getElem?_cons_zero, Option.some.injEq] at h
      subst h
      simp [IdMap.find]
    | succ j =>
      simp only [List.getElem?_cons_succ] at h
      have hmem : kv.1 ∈ IdMap.keys rest :=
        List.mem_map.mpr ⟨kv, mem_of_getElem?_some rest j kv h, rfl⟩
      have hne : ¬ k0 = kv.1 := fun e => hnd'.1 (e ▸ hmem)
      simp only [IdMap.find, hne, if_false]
      exact ih hnd'.2 j kv h

theorem sum_toNat_eq_sum (l : List (Int × Int)) (h : ∀ kv ∈ l, 0 ≤ kv.2) :
    (((l.map (fun kv => kv.2.toNat)).sum : Nat) : Int) = (l.map (fun kv => kv.2)).sum := by
  induction l with
  | nil => simp
  | cons a rest ih =>
    have h0 := h a (by simp)
    have hrest := ih (fun kv hkv => h kv (List.mem_cons_of_mem _ hkv))
    simp only [List.map_cons, List.sum_cons, Nat.cast_add]
    rw [hrest, Int.toNat_of_nonneg h0]

end Units

end AMR

namespace AMR

section ReportCount

variable {K : Type}

theorem printPartEntries_count (fmt : K → String) (all_product_parts : List (ProductPart K))
    (part_id : Int) (part : ProductPart K) (hpart : vectorAt all_product_parts part_id = some part)
    (entries : List (Int × Int)) (stream : List String) :
    ∃ lines, printPartEntries fmt all_product_parts part_id entries stream
        = some (stream ++ lines) ∧
      lines.length = unitsOf entries ∧
      ∀ line ∈ lines, ∃ product_id,
        line = fetchingLine fmt part.name product_id part.coords := by
  refine ⟨_, printPartEntries_eq fmt all_product_parts part_id part hpart entries stream, ?_, ?_⟩
  · induction entries with
    | nil => simp [unitsOf]
    | cons e rest ih =>
      simp only [List.flatMap_cons, List.length_append, List.length_replicate, unitsOf,
        List.map_cons, List.sum_cons] at ih ⊢
      rw [ih]
  · intro line hline
    obtain ⟨entry, _, hmem⟩ := List.mem_flatMap.mp hline
    exact ⟨entry.1, List.eq_of_mem_replicate hmem⟩

theorem printWaypoints_count (fmt : K → String) (processed_product_parts : ProcessedProductParts)
    (position_to_key : List Int) (all_product_parts : List (ProductPart K)) :
    ∀ (pickup_order : List Nat),
      (∀ i ∈ pickup_order, ∃ kv part, processed_product_parts[i]? = some kv ∧
        position_to_key[i]? = some kv.1 ∧ vectorAt all_product_parts kv.1 = some part ∧
        IdMap.find processed_product_parts kv.1 = some kv.2) →
      ∀ stream, ∃ lines,
        printWaypoints fmt processed_product_parts position_to_key all_product_parts
          pickup_order stream = some (stream ++ lines) ∧
        lines.length = (pickup_order.map (fun i =>
          match processed_product_parts[i]? with
          | some kv => unitsOf kv.2
          | none => 0)).sum ∧
        ∀ line ∈ lines, ∃ part ∈ all_product_parts, ∃ product_id,
          line = fetchingLine fmt part.name product_id part.coords := by
  intro pickup_order
  induction pickup_order with
  | nil => intro _ stream; exact ⟨[], by simp [printWaypoints], by simp, by simp⟩
  | cons i rest ih =>
    intro h stream
    obtain ⟨kv, part, h1, h2, h3, h4⟩ := h i (by simp)
    obtain ⟨lines1, hl1, hlen1, hfetch1⟩ :=
      printPartEntries_count fmt all_product_parts kv.1 part h3 kv.2 stream
    obtain ⟨lines2, hl2, hlen2, hfetch2⟩ :=
      ih (fun j hj => h j (List.mem_cons_of_mem _ hj)) (stream ++ lines1)
    refine ⟨lines1 ++ lines2, ?_, ?_, ?_⟩
    · simp [printWaypoints, h2, h4, hl1, hl2, List.append_assoc]
    · simp [hlen1, hlen2, h1]
    · intro line hline
      rcases List.mem_append.mp hline with hl | hl
      · obtain ⟨product_id, hp⟩ := hfetch1 line hl
        exact ⟨part, vectorAt_mem _ _ _ h3, product_id, hp⟩
      · exact hfetch2 line hl

theorem sum_range_getElem (l : ProcessedProductParts) :
    ((List.range l.length).map (fun i =>
      match l[i]? with
      | some kv => unitsOf kv.2
      | none => 0)).sum = totalUnits l := by
  induction l with
  | nil => simp [totalUnits]
  | cons a rest ih =>
    rw [List.length_cons, List.range_succ_eq_map, List.map_cons, List.map_map]
    simp only [List.getElem?_cons_zero, List.sum_cons, totalUnits, List.map_cons]
    simp only [totalUnits] at ih
    rw [← ih]
    congr 2
    apply List.map_congr_left
    intro i _
    simp [Function.comp]

theorem order_lookups_in_range (all_products : List Product)
    (all_product_parts : List (ProductPart K)) (ordered_products : List Int)
    (hwf : ∀ product ∈ all_products, IdMap.WF product.parts)
    (hvalid : ∀ id ∈ ordered_products, 0 ≤ id ∧ id < (all_products.length : Int))
    (hparts : ∀ product ∈ all_products, ∀ q ∈ IdMap.keys product.parts,
      0 ≤ q ∧ q < (all_product_parts.length : Int)) :
    ∃ processed, processOrderedProducts ordered_products all_products = some processed ∧
      IdMap.WF processed ∧
      (∀ key ∈ IdMap.keys processed, ∃ part, vectorAt all_product_parts key = some part) ∧
      ∀ i, i < processed.length → ∃ kv part, processed[i]? = some kv ∧
        (IdMap.keys processed)[i]? = some kv.1 ∧ vectorAt all_product_parts kv.1 = some part ∧
        IdMap.find processed kv.1 = some kv.2 := by
  obtain ⟨processed, hproc, hwfp, _, hkeys⟩ :=
    processOrderedProducts_find_keys all_products ordered_products hwf hvalid
  have hkeypart : ∀ key ∈ IdMap.keys processed,
      ∃ part, vectorAt all_product_parts key = some part := by
    intro key hkey
    obtain ⟨id, _, product, hprod, hq⟩ := (hkeys key).mp hkey
    obtain ⟨h0, h1⟩ := hparts product (vectorAt_mem _ _ _ hprod) key hq
    obtain ⟨part, hpart, _⟩ := vectorAt_of_valid all_product_parts key h0 h1
    exact ⟨part, hpart⟩
  refine ⟨processed, hproc, hwfp, hkeypart, ?_⟩
  intro i hi
  have hget : processed[i]? = some processed[i] := List.getElem?_eq_getElem hi
  have hkey : (IdMap.keys processed)[i]? = some processed[i].1 := by
    simp [IdMap.keys, List.getElem?_map, hget]
  have hmem : processed[i].1 ∈ IdMap.keys processed :=
    List.mem_map.mpr ⟨processed[i], List.getElem_mem hi, rfl⟩
  obtain ⟨part, hpart⟩ := hkeypart _ hmem
  have hnodup : (IdMap.keys processed).Nodup := hwfp.imp (fun h => ne_of_lt h)
  exact ⟨processed[i], part, hget, hkey, hpart,
    IdMap.find_getElem_of_nodup processed hnodup i processed[i] hget⟩

/-- C23: let the catalog be well formed and the ordered product ids be valid
catalog indices, let `processOrderedProducts` give the pick list and let the
pickup order be a permutation of the waypoint indices of that pick list.  Then
`printDeliveryPath` writes, between the starting line and the delivery line,
only fetch lines, and their number is the sum over the ordered product ids, with
repetition, of the quantities in that product's parts map (a quantity below 0
counting as 0; with quantities that are not negative, the sum of the quantities). -/
theorem report_fetch_line_count (fmt : K → String) (all_products : List Product)
    (all_product_parts : List (ProductPart K)) (ordered_products : List Int)
    (processed : ProcessedProductParts) (pickup_order : List Nat)
    (starting_point delivery_point : Coordinates2D K) (stream : List String)
    (hwf : ∀ product ∈ all_products, IdMap.WF product.parts)
    (hvalid : ∀ id ∈ ordered_products, 0 ≤ id ∧ id < (all_products.length : Int))
    (hparts : ∀ product ∈ all_products, ∀ q ∈ IdMap.keys product.parts,
      0 ≤ q ∧ q < (all_product_parts.length : Int))
    (hprocessed : processOrderedProducts ordered_products all_products = some processed)
    (horder : pickup_order.Perm (List.range processed.length)) :
    ∃ fetch_lines,
      printDeliveryPath fmt starting_point delivery_point pickup_order processed
          (IdMap.keys processed) all_product_parts stream
        = some (stream ++ [startingLine fmt starting_point] ++ fetch_lines
            ++ [deliveringLine fmt delivery_point]) ∧
      (∀ line ∈ fetch_lines, ∃ part ∈ all_product_parts, ∃ product_id,
        line = fetchingLine fmt part.name product_id part.coords) ∧
      fetch_lines.length = (ordered_products.map (fun id =>
        match vectorAt all_products id with
        | some product => (product.parts.map (fun kv => kv.2.toNat)).sum
        | none => 0)).sum ∧
      ((∀ product ∈ all_products, ∀ kv ∈ product.parts, 0 ≤ kv.2) →
        (fetch_lines.length : Int) = (ordered_products.map (fun id =>
          match vectorAt all_products id with
          | some product => (product.parts.map (fun kv => kv.2)).sum
          | none => 0)).sum) := by
  obtain ⟨processed', hproc', _, _, hlook⟩ := order_lookups_in_range all_products
    all_product_parts ordered_products hwf hvalid hparts
  rw [hprocessed] at hproc'
  obtain rfl := Option.some.inj hproc'
  obtain ⟨lines, hlines, hlen, hfetch⟩ := printWaypoints_count fmt processed
    (IdMap.keys processed) all_product_parts pickup_order
    (fun i hi => hlook i (List.mem_range.mp (horder.subset hi)))
    (stream ++ [startingLine fmt starting_point])
  have hcount : lines.length = (ordered_products.map (fun id =>
      match vectorAt all_products id with
      | some product => (product.parts.map (fun kv => kv.2.toNat)).sum
      | none => 0)).sum := by
    rw [hlen, (horder.map _).sum_eq, sum_range_getElem]
    have := totalUnits_processLoop all_products ordered_products [] processed hprocessed
    simpa [totalUnits] using this
  refine ⟨lines, by simp [printDeliveryPath, hlines], hfetch, hcount, ?_⟩
  intro hnonneg
  rw [hcount]
  clear hcount hlen hlines hfetch horder hlook hprocessed hvalid
  induction ordered_products with
  | nil => simp
  | cons id rest ih =>
    simp only [List.map_cons, List.sum_cons, Nat.cast_add]
    rw [ih]
    cases hp : vectorAt all_products id with
    | none => simp
    | some product =>
      simp only
      rw [sum_toNat_eq_sum product.parts (hnonneg product (vectorAt_mem _ _ _ hp))]

end ReportCount

end AMR

namespace AMR

theorem report_fetch_line_count_witness :
    ∃ fetch_lines,
      printDeliveryPath (fun _ : ℝ => "?") { x := 0, y := 0 } { x := 3, y := 0 } [2, 0, 1]
          [(0, [(1, 2), (3, 2), (1, 2)]), (1, [(1, 2), (1, 2)]), (2, [(3, 1)])]
          [0, 1, 2] sampleParts []
        = some ([] ++ [startingLine (fun _ : ℝ => "?") { x := 0, y := 0 }] ++ fetch_lines
            ++ [deliveringLine (fun _ : ℝ => "?") { x := 3, y := 0 }]) ∧
      fetch_lines.length = 11 := by
  have hvalid : ∀ id ∈ ([1, 3, 1] : List Int), 0 ≤ id ∧ id < (sampleProducts.length : Int) := by
    intro id h
    simp only [List.mem_cons, List.mem_singleton, List.not_mem_nil, or_false] at h
    rcases h with rfl | rfl | rfl <;> simp [sampleProducts]
  obtain ⟨lines, h1, _, h3, _⟩ := report_fetch_line_count (fun _ : ℝ => "?") sampleProducts
    sampleParts [1, 3, 1]
    [(0, [(1, 2), (3, 2), (1, 2)]), (1, [(1, 2), (1, 2)]), (2, [(3, 1)])] [2, 0, 1]
    { x := 0, y := 0 } { x := 3, y := 0 } [] sampleProducts_WF hvalid
    (sampleProducts_part_ids ℝ) (by decide) (by decide)
  exact ⟨lines, h1, by rw [h3]; decide⟩

end AMR

namespace AMR

/-! ## The catalog built by the parser: claim C24 -/

section Catalog

variable {K : Type}

theorem WF_countPart (m : IdMap Int) (part_id : Int) (h : IdMap.WF m) :
    IdMap.WF (countPart m part_id) := by
  unfold countPart
  cases hf : IdMap.find m part_id with
  | none => simpa [hf] using IdMap.WF_emplace m part_id 1 h
  | some quantity =>
    simp only [hf]
    unfold IdMap.WF
    rw [IdMap.keys_modify]
    exact h

theorem WF_parseParts (entries : List (PartRecord K)) :
    ∀ (m : IdMap Int) (l : List (ProductPart K)),
      IdMap.WF m → IdMap.WF (parseParts entries m l).1 := by
  induction entries with
  | nil => intro m l h; exact h
  | cons e rest ih => intro m l h; exact ih _ _ (WF_countPart m _ h)

theorem exists_last_with_id (i : Int) :
    ∀ (records : List (ProductRecord K)), (∃ r ∈ records, r.id = i) →
      ∃ before record after, records = before ++ record :: after ∧ record.id = i ∧
        ∀ r ∈ after, r.id ≠ i := by
  intro records
  induction records with
  | nil => rintro ⟨r, hr, _⟩; simp at hr
  | cons a rest ih =>
    intro h
    by_cases hrest : ∃ r ∈ rest, r.id = i
    · obtain ⟨before, record, after, hsplit, hid, hafter⟩ := ih hrest
      exact ⟨a :: before, record, after, by rw [hsplit]; rfl, hid, hafter⟩
    · obtain ⟨r, hr, hid⟩ := h
      rcases List.mem_cons.mp hr with rfl | hr
      · exact ⟨[], r, rest, rfl, hid, fun r' hr' he => hrest ⟨r', hr', he⟩⟩
      · exact absurd ⟨r, hr, hid⟩ hrest

theorem initial_products_no_parts (n : Nat) :
    ∀ product ∈ namePlaceholder (resizeProducts [] n), product.parts = [] := by
  intro product h
  cases n with
  | zero => simp [resizeProducts, namePlaceholder] at h
  | succ k =>
    simp only [resizeProducts, List.take_nil, List.length_nil, Nat.sub_zero, List.nil_append,
      List.replicate_succ, namePlaceholder, List.mem_cons] at h
    rcases h with rfl | h
    · rfl
    · rw [List.eq_of_mem_replicate h]

theorem parseConfigurationFiles_catalog (records : List (ProductRecord K))
    (hvalid : ∀ r ∈ records, 0 ≤ r.id ∧ r.id ≤ (records.length : Int)) :
    ∃ products parts, parseConfigurationFiles (some records) [] []
        = some (products, parts) ∧
      (∀ product ∈ products, IdMap.WF product.parts) ∧
      (∀ product ∈ products, ∀ q ∈ IdMap.keys product.parts,
        0 ≤ q ∧ q < (parts.length : Int)) := by
  obtain ⟨products, parts, hrun, _, _, _, _, hstored⟩ :=
    parseConfigurationFiles_stored records hvalid
  obtain ⟨products', parts', hrun', _, _, hkeep, hsplit⟩ := parseProducts_spec records
    (namePlaceholder (resizeProducts [] (records.length + 1))) ([] : List (ProductPart K))
    (by
      intro r hr
      obtain ⟨h0, h1⟩ := hvalid r hr
      rw [namePlaceholder_length, resizeProducts_nil_length]
      exact ⟨h0, by push_cast; omega⟩)
  have hsame : (products', parts') = (products, parts) := by
    have : some (products', parts') = some (products, parts) := by
      rw [← hrun', ← hrun]
      rfl
    exact Option.some.inj this
  obtain ⟨rfl, rfl⟩ := Prod.mk.inj hsame
  have hcases : ∀ product ∈ products', product.parts = [] ∨
      (IdMap.WF product.parts ∧
        ∀ q, vectorAt parts' q = none → IdMap.find product.parts q = none) := by
    intro product hmem
    obtain ⟨i, hi, hget⟩ := List.getElem_of_mem hmem
    have hat : vectorAt products' (i : Int) = some product := by
      rw [vectorAt_eq_some]
      exact ⟨by omega, by simp [hi, hget]⟩
    by_cases hex : ∃ r ∈ records, r.id = (i : Int)
    · obtain ⟨before, record, after, hrec, hid, hafter⟩ := exists_last_with_id (i : Int)
        records hex
      have hlast : ∀ r ∈ after, r.id ≠ record.id := fun r hr => hid ▸ hafter r hr
      have h1 := hsplit before record after hrec hlast
      obtain ⟨product2, h2, _, _, hnone⟩ := hstored before record after hrec hlast
      rw [hid, hat] at h1 h2
      obtain rfl := Option.some.inj h2
      right
      refine ⟨?_, hnone⟩
      rw [Option.some.inj h1]
      exact WF_parseParts _ _ _ (by simp [IdMap.WF, IdMap.keys])
    · left
      have hno : ∀ r ∈ records, r.id ≠ (i : Int) := fun r hr he => hex ⟨r, hr, he⟩
      rw [hkeep (i : Int) hno] at hat
      exact initial_products_no_parts _ product (vectorAt_mem _ _ _ hat)
  refine ⟨products', parts', hrun, ?_, ?_⟩
  · intro product hmem
    rcases hcases product hmem with h | h
    · rw [h]; simp [IdMap.WF, IdMap.keys]
    · exact h.1
  · intro product hmem q hq
    rcases hcases product hmem with h | h
    · rw [h] at hq; simp [IdMap.keys] at hq
    · obtain ⟨quantity, hfind⟩ := (IdMap.mem_keys_iff_find _ _).mp hq
      cases hpart : vectorAt parts' q with
      | none =>
        rw [h.2 q hpart] at hfind
        exact Option.noConfusion hfind
      | some part =>
        obtain ⟨h0, hget⟩ := (vectorAt_eq_some _ _ _).mp hpart
        obtain ⟨hlt, _⟩ := List.getElem?_eq_some.mp hget
        exact ⟨h0, by omega⟩

/-- C24: after `parseConfigurationFiles`, started with empty lists on a
configuration whose ids index the product list, every part id that is a key of
a product's parts map is an index of the parts list (and every parts map has
ascending keys).  Consequently, for an order whose product ids are catalog
indices, aggregation returns, every read `all_product_parts[part id]` in the
waypoint loop of `OrderExecutor::execute` is in range, and `printDeliveryPath`
returns for every pickup order made of waypoint indices. -/
theorem parseConfigurationFiles_part_ids_in_range (records : List (ProductRecord K))
    (hvalid : ∀ r ∈ records, 0 ≤ r.id ∧ r.id ≤ (records.length : Int)) :
    ∃ products parts, parseConfigurationFiles (some records) [] []
        = some (products, parts) ∧
      (∀ product ∈ products, IdMap.WF product.parts) ∧
      (∀ product ∈ products, ∀ q ∈ IdMap.keys product.parts,
        0 ≤ q ∧ q < (parts.length : Int)) ∧
      ∀ ordered_products : List Int,
        (∀ id ∈ ordered_products, 0 ≤ id ∧ id < (products.length : Int)) →
        ∃ processed positions,
          processOrderedProducts ordered_products products = some processed ∧
          collectWaypoints parts processed = some (IdMap.keys processed, positions) ∧
          positions.length = processed.length ∧
          ∀ (fmt : K → String) (starting_point delivery_point : Coordinates2D K)
            (pickup_order : List Nat) (stream : List String),
            (∀ i ∈ pickup_order, i < processed.length) →
            ∃ stream_after, printDeliveryPath fmt starting_point delivery_point pickup_order
              processed (IdMap.keys processed) parts stream = some stream_after := by
  obtain ⟨products, parts, hrun, hwf, hparts⟩ := parseConfigurationFiles_catalog records hvalid
  refine ⟨products, parts, hrun, hwf, hparts, ?_⟩
  intro ordered_products hids
  obtain ⟨processed, hproc, _, hkeypart, hlook⟩ := order_lookups_in_range products parts
    ordered_products hwf hids hparts
  obtain ⟨positions, hcollect, hlen⟩ := collectWaypoints_some parts processed hkeypart
  refine ⟨processed, positions, hproc, hcollect, hlen, ?_⟩
  intro fmt starting_point delivery_point pickup_order stream horder
  obtain ⟨stream', hstream'⟩ := printWaypoints_some fmt processed (IdMap.keys processed)
    parts pickup_order
    (fun i hi => by
      obtain ⟨kv, part, _, h2, h3, h4⟩ := hlook i (horder i hi)
      exact ⟨kv.1, part, kv.2, h2, h3, h4⟩)
    (stream ++ [startingLine fmt starting_point])
  exact ⟨stream' ++ [deliveringLine fmt delivery_point], by
    simp [printDeliveryPath, hstream']⟩

theorem parseConfigurationFiles_part_ids_in_range_witness :
    (∀ r ∈ (sampleConfiguration : List (ProductRecord ℚ)),
      0 ≤ r.id ∧ r.id ≤ ((sampleConfiguration : List (ProductRecord ℚ)).length : Int)) ∧
    ∃ products parts,
      parseConfigurationFiles (some (sampleConfiguration : List (ProductRecord ℚ))) [] []
        = some (products, parts) ∧
      (∀ product ∈ products, IdMap.WF product.parts) ∧
      (∀ product ∈ products, ∀ q ∈ IdMap.keys product.parts,
        0 ≤ q ∧ q < (parts.length : Int)) := by
  have hvalid : ∀ r ∈ (sampleConfiguration : List (ProductRecord ℚ)),
      0 ≤ r.id ∧ r.id ≤ ((sampleConfiguration : List (ProductRecord ℚ)).length : Int) := by
    intro r hr
    simp only [sampleConfiguration, List.mem_cons, List.mem_singleton, List.not_mem_nil,
      or_false] at hr
    rcases hr with rfl | rfl | rfl <;> simp [sampleConfiguration]
  obtain ⟨products, parts, h1, h2, h3, _⟩ :=
    parseConfigurationFiles_part_ids_in_range sampleConfiguration hvalid
  exact ⟨hvalid, products, parts, h1, h2, h3⟩

end Catalog

end AMR
